import Mathlib

/-!
# SkillSwap recommendation engine

A shallow embedding of `SkillRecommender.getRecommendations`
(`src/backend-recommendations.js`) and of the two SQL queries it issues.

Modelling choices:
* A JavaScript number is the rational it stands for. `computeScore` and
  `getRecommendations` take the sums of the score exactly; `computeScoreWith` and
  `getRecommendationsWith` take a `Rounding` and round every operation with it. With
  `ieeeDouble` every operation is rounded to binary64 (`roundDouble`), as JavaScript
  does: this is the model that decides which scores tie and how far two scores lie
  apart; with `exactRounding` they are `computeScore` and `getRecommendations`.
* The AVG and COUNT aggregates of the candidate query are carried by the row
  (`user_rating`, `total_trades`).
* `db.execute` is a `FactProvider`: the rows returned by the two queries.
  `sqlProvider` is the provider given by the SQL text over a stored population.
* A JavaScript `Set` / `Map` is a list in insertion order.
* `Array.prototype.sort` is stable, so with the comparator `b.score - a.score`
  its result is the stable sort by score descending (`List.insertionSort`).
* SQL string comparison (`=`, `IN`) follows the collation of the column, which the
  schema fixes: `qualifiesBy` takes it as a `Collation`. `qualifies` and `sqlProvider`
  are the query under a binary collation, where strings are equal when identical.
* A `Database` is a `db.execute` whose queries may throw; an `Outcome` records the
  queries a method issued and the value it returned or the error it threw.
* The trending query is evaluated over the three tables it joins, with times in
  seconds and the evaluation time `now` (SQL `NOW()`) as a parameter.
* The handlers take the request after express and `authenticateToken` have run:
  `req.user`, the path parameter and the parsed `limit`.
* `authenticateToken` takes `jwt.verify` and the users lookup as an environment;
  the recommendations router serves a request by the first registered route that
  matches its path.
* The socket handler `update_trade_status` and `POST /skills` run over in-memory
  tables with the database answering; `trades` is keyed by its primary key.
-/

namespace SkillSwap

/-! ## Data model -/

/-- One row of the first query: `SELECT s.id, s.name, s.category, us.skill_type`. -/
structure UserSkill where
  id : Nat
  name : String
  category : String
  skill_type : String
deriving DecidableEq

/-- One row of the candidate query (an element of `potentialMatches`). -/
structure Match where
  user_id : Nat
  username : String
  full_name : String
  skill_id : Nat
  skill_name : String
  category : String
  skill_type : String
  proficiency_level : String
  user_rating : Option ℚ
  total_trades : Nat
deriving DecidableEq

/-- The object stored in `userScores`: the row spread, plus `score`. -/
structure Recommendation extends Match where
  score : ℚ
deriving DecidableEq

/-- The two result sets `db.execute` hands to `getRecommendations`. -/
structure FactProvider where
  userSkills : Nat → List UserSkill
  potentialMatches : Nat → List String → List String → List String → List Match

/-! ## JavaScript collections -/

/-- The elements of `new Set(xs)` in insertion order (first occurrences). -/
def newSet {α : Type} [DecidableEq α] (xs : List α) : List α :=
  xs.foldl (fun acc x => if x ∈ acc then acc else acc ++ [x]) []

/-- A JavaScript `Map` with numeric keys: its entries in insertion order. -/
abbrev JsMap (V : Type) := List (Nat × V)

/-- Lookup `Map.prototype.get`; `none` stands for `undefined` (equivalently `has` is false). -/
def JsMap.get {V : Type} : JsMap V → Nat → Option V
  | [], _ => none
  | (k', v) :: rest, k => if k' = k then some v else JsMap.get rest k

/-- Update `Map.prototype.set`: an existing key keeps its position, a new key is appended. -/
def JsMap.set {V : Type} : JsMap V → Nat → V → JsMap V
  | [], k, v => [(k, v)]
  | (k', v') :: rest, k, v =>
    if k' = k then (k, v) :: rest else (k', v') :: JsMap.set rest k v

/-- The values `Array.from(map.values())`. -/
def JsMap.values {V : Type} (m : JsMap V) : List V := m.map Prod.snd

/-- The keys of the map in insertion order. -/
def JsMap.keys {V : Type} (m : JsMap V) : List Nat := m.map Prod.fst

/-- The call `xs.slice(0, end)`: a negative `end` counts from the end of the array. -/
def slice0 {α : Type} (xs : List α) (limit : Int) : List α :=
  let len : Int := xs.length
  let final : Int := if limit < 0 then max (len + limit) 0 else min limit len
  xs.take final.toNat

/-! ## getRecommendations -/

/-- Source line 36: the names of the caller's offering declarations. -/
def offeringSkills (userSkills : List UserSkill) : List String :=
  (userSkills.filter (fun s => s.skill_type = "offering")).map (fun s => s.name)

/-- Source line 37: the names of the caller's seeking declarations. -/
def seekingSkills (userSkills : List UserSkill) : List String :=
  (userSkills.filter (fun s => s.skill_type = "seeking")).map (fun s => s.name)

/-- Source line 38: the distinct categories of the caller's declarations. -/
def userCategories (userSkills : List UserSkill) : List String :=
  newSet (userSkills.map (fun s => s.category))

/-- Source lines 77-96: the score computed for one candidate row, statement by statement,
with the sums taken exactly (`computeScoreWith` rounds them). -/
def computeScore (seeking offering categories : List String) (m : Match) : ℚ :=
  let score : ℚ := 0
  let score : ℚ :=
    if m.skill_type = "offering" ∧ m.skill_name ∈ seeking then score + 10
    else if m.skill_type = "seeking" ∧ m.skill_name ∈ offering then score + 8
    else if m.category ∈ categories then score + 3
    else score
  let score : ℚ :=
    match m.user_rating with
    | some r => if r ≠ 0 then score + r * 2 else score
    | none => score
  let score : ℚ := score + min ((m.total_trades : ℚ) * (1 / 2)) 10
  let score : ℚ := if m.proficiency_level = "expert" then score + 2 else score
  let score : ℚ := if m.proficiency_level = "intermediate" then score + 1 else score
  score

/-- Source lines 76-104: the body of the `forEach` callback, as a step on `userScores`. -/
def scoreStep (seeking offering categories : List String)
    (userScores : JsMap Recommendation) (m : Match) : JsMap Recommendation :=
  let score := computeScore seeking offering categories m
  match userScores.get m.user_id with
  | none => userScores.set m.user_id { toMatch := m, score := score }
  | some kept =>
    if kept.score < score then userScores.set m.user_id { toMatch := m, score := score }
    else userScores

/-- The map `userScores` after the `forEach` over `potentialMatches`. -/
def userScores (seeking offering categories : List String) (potentialMatches : List Match) :
    JsMap Recommendation :=
  potentialMatches.foldl (scoreStep seeking offering categories) []

/-- The comparator `(a, b) => b.score - a.score` is non-positive: `a` may stay before `b`. -/
def scoreDesc (a b : Recommendation) : Prop := b.score ≤ a.score

instance : DecidableRel scoreDesc := fun a b => inferInstanceAs (Decidable (b.score ≤ a.score))

/-- Source lines 107-108 without the slice: the values of `userScores`, sorted. -/
def sortedByScore (entries : List Recommendation) : List Recommendation :=
  entries.insertionSort scoreDesc

/-- The rows `potentialMatches` that the provider returns for the caller `userId`. -/
def candidates (db : FactProvider) (userId : Nat) : List Match :=
  let us := db.userSkills userId
  db.potentialMatches userId (seekingSkills us) (offeringSkills us) (userCategories us)

/-- The deduplicated candidates in score order, before `slice(0, limit)`. -/
def rankedCandidates (db : FactProvider) (userId : Nat) : List Recommendation :=
  let us := db.userSkills userId
  sortedByScore
    (userScores (seekingSkills us) (offeringSkills us) (userCategories us)
      (candidates db userId)).values

/-- The method `getRecommendations(userId, limit = 5)`; `none` is an omitted limit. -/
def getRecommendations (db : FactProvider) (userId : Nat) (limit : Option Int) :
    List Recommendation :=
  let limit : Int := limit.getD 5
  let userSkills := db.userSkills userId
  let offering := offeringSkills userSkills
  let seeking := seekingSkills userSkills
  let categories := userCategories userSkills
  let potentialMatches := db.potentialMatches userId seeking offering categories
  let scores := userScores seeking offering categories potentialMatches
  let topRecommendations := slice0 (sortedByScore scores.values) limit
  topRecommendations

/-! ## The provider order -/

/-- The strict order of `ORDER BY user_rating`: an absent rating (NULL) is the lowest. -/
def ratingLt : Option ℚ → Option ℚ → Prop
  | none, some _ => True
  | some a, some b => a < b
  | _, none => False

instance : DecidableRel ratingLt := fun a b =>
  match a, b with
  | none, some _ => isTrue trivial
  | some a, some b => inferInstanceAs (Decidable (a < b))
  | none, none => isFalse (fun h => h)
  | some _, none => isFalse (fun h => h)

/-- Row `a` may stand before row `b` under `ORDER BY user_rating DESC, total_trades DESC`:
`a` has the higher rating, or the same rating and a trade count at least as high. -/
def providerOrder (a b : Match) : Prop :=
  ratingLt b.user_rating a.user_rating ∨
    (a.user_rating = b.user_rating ∧ b.total_trades ≤ a.total_trades)

instance : DecidableRel providerOrder := fun a b =>
  inferInstanceAs (Decidable (ratingLt b.user_rating a.user_rating ∨
    (a.user_rating = b.user_rating ∧ b.total_trades ≤ a.total_trades)))

/-- The number of distinct `user_id`s among the rows. -/
def distinctUsers (rows : List Match) : Nat :=
  ((rows.map (fun m => m.user_id)).dedup).length

/-! ## The two queries over a stored population -/

/-- One `user_skills` row joined with its skill and its user (the `GROUP BY us.id` unit of the
candidate query): the selected columns, among them the user's aggregates `AVG(r.rating)` and
`COUNT(DISTINCT t1.id) + COUNT(DISTINCT t2.id)`, and the two `is_active` flags. -/
structure StoredDeclaration where
  row : Match
  us_is_active : Bool
  user_is_active : Bool
deriving DecidableEq

/-- Source lines 29-34: the caller's active declarations. -/
def userSkillsQuery (population : List StoredDeclaration) (userId : Nat) : List UserSkill :=
  (population.filter (fun d => d.row.user_id = userId ∧ d.us_is_active = true)).map
    (fun d => { id := d.row.skill_id, name := d.row.skill_name, category := d.row.category,
                skill_type := d.row.skill_type })

/-- The text spliced into an `IN (...)` list: `xs.map(() => '?').join(', ') || 'NULL'`. -/
def inPlaceholders (xs : List String) : String :=
  let joined := ", ".intercalate (xs.map (fun _ => "?"))
  if joined = "" then "NULL" else joined

/-- The SQL test `x IN (xs)` as a WHERE condition under a binary collation (`sqlInBy` takes
the collation); for an empty `xs` the text is `IN (NULL)`, which is never true. -/
def sqlIn (x : String) (xs : List String) : Bool := decide (x ∈ xs)

/-- Source lines 62-66: the qualifying condition of the candidate query. -/
def qualifies (seeking offering categories : List String) (m : Match) : Bool :=
  (decide (m.skill_type = "offering") && sqlIn m.skill_name seeking)
    || (decide (m.skill_type = "seeking") && sqlIn m.skill_name offering)
    || sqlIn m.category categories

/-- Source lines 59-66: the whole WHERE clause of the candidate query. -/
def whereClause (userId : Nat) (seeking offering categories : List String)
    (d : StoredDeclaration) : Bool :=
  decide (d.row.user_id ≠ userId) && d.user_is_active && d.us_is_active
    && qualifies seeking offering categories d.row

/-- The distinct rows that satisfy the WHERE clause (`SELECT DISTINCT`), before `ORDER BY`. -/
def qualifyingRows (population : List StoredDeclaration) (userId : Nat)
    (seeking offering categories : List String) : List Match :=
  ((population.filter (whereClause userId seeking offering categories)).map
    (fun d => d.row)).dedup

/-- Source lines 41-70: the candidate query, `ORDER BY user_rating DESC, total_trades DESC
LIMIT 20` (rows that tie in the order keep their stored order). -/
def candidateQuery (population : List StoredDeclaration) (userId : Nat)
    (seeking offering categories : List String) : List Match :=
  ((qualifyingRows population userId seeking offering categories).insertionSort
    providerOrder).take 20

/-- The provider that answers both queries from a stored population. -/
def sqlProvider (population : List StoredDeclaration) : FactProvider :=
  { userSkills := userSkillsQuery population,
    potentialMatches := candidateQuery population }

/-! ## The score as the specification words it -/

/-- The match-type bonus: offering match 10, else seeking match 8, else category 3, else 0. -/
def matchBonus (seeking offering categories : List String) (m : Match) : ℚ :=
  if m.skill_type = "offering" ∧ m.skill_name ∈ seeking then 10
  else if m.skill_type = "seeking" ∧ m.skill_name ∈ offering then 8
  else if m.category ∈ categories then 3
  else 0

/-- The reputation bonus: twice the rating, or 0 when the rating is absent. -/
def ratingBonus (m : Match) : ℚ :=
  match m.user_rating with
  | some r => 2 * r
  | none => 0

/-- The experience bonus: half a point per completed trade, capped at 10. -/
def experienceBonus (m : Match) : ℚ := min ((1 / 2) * (m.total_trades : ℚ)) 10

/-- The proficiency bonus: 2 for expert, 1 for intermediate, 0 otherwise. -/
def proficiencyBonus (m : Match) : ℚ :=
  if m.proficiency_level = "expert" then 2
  else if m.proficiency_level = "intermediate" then 1
  else 0

/-- The score as the sum of the four bonuses. -/
def specScore (seeking offering categories : List String) (m : Match) : ℚ :=
  matchBonus seeking offering categories m + ratingBonus m + experienceBonus m
    + proficiencyBonus m

/-! ## Example data -/

/-- Candidate A of the scenario: offers React Development, expert, rating 4.8, 23 trades. -/
def candidateA : Match :=
  { user_id := 2, username := "alice", full_name := "Alice A", skill_id := 10,
    skill_name := "React Development", category := "Programming", skill_type := "offering",
    proficiency_level := "expert", user_rating := some 4.8, total_trades := 23 }

/-- Candidate B of the scenario: another Programming skill, intermediate, rating 4.0, 5 trades. -/
def candidateB : Match :=
  { user_id := 3, username := "bob", full_name := "Bob B", skill_id := 11,
    skill_name := "Python", category := "Programming", skill_type := "offering",
    proficiency_level := "intermediate", user_rating := some 4.0, total_trades := 5 }

/-- The caller of the scenario: one declaration, seeking React Development. -/
def scenarioSkills : List UserSkill :=
  [{ id := 10, name := "React Development", category := "Programming", skill_type := "seeking" }]

/-- A provider answering the scenario with the rows in the given order. -/
def scenarioDb (rows : List Match) : FactProvider :=
  { userSkills := fun _ => scenarioSkills, potentialMatches := fun _ _ _ _ => rows }

/-- Three declarations of user 2 (category match, offering match, a later copy of the
offering match under another skill id) after one declaration of user 3. -/
def repeatedRows : List Match :=
  [candidateB,
   { candidateA with skill_id := 12, skill_name := "Vue", skill_type := "seeking" },
   candidateA,
   { candidateA with skill_id := 13 }]

/-- Three users in provider order; users 2 and 4 reach the same score 31.6. -/
def tiedRows : List Match :=
  [candidateA,
   { candidateA with user_id := 4, username := "carol", full_name := "Carol C",
                     total_trades := 20 },
   candidateB]

/-- The stored declaration of the scenario's caller (user 1 seeks React Development). -/
def callerDeclaration : StoredDeclaration :=
  { row := { user_id := 1, username := "dana", full_name := "Dana D", skill_id := 10,
             skill_name := "React Development", category := "Programming",
             skill_type := "seeking", proficiency_level := "beginner", user_rating := none,
             total_trades := 0 },
    us_is_active := true, user_is_active := true }

/-- An active declaration of an active user with the given row. -/
def stored (m : Match) : StoredDeclaration :=
  { row := m, us_is_active := true, user_is_active := true }

/-- A declaration that matches the caller by category only, of a user rated 5 with no trade. -/
def categoryOnly (i : Nat) : Match :=
  { user_id := 100 + i, username := "user", full_name := "User", skill_id := 11,
    skill_name := "Python", category := "Programming", skill_type := "offering",
    proficiency_level := "beginner", user_rating := some 5, total_trades := 0 }

/-- A population in which 21 declarations qualify: twenty category-only declarations of users
rated 5, and candidate A (rated 4.8), who offers the skill the caller seeks. -/
def crowdedPopulation : List StoredDeclaration :=
  callerDeclaration :: stored candidateA :: (List.range 20).map (fun i => stored (categoryOnly i))

/-- A small population: the caller, candidate A and candidate B. -/
def smallPopulation : List StoredDeclaration :=
  [callerDeclaration, stored candidateA, stored candidateB]

/-- The small population with the caller's only declaration deactivated. -/
def idlePopulation : List StoredDeclaration :=
  [{ callerDeclaration with us_is_active := false }, stored candidateA, stored candidateB]

/-! ## The trending query -/

/-- A row of `skills` with the columns the trending query reads; `id` is the primary key. -/
structure SkillRow where
  id : Nat
  name : String
  category : String
  is_active : Bool
deriving DecidableEq

/-- A row of `user_skills` with the columns the trending query reads. -/
structure UserSkillRow where
  id : Nat
  skill_id : Nat
  is_active : Bool
deriving DecidableEq

/-- A row of `trades` with the columns the trending query reads; `created_at` in seconds. -/
structure TradeRow where
  id : Nat
  requester_skill_id : Nat
  provider_skill_id : Nat
  created_at : Int
deriving DecidableEq

/-- The three tables the trending query joins. -/
structure TrendTables where
  skills : List SkillRow
  user_skills : List UserSkillRow
  trades : List TradeRow

/-- One row returned by the trending query (source lines 122-128). -/
structure TrendingSkill where
  id : Nat
  name : String
  category : String
  user_count : Nat
  trade_count : Nat
  trend_score : ℚ
deriving DecidableEq

/-- The length of `INTERVAL 30 DAY` in seconds. -/
def thirtyDays : Int := 30 * 24 * 60 * 60

/-- The bound `DATE_SUB(NOW(), INTERVAL 30 DAY)` for the evaluation time `now`. -/
def windowStart (now : Int) : Int := now - thirtyDays

/-- Source lines 132 and 134: `created_at >= DATE_SUB(NOW(), INTERVAL 30 DAY)`. -/
def inWindow (now createdAt : Int) : Bool := decide (windowStart now ≤ createdAt)

/-- The `user_skills` rows joined to skill `s` that pass `us.is_active = TRUE`. -/
def activeDeclarations (t : TrendTables) (s : SkillRow) : List UserSkillRow :=
  t.user_skills.filter (fun us => decide (s.id = us.skill_id) && us.is_active)

/-- The trades joined as `t1`: `us.id = t1.requester_skill_id` and the window condition. -/
def requesterTrades (t : TrendTables) (now : Int) (s : SkillRow) : List TradeRow :=
  t.trades.filter (fun tr =>
    (activeDeclarations t s).any (fun us => decide (us.id = tr.requester_skill_id))
      && inWindow now tr.created_at)

/-- The trades joined as `t2`: `us.id = t2.provider_skill_id` and the window condition. -/
def providerTrades (t : TrendTables) (now : Int) (s : SkillRow) : List TradeRow :=
  t.trades.filter (fun tr =>
    (activeDeclarations t s).any (fun us => decide (us.id = tr.provider_skill_id))
      && inWindow now tr.created_at)

/-- The aggregate `COUNT(DISTINCT id)` over the given ids. -/
def countDistinct (ids : List Nat) : Nat := ids.dedup.length

/-- The column `user_count`: `COUNT(DISTINCT us.id)`. -/
def userCount (t : TrendTables) (s : SkillRow) : Nat :=
  countDistinct ((activeDeclarations t s).map (fun us => us.id))

/-- The column `trade_count`: `COUNT(DISTINCT t1.id) + COUNT(DISTINCT t2.id)`. -/
def tradeCount (t : TrendTables) (now : Int) (s : SkillRow) : Nat :=
  countDistinct ((requesterTrades t now s).map (fun tr => tr.id))
    + countDistinct ((providerTrades t now s).map (fun tr => tr.id))

/-- The selected row of the group of skill `s` (source lines 122-128). -/
def trendRow (t : TrendTables) (now : Int) (s : SkillRow) : TrendingSkill :=
  { id := s.id, name := s.name, category := s.category,
    user_count := userCount t s,
    trade_count := tradeCount t now s,
    trend_score := (userCount t s : ℚ) * 0.3
      + (countDistinct ((requesterTrades t now s).map (fun tr => tr.id)) : ℚ)
      + (countDistinct ((providerTrades t now s).map (fun tr => tr.id)) : ℚ) }

/-- The groups of `GROUP BY s.id`: the active skills joined to at least one active
declaration, each with its selected row. -/
def trendGroups (t : TrendTables) (now : Int) : List TrendingSkill :=
  (t.skills.filter (fun s => s.is_active && !(activeDeclarations t s).isEmpty)).map
    (trendRow t now)

/-- Row `a` may stand before row `b` under `ORDER BY trend_score DESC`. -/
def trendDesc (a b : TrendingSkill) : Prop := b.trend_score ≤ a.trend_score

instance : DecidableRel trendDesc := fun a b =>
  inferInstanceAs (Decidable (b.trend_score ≤ a.trend_score))

/-- The groups under `ORDER BY trend_score DESC` (groups that tie keep their table order). -/
def trendOrdered (t : TrendTables) (now : Int) : List TrendingSkill :=
  (trendGroups t now).insertionSort trendDesc

/-! ## Failing queries, the recommender object and the two handlers -/

/-- An error thrown by `db.execute`. -/
structure DbError where
  message : String
deriving DecidableEq

deriving instance DecidableEq for Except

/-- A query handed to `db.execute`, with its parameters. -/
inductive Query where
  | userSkills (userId : Nat)
  | potentialMatches (userId : Nat) (seeking offering categories : List String)
  | trendingSkills (limit : Int)
deriving DecidableEq

/-- The database behind `db.execute`: each query returns its rows or throws. -/
structure Database where
  userSkills : Nat → Except DbError (List UserSkill)
  potentialMatches :
    Nat → List String → List String → List String → Except DbError (List Match)
  trendingSkills : Int → Except DbError (List TrendingSkill)

/-- Source lines 121-139: the trending query with `LIMIT ?`; a negative row count is rejected
by the server. -/
def trendingQuery (t : TrendTables) (now : Int) (limit : Int) :
    Except DbError (List TrendingSkill) :=
  if limit < 0 then .error { message := "negative LIMIT" }
  else .ok ((trendOrdered t now).take limit.toNat)

/-- The database that answers the three queries from stored tables at evaluation time `now`. -/
def sqlDatabase (population : List StoredDeclaration) (t : TrendTables) (now : Int) :
    Database :=
  { userSkills := fun userId => .ok (userSkillsQuery population userId),
    potentialMatches := fun userId seeking offering categories =>
      .ok (candidateQuery population userId seeking offering categories),
    trendingSkills := trendingQuery t now }

/-- What an `async` method did: the queries it issued, in order, and the value it returned or
the error it threw. -/
structure Outcome (α : Type) where
  queries : List Query
  result : Except DbError α

/-- The class `SkillRecommender`: its two fields (source lines 10-11). -/
structure SkillRecommender where
  userSkillMatrix : JsMap (List String)
  skillSimilarity : JsMap ℚ

/-- Source lines 9-12: the constructor sets both fields to empty maps. -/
def SkillRecommender.constructor : SkillRecommender :=
  { userSkillMatrix := [], skillSimilarity := [] }

/-- Source lines 26-116: the method `getRecommendations(userId, limit = 5)` over a database
whose queries may throw; the `catch` block rethrows the error it caught. -/
def SkillRecommender.getRecommendations (_self : SkillRecommender) (db : Database)
    (userId : Nat) (limit : Option Int) : Outcome (List Recommendation) :=
  let limit : Int := limit.getD 5
  match db.userSkills userId with
  | .error error => { queries := [.userSkills userId], result := .error error }
  | .ok userSkills =>
    let offering := offeringSkills userSkills
    let seeking := seekingSkills userSkills
    let categories := userCategories userSkills
    match db.potentialMatches userId seeking offering categories with
    | .error error =>
      { queries := [.userSkills userId, .potentialMatches userId seeking offering categories],
        result := .error error }
    | .ok potentialMatches =>
      let scores := userScores seeking offering categories potentialMatches
      let topRecommendations := slice0 (sortedByScore scores.values) limit
      { queries := [.userSkills userId, .potentialMatches userId seeking offering categories],
        result := .ok topRecommendations }

/-- Source lines 119-146: the method `getTrendingSkills(limit = 10)`. -/
def SkillRecommender.getTrendingSkills (_self : SkillRecommender) (db : Database)
    (limit : Option Int) : Outcome (List TrendingSkill) :=
  let limit : Int := limit.getD 10
  match db.trendingSkills limit with
  | .error error => { queries := [.trendingSkills limit], result := .error error }
  | .ok trendingSkills => { queries := [.trendingSkills limit], result := .ok trendingSkills }

/-- The row `req.user` that `authenticateToken` attaches to the request. -/
structure AuthUser where
  id : Int
  role : String
deriving DecidableEq

/-- The path parameter `req.params.userId`, a string, through its two readings: the result of
`parseInt` (`none` is NaN) and the number the queries compare `user_id` with. -/
structure UserIdParam where
  parsed : Option Int
  sqlValue : Nat
deriving DecidableEq

/-- The JSON body of a response. -/
inductive Body where
  | error (error : String)
  | recommendations (recommendations : List Recommendation) (message : Option String)
  | trendingSkills (trendingSkills : List TrendingSkill)
deriving DecidableEq

/-- A response: status code and JSON body. -/
structure Response where
  status : Nat
  body : Body
deriving DecidableEq

/-- What a handler did: its response and the queries issued on the way. -/
structure Handled where
  response : Response
  queries : List Query
deriving DecidableEq

/-- The advisory text of source line 188. -/
def emptyMessage : String :=
  "No recommendations available yet. Complete your profile and start trading!"

/-- Source lines 174-194: the handler of `GET /:userId`, after `authenticateToken` has set
`req.user`; `limit` is the parsed query parameter, `none` when the query has none. -/
def getUserIdHandler (recommender : SkillRecommender) (db : Database) (user : AuthUser)
    (userId : UserIdParam) (limit : Option Int) : Handled :=
  let limit : Int := limit.getD 5
  if userId.parsed ≠ some user.id ∧ user.role ≠ "admin" then
    { response := { status := 403, body := .error "Forbidden" }, queries := [] }
  else
    let called := recommender.getRecommendations db userId.sqlValue (some limit)
    match called.result with
    | .ok recommendations =>
      { response :=
          { status := 200,
            body := .recommendations recommendations
              (if recommendations.length = 0 then some emptyMessage else none) },
        queries := called.queries }
    | .error _ =>
      { response := { status := 500, body := .error "Internal server error" },
        queries := called.queries }

/-- Source lines 212-222: the handler of `GET /trending`. -/
def getTrendingHandler (recommender : SkillRecommender) (db : Database)
    (limit : Option Int) : Handled :=
  let limit : Int := limit.getD 10
  let called := recommender.getTrendingSkills db (some limit)
  match called.result with
  | .ok trendingSkills =>
    { response := { status := 200, body := .trendingSkills trendingSkills },
      queries := called.queries }
  | .error _ =>
    { response := { status := 500, body := .error "Internal server error" },
      queries := called.queries }

/-! ## Example data for the trending query and the handlers -/

/-- An evaluation time: the start of day 100. -/
def trendNow : Int := 100 * 24 * 60 * 60

/-- Skill X of the scenario. -/
def skillX : SkillRow := { id := 1, name := "X", category := "Programming", is_active := true }

/-- Skill Y of the scenario. -/
def skillY : SkillRow := { id := 2, name := "Y", category := "Design", is_active := true }

/-- A third skill, the partner of three of Y's trades. -/
def skillW : SkillRow := { id := 3, name := "W", category := "Music", is_active := true }

/-- Tables of the scenario: X has 10 declarations and 5 recent trades, Y has 2 declarations
and 8 recent trades (5 with X, 3 with W), W has 1 declaration and 3 recent trades. -/
def scenarioTables : TrendTables :=
  { skills := [skillX, skillY, skillW],
    user_skills :=
      (List.range 10).map (fun i => { id := 1 + i, skill_id := 1, is_active := true })
        ++ [{ id := 11, skill_id := 2, is_active := true },
            { id := 12, skill_id := 2, is_active := true },
            { id := 13, skill_id := 3, is_active := true }],
    trades :=
      (List.range 5).map (fun i =>
          { id := 1 + i, requester_skill_id := 1 + i, provider_skill_id := 11,
            created_at := trendNow - 86400 })
        ++ (List.range 3).map (fun i =>
          { id := 6 + i, requester_skill_id := 12, provider_skill_id := 13,
            created_at := trendNow - 86400 }) }

/-- Tables with one trade between a declaration of X and a declaration of Y, created at the
given time. -/
def boundaryTables (createdAt : Int) : TrendTables :=
  { skills := [skillX, skillY],
    user_skills := [{ id := 1, skill_id := 1, is_active := true },
                    { id := 2, skill_id := 2, is_active := true }],
    trades := [{ id := 1, requester_skill_id := 1, provider_skill_id := 2,
                 created_at := createdAt }] }

/-- A database whose first query throws. -/
def skillsLookupDown : Database :=
  { userSkills := fun _ => .error { message := "connection lost" },
    potentialMatches := fun _ _ _ _ => .ok [candidateA],
    trendingSkills := fun _ => .error { message := "connection lost" } }

/-- A database whose first query answers and whose candidate query throws. -/
def candidateLookupDown : Database :=
  { userSkills := fun _ => .ok scenarioSkills,
    potentialMatches := fun _ _ _ _ => .error { message := "timeout" },
    trendingSkills := fun _ => .ok [] }

/-- An administrator. -/
def adminUser : AuthUser := { id := 7, role := "admin" }

/-- An ordinary user with id 1. -/
def plainUser : AuthUser := { id := 1, role := "user" }

/-- The small population with the caller's user row deactivated (declaration still active). -/
def inactiveCallerPopulation : List StoredDeclaration :=
  [{ callerDeclaration with user_is_active := false }, stored candidateA, stored candidateB]

/-- Rows in which user 2 occurs first with a lower-scoring declaration, user 4 follows with a
declaration scoring 31.6, and user 2 then reaches 31.6 with a later declaration. -/
def overtakingRows : List Match :=
  [{ candidateA with skill_id := 12, skill_name := "Vue", skill_type := "seeking" },
   { candidateA with user_id := 4, username := "carol", full_name := "Carol C",
                     total_trades := 20 },
   candidateA]

/-- The position of the first declaration of user `u` in the provider sequence. -/
def firstOccurrence (rows : List Match) (u : Nat) : Nat :=
  (rows.map (fun m => m.user_id)).indexOf u

/-! ## calculateSimilarity -/

/-- Source lines 15-23: the method `calculateSimilarity(skillsA, skillsB)`. -/
def calculateSimilarity {α : Type} [DecidableEq α] (skillsA skillsB : List α) : ℚ :=
  let setA := newSet skillsA
  let setB := newSet skillsB
  let intersection := newSet (setA.filter (fun x => decide (x ∈ setB)))
  let union := newSet (setA ++ setB)
  if union.length = 0 then 0 else (intersection.length : ℚ) / (union.length : ℚ)

/-- The Jaccard index of two finite sets as the specification words it: the size of the
intersection over the size of the union. -/
def jaccardIndex {α : Type} [DecidableEq α] (S T : Finset α) : ℚ :=
  ((S ∩ T).card : ℚ) / ((S ∪ T).card : ℚ)

/-! ## authenticateToken and the recommendations router -/

/-- A row of `users` as selected at line 19 of the middleware. -/
structure UserRow where
  id : Int
  username : String
  email : String
  role : String
  is_active : Bool
deriving DecidableEq

/-- What the middleware calls outside this repository: `jwt.verify` (`none` when it throws,
otherwise the `userId` of the decoded payload) and the `users` lookup of `db.execute`. -/
structure AuthEnv where
  verify : String → Option Int
  usersById : Int → Except DbError (List UserRow)

/-- The pieces of `cs.split(' ')` for a string given by its characters. -/
def splitOnSpace : List Char → List (List Char)
  | [] => [[]]
  | c :: cs =>
    match splitOnSpace cs with
    | [] => [[c]]
    | w :: ws => if c = ' ' then [] :: w :: ws else (c :: w) :: ws

/-- The array `s.split(' ')`. -/
def jsSplitSpace (s : String) : List String := (splitOnSpace s.toList).map String.mk

/-- Line 8 of the middleware: `authHeader && authHeader.split(' ')[1]`; `none` is undefined. -/
def bearerToken (authHeader : Option String) : Option String :=
  match authHeader with
  | none => none
  | some header => if header = "" then some "" else (jsSplitSpace header).get? 1

/-- What a middleware did: it called `next()` with `req.user` set, or it sent a response. -/
inductive MiddlewareResult where
  | next (user : UserRow)
  | respond (response : Response)
deriving DecidableEq

/-- Lines 6-32 of the middleware: `authenticateToken`. -/
def authenticateToken (env : AuthEnv) (authHeader : Option String) : MiddlewareResult :=
  match bearerToken authHeader with
  | none => .respond { status := 401, body := .error "Access token required" }
  | some token =>
    if token = "" then .respond { status := 401, body := .error "Access token required" }
    else
      match env.verify token with
      | none => .respond { status := 403, body := .error "Invalid token" }
      | some userId =>
        match env.usersById userId with
        | .error _ => .respond { status := 403, body := .error "Invalid token" }
        | .ok [] => .respond { status := 401, body := .error "Invalid or expired token" }
        | .ok (row :: _) =>
          if row.is_active = false then
            .respond { status := 401, body := .error "Invalid or expired token" }
          else .next row

/-- A GET request to the recommendations router: the path `/segment`, the Authorization
header and the parsed `limit` query parameter. -/
structure RouterRequest where
  segment : String
  authorization : Option String
  limit : Option Int

/-- The two routes of the recommendations router. -/
inductive Route where
  | userId
  | trending
deriving DecidableEq

/-- Whether the route's path matches `/segment`: `/:userId` matches every non-empty segment,
`/trending` matches that segment. -/
def Route.pathMatches : Route → String → Bool
  | .userId, segment => decide (segment ≠ "")
  | .trending, segment => decide (segment = "trending")

/-- The routes in registration order (source lines 174 and 212). -/
def registeredRoutes : List Route := [.userId, .trending]

/-- The stack of a route: `/:userId` runs `authenticateToken` and, after `next()`, its handler;
`/trending` runs its handler. `readParam` reads the path parameter (JavaScript `parseInt` and
the number MySQL compares with). -/
def Route.run (env : AuthEnv) (recommender : SkillRecommender) (db : Database)
    (readParam : String → UserIdParam) : Route → RouterRequest → Handled
  | .userId, req =>
    match authenticateToken env req.authorization with
    | .respond response => { response := response, queries := [] }
    | .next user =>
      getUserIdHandler recommender db { id := user.id, role := user.role }
        (readParam req.segment) req.limit
  | .trending, req => getTrendingHandler recommender db req.limit

/-- The router: the first registered route whose path matches serves the request (neither
handler calls `next()`); `none` when no route matches. -/
def recommendationsRouter (routes : List Route) (env : AuthEnv) (recommender : SkillRecommender)
    (db : Database) (readParam : String → UserIdParam) (req : RouterRequest) :
    Option Handled :=
  (routes.find? (fun route => route.pathMatches req.segment)).map
    (fun route => route.run env recommender db readParam req)

/-- An environment with one valid token, of user 1. -/
def scenarioAuth : AuthEnv :=
  { verify := fun token => if token = "good" then some 1 else none,
    usersById := fun userId =>
      if userId = 1 then
        .ok [{ id := 1, username := "dana", email := "dana@example.org", role := "user",
               is_active := true }]
      else .ok [] }

/-- A reading of the path parameter for the examples: digits give their number, any other
segment is NaN for `parseInt` and 0 for MySQL. -/
def readDigits (segment : String) : UserIdParam :=
  if segment = "1" then { parsed := some 1, sqlValue := 1 }
  else if segment = "2" then { parsed := some 2, sqlValue := 2 }
  else { parsed := none, sqlValue := 0 }

/-! ## The socket handler update_trade_status -/

/-- A row of `trades` with the columns the handler reads and writes. -/
structure TradeRecord where
  requester_id : Nat
  provider_id : Nat
  status : String
  notes : String
  completed_at : Option Int
deriving DecidableEq

/-- The table `trades`, keyed by its primary key `id`. -/
abbrev TradeTable := Nat → Option TradeRecord

/-- The payload `data` of the event: `{ tradeId, status, notes = '' }`. -/
structure StatusUpdate where
  tradeId : Nat
  status : String
  notes : Option String
deriving DecidableEq

/-- What the handler emits: an error to the sender, the status update to the trade room, the
notification to the other participant. -/
inductive SocketEmit where
  | error (message : String)
  | tradeStatusUpdated (tradeId : Nat) (status notes : String)
  | tradeNotification (receiverId tradeId : Nat) (message : String)
deriving DecidableEq

/-- Source lines 157-168: the flag `canUpdate`. -/
def canUpdate (trade : TradeRecord) (senderId : Nat) (status : String) : Bool :=
  if status = "accepted" ∧ trade.status = "pending" then decide (trade.provider_id = senderId)
  else if status = "rejected" ∧ trade.status = "pending" then
    decide (trade.provider_id = senderId)
  else if status = "in_progress" ∧ trade.status = "accepted" then true
  else if status = "completed" ∧ trade.status = "in_progress" then true
  else false

/-- Source lines 147-150: the row of `tradeId` when the sender is its requester or provider. -/
def selectTrade (trades : TradeTable) (tradeId senderId : Nat) : Option TradeRecord :=
  (trades tradeId).filter
    (fun trade => decide (trade.requester_id = senderId ∨ trade.provider_id = senderId))

/-- Source lines 175-182: the row after `UPDATE trades SET status = ?, notes = ?` (and
`completed_at = NOW()` when the new status is completed). -/
def updatedTrade (trade : TradeRecord) (status notes : String) (now : Int) : TradeRecord :=
  { trade with
    status := status, notes := notes,
    completed_at := if status = "completed" then some now else trade.completed_at }

/-- Source lines 142-206: the handler of `update_trade_status` for the socket of user
`senderId` at time `now`, with the database answering: the table afterwards and the emitted
events. -/
def updateTradeStatus (trades : TradeTable) (senderId : Nat) (now : Int)
    (data : StatusUpdate) : TradeTable × List SocketEmit :=
  let notes := data.notes.getD ""
  match selectTrade trades data.tradeId senderId with
  | none => (trades, [.error "Unauthorized"])
  | some trade =>
    if canUpdate trade senderId data.status = false then
      (trades, [.error "Cannot update trade status"])
    else
      let receiverId :=
        if trade.requester_id = senderId then trade.provider_id else trade.requester_id
      (Function.update trades data.tradeId (some (updatedTrade trade data.status notes now)),
        [.tradeStatusUpdated data.tradeId data.status notes,
         .tradeNotification receiverId data.tradeId
           ("Trade status updated to " ++ data.status)])

/-- Whether the handler applied the update: it emitted no error. -/
def applied (outcome : TradeTable × List SocketEmit) : Bool :=
  outcome.2.all (fun e => match e with
    | .error _ => false
    | _ => true)

/-- The condition of the behaviour claim: the sender takes part in the trade and the
requested status is a permitted next step. -/
def changePermitted (trade : TradeRecord) (senderId : Nat) (status : String) : Prop :=
  (trade.requester_id = senderId ∨ trade.provider_id = senderId) ∧
    ((trade.status = "pending" ∧ (status = "accepted" ∨ status = "rejected") ∧
        trade.provider_id = senderId) ∨
      (trade.status = "accepted" ∧ status = "in_progress") ∨
      (trade.status = "in_progress" ∧ status = "completed"))

/-- One `update_trade_status` event: who sent it, when, and its payload. -/
structure StatusEvent where
  senderId : Nat
  now : Int
  data : StatusUpdate

/-- The number of events, handled one after the other, that applied an update to trade
`tradeId`. -/
def successfulUpdates (tradeId : Nat) : TradeTable → List StatusEvent → Nat
  | _, [] => 0
  | trades, ev :: rest =>
    (if applied (updateTradeStatus trades ev.senderId ev.now ev.data) = true
        ∧ ev.data.tradeId = tradeId then 1 else 0)
      + successfulUpdates tradeId (updateTradeStatus trades ev.senderId ev.now ev.data).1 rest

/-- The position of a status on the path pending, accepted, in_progress, completed; every
other status, rejected among them, counts as final. -/
def statusRank (status : String) : Nat :=
  if status = "pending" then 0
  else if status = "accepted" then 1
  else if status = "in_progress" then 2
  else 3

/-- The rank of the status stored for a trade id; 3 when the table has no such trade. -/
def tradeRank (trades : TradeTable) (tradeId : Nat) : Nat :=
  match trades tradeId with
  | none => 3
  | some trade => statusRank trade.status

/-- A table with one trade, number 5, requested by user 1 from user 2, pending. -/
def oneTrade : TradeTable := fun tradeId =>
  if tradeId = 5 then
    some { requester_id := 1, provider_id := 2, status := "pending", notes := "",
           completed_at := none }
  else none

/-- The life of trade 5: accepted by the provider, started and completed by the requester,
followed by two further attempts. -/
def tradeLife : List StatusEvent :=
  [{ senderId := 1, now := 10, data := { tradeId := 5, status := "accepted", notes := none } },
   { senderId := 2, now := 11, data := { tradeId := 5, status := "accepted", notes := none } },
   { senderId := 1, now := 12,
     data := { tradeId := 5, status := "in_progress", notes := some "started" } },
   { senderId := 1, now := 13, data := { tradeId := 5, status := "completed", notes := none } },
   { senderId := 2, now := 14, data := { tradeId := 5, status := "pending", notes := none } },
   { senderId := 2, now := 15, data := { tradeId := 5, status := "completed", notes := none } }]

/-! ## POST /skills -/

/-- A row of `skills` with the columns `POST /skills` reads and writes. -/
structure SkillsTableRow where
  id : Nat
  name : String
  category : String
  description : String
deriving DecidableEq

/-- A row of `user_skills` with the columns `POST /skills` reads and writes. -/
structure UserSkillsTableRow where
  id : Nat
  user_id : Int
  skill_id : Nat
  skill_type : String
  proficiency_level : String
  description : String
  is_active : Bool
deriving DecidableEq

/-- The two tables behind `POST /skills`, each with the id its next insert receives. -/
structure SkillsStore where
  skills : List SkillsTableRow
  user_skills : List UserSkillsTableRow
  nextSkillId : Nat
  nextUserSkillId : Nat

/-- The request body after the validators of lines 227-231 ran, with the errors that
`validationResult(req)` reports. -/
structure AddSkillRequest where
  errors : List String
  skillName : String
  category : String
  skillType : String
  proficiencyLevel : String
  description : Option String

/-- The JSON body of a response of `POST /skills`. -/
inductive SkillsBody where
  | errors (errors : List String)
  | error (error : String)
  | added (message : String) (userSkillId : Nat)
deriving DecidableEq

/-- A response of `POST /skills`. -/
structure SkillsResponse where
  status : Nat
  body : SkillsBody
deriving DecidableEq

/-- Source lines 242-253: the id of the skill named `skillName`, inserting the skill when no
row has that name. -/
def resolveSkill (store : SkillsStore) (skillName category description : String) :
    SkillsStore × Nat :=
  match store.skills.filter (fun row => decide (row.name = skillName)) with
  | [] =>
    ({ store with
        skills := store.skills ++
          [{ id := store.nextSkillId, name := skillName, category := category,
             description := description }],
        nextSkillId := store.nextSkillId + 1 },
      store.nextSkillId)
  | row :: _ => (store, row.id)

/-- Source lines 232-279: the handler of `POST /skills` for the authenticated user, with the
database answering (a new `user_skills` row is active). -/
def postSkill (store : SkillsStore) (user : AuthUser) (req : AddSkillRequest) :
    SkillsStore × SkillsResponse :=
  if req.errors ≠ [] then (store, { status := 400, body := .errors req.errors })
  else
    let description := req.description.getD ""
    let resolved := resolveSkill store req.skillName req.category description
    let existingUserSkills := resolved.1.user_skills.filter (fun row =>
      decide (row.user_id = user.id) && decide (row.skill_id = resolved.2)
        && decide (row.skill_type = req.skillType))
    if existingUserSkills.length > 0 then
      (resolved.1,
        { status := 400, body := .error "You already have this skill in your profile" })
    else
      ({ resolved.1 with
          user_skills := resolved.1.user_skills ++
            [{ id := resolved.1.nextUserSkillId, user_id := user.id, skill_id := resolved.2,
               skill_type := req.skillType, proficiency_level := req.proficiencyLevel,
               description := description, is_active := true }],
          nextUserSkillId := resolved.1.nextUserSkillId + 1 },
        { status := 201,
          body := .added "Skill added successfully" resolved.1.nextUserSkillId })

/-- The store after a sequence of `POST /skills` requests handled one after the other. -/
def handlePosts (store : SkillsStore) : List (AuthUser × AddSkillRequest) → SkillsStore
  | [] => store
  | (user, req) :: rest => handlePosts (postSkill store user req).1 rest

/-- The triple `(user_id, skill_id, skill_type)` of a `user_skills` row. -/
def tripleOf (row : UserSkillsTableRow) : Int × Nat × String :=
  (row.user_id, row.skill_id, row.skill_type)

/-- No two rows of the table carry the same triple. -/
def noDuplicateTriple (rows : List UserSkillsTableRow) : Prop :=
  (rows.map tripleOf).Nodup

instance (rows : List UserSkillsTableRow) : Decidable (noDuplicateTriple rows) :=
  inferInstanceAs (Decidable ((rows.map tripleOf).Nodup))

/-- A store in which user 1 has an inactive offering of skill 10. -/
def scenarioStore : SkillsStore :=
  { skills := [{ id := 10, name := "React Development", category := "Programming",
                 description := "" }],
    user_skills := [{ id := 1, user_id := 1, skill_id := 10, skill_type := "offering",
                      proficiency_level := "expert", description := "", is_active := false }],
    nextSkillId := 11, nextUserSkillId := 2 }

/-- A valid request to add an offering of React Development. -/
def offerReact : AddSkillRequest :=
  { errors := [], skillName := "React Development", category := "Programming",
    skillType := "offering", proficiencyLevel := "beginner", description := none }

/-! ## GET /skills/search: pagination -/

/-- The object `pagination` of the response (source lines 143-149). -/
structure Pagination where
  currentPage : Int
  totalPages : Int
  totalItems : Nat
  hasNextPage : Bool
  hasPrevPage : Bool
deriving DecidableEq

/-- Source line 74: `offset = (page - 1) * limit`, with the defaults `page = 1` and
`limit = 20` for absent query parameters. -/
def searchOffset (page limit : Option Int) : Int :=
  (page.getD 1 - 1) * limit.getD 20

/-- Source lines 138-149: the pagination object for `totalItems` counted rows. -/
def searchPagination (page limit : Option Int) (totalItems : Nat) : Pagination :=
  let totalPages : Int := ⌈(totalItems : ℚ) / ((limit.getD 20 : Int) : ℚ)⌉
  { currentPage := page.getD 1,
    totalPages := totalPages,
    totalItems := totalItems,
    hasNextPage := decide (page.getD 1 < totalPages),
    hasPrevPage := decide (page.getD 1 > 1) }

/-! ## The score in double precision -/

/-- An arithmetic for the numbers of the score: `rnd` takes the exact result of an operation
(or a decimal value read from a row) to the number the arithmetic represents it by. -/
structure Rounding where
  rnd : ℚ → ℚ

/-- The sum `a + b` in the arithmetic. -/
def Rounding.add (r : Rounding) (a b : ℚ) : ℚ := r.rnd (a + b)

/-- The difference `a - b` in the arithmetic. -/
def Rounding.sub (r : Rounding) (a b : ℚ) : ℚ := r.rnd (a - b)

/-- The product `a * b` in the arithmetic. -/
def Rounding.mul (r : Rounding) (a b : ℚ) : ℚ := r.rnd (a * b)

/-- Exact arithmetic: nothing is rounded. -/
def exactRounding : Rounding := { rnd := fun x => x }

/-- The integer nearest to `n`, a tie going to the even neighbour. -/
def roundHalfEven (n : ℚ) : ℤ :=
  let f : ℤ := ⌊n⌋
  let r : ℚ := n - f
  if r < 1 / 2 then f
  else if 1 / 2 < r then f + 1
  else if f % 2 = 0 then f else f + 1

/-- The binary64 number nearest to `x` (IEEE 754 round-to-nearest, ties to even): with
`2 ^ e ≤ |x| < 2 ^ (e + 1)` the significand has 53 bits, so `x` is rounded to a multiple of
`2 ^ (e - 52)`. The exponent range is not bounded: the value is that of a JavaScript number
for every `x` with `2 ^ (-1022) ≤ |x| < 2 ^ 1024`, and for `x = 0`. -/
def roundDouble (x : ℚ) : ℚ :=
  if x = 0 then 0
  else
    let e : ℤ := Int.log 2 |x|
    let q : ℚ := (2 : ℚ) ^ (e - 52)
    if 0 < x then (roundHalfEven (x / q) : ℚ) * q
    else -((roundHalfEven (-x / q) : ℚ) * q)

/-- The arithmetic of JavaScript numbers: every operation is rounded to binary64. -/
def ieeeDouble : Rounding := { rnd := roundDouble }

/-- Source line 92: `Math.min(match.total_trades * 0.5, 10)`, the count read as a number. -/
def experienceWith (r : Rounding) (m : Match) : ℚ :=
  min (r.mul (r.rnd (m.total_trades : ℚ)) (1 / 2)) 10

/-- Source lines 77-96 in the arithmetic `r`: every `+=` and `*` of the source is one rounded
operation, and the row's rating is read as a number of the arithmetic. -/
def computeScoreWith (r : Rounding) (seeking offering categories : List String)
    (m : Match) : ℚ :=
  let score : ℚ := 0
  let score : ℚ :=
    if m.skill_type = "offering" ∧ m.skill_name ∈ seeking then r.add score 10
    else if m.skill_type = "seeking" ∧ m.skill_name ∈ offering then r.add score 8
    else if m.category ∈ categories then r.add score 3
    else score
  let score : ℚ :=
    match m.user_rating with
    | some rating =>
      let user_rating : ℚ := r.rnd rating
      if user_rating ≠ 0 then r.add score (r.mul user_rating 2) else score
    | none => score
  let score : ℚ := r.add score (experienceWith r m)
  let score : ℚ := if m.proficiency_level = "expert" then r.add score 2 else score
  let score : ℚ := if m.proficiency_level = "intermediate" then r.add score 1 else score
  score

/-- Source lines 98-104: the update of `userScores` for one row, given the `score` that lines
77-96 computed for it. -/
def scoreStepBy (score : Match → ℚ) (userScores : JsMap Recommendation) (m : Match) :
    JsMap Recommendation :=
  match userScores.get m.user_id with
  | none => userScores.set m.user_id { toMatch := m, score := score m }
  | some kept =>
    if kept.score < score m then userScores.set m.user_id { toMatch := m, score := score m }
    else userScores

/-- The map `userScores` after the `forEach` over `potentialMatches`, for a given score. -/
def userScoresBy (score : Match → ℚ) (potentialMatches : List Match) : JsMap Recommendation :=
  potentialMatches.foldl (scoreStepBy score) []

/-- The comparator of source line 108, `(a, b) => b.score - a.score`, in the arithmetic `r`. -/
def compareScores (r : Rounding) (a b : Recommendation) : ℚ := r.sub b.score a.score

/-- The comparator is non-positive: `a` may stay before `b`. -/
def scoreDescWith (r : Rounding) (a b : Recommendation) : Prop := compareScores r a b ≤ 0

instance (r : Rounding) : DecidableRel (scoreDescWith r) := fun a b =>
  inferInstanceAs (Decidable (compareScores r a b ≤ 0))

/-- Source lines 107-108 without the slice, in the arithmetic `r`. -/
def sortedByScoreWith (r : Rounding) (entries : List Recommendation) : List Recommendation :=
  entries.insertionSort (scoreDescWith r)

/-- The method `getRecommendations(userId, limit = 5)` with its numbers in the arithmetic
`r`; with `ieeeDouble` the scores are the JavaScript numbers the method computes. -/
def getRecommendationsWith (r : Rounding) (db : FactProvider) (userId : Nat)
    (limit : Option Int) : List Recommendation :=
  let limit : Int := limit.getD 5
  let userSkills := db.userSkills userId
  let offering := offeringSkills userSkills
  let seeking := seekingSkills userSkills
  let categories := userCategories userSkills
  let potentialMatches := db.potentialMatches userId seeking offering categories
  let scores := userScoresBy (computeScoreWith r seeking offering categories) potentialMatches
  let topRecommendations := slice0 (sortedByScoreWith r scores.values) limit
  topRecommendations

/-- User 5: a category match, rated 4.6667, intermediate, no trade. Exactly the score is
3 + 9.3334 + 1 = 13.3334. -/
def candidateX : Match :=
  { user_id := 5, username := "erin", full_name := "Erin E", skill_id := 11,
    skill_name := "Python", category := "Programming", skill_type := "offering",
    proficiency_level := "intermediate", user_rating := some 4.6667, total_trades := 0 }

/-- User 6: offers the skill the caller seeks, rated 1.6667, beginner, no trade. Exactly the
score is 10 + 3.3334 = 13.3334. -/
def candidateY : Match :=
  { user_id := 6, username := "frank", full_name := "Frank F", skill_id := 10,
    skill_name := "React Development", category := "Programming", skill_type := "offering",
    proficiency_level := "beginner", user_rating := some 1.6667, total_trades := 0 }

/-- Users 5 and 6 in provider order (rating descending). -/
def roundedRows : List Match := [candidateX, candidateY]

/-- A category match rated 1.8, beginner, with the given number of trades. -/
def candidateZ (trades : Nat) : Match :=
  { user_id := 7, username := "grace", full_name := "Grace G", skill_id := 11,
    skill_name := "Python", category := "Programming", skill_type := "offering",
    proficiency_level := "beginner", user_rating := some 1.8, total_trades := trades }

/-! ## The collation of the candidate query -/

/-- A collation: the test by which the database finds two strings equal in `=` and `IN`. It
is fixed by the schema of the `skills` table. -/
abbrev Collation := String → String → Bool

/-- A binary collation: strings are equal when they are the same string, as for JavaScript
`===` and `includes`. -/
def binaryCollation : Collation := fun a b => decide (a = b)

/-- A string with its ASCII letters in lower case. -/
def lowerCase (s : String) : List Char := s.toList.map Char.toLower

/-- A case-insensitive collation (the default of MySQL): strings are equal when they agree
up to the case of their letters. -/
def caseInsensitive : Collation := fun a b => decide (lowerCase a = lowerCase b)

/-- The SQL test `x IN (xs)` under a collation; for an empty `xs` the text is `IN (NULL)`,
which is never true. -/
def sqlInBy (coll : Collation) (x : String) (xs : List String) : Bool :=
  xs.any (fun y => coll x y)

/-- Source lines 62-66: the qualifying condition of the candidate query under a collation. -/
def qualifiesBy (coll : Collation) (seeking offering categories : List String)
    (m : Match) : Bool :=
  (coll m.skill_type "offering" && sqlInBy coll m.skill_name seeking)
    || (coll m.skill_type "seeking" && sqlInBy coll m.skill_name offering)
    || sqlInBy coll m.category categories

/-- A declaration of the category `programming`, in lower case, of a skill the caller neither
seeks nor offers. -/
def lowerCaseRow : Match := { candidateB with category := "programming" }

/-! ## Lemmas on the collections -/

theorem JsMap.get_eq_none_iff {V : Type} (m : JsMap V) (k : Nat) :
    m.get k = none ↔ k ∉ m.keys := by
  induction m with
  | nil => simp [JsMap.get, JsMap.keys]
  | cons p rest ih =>
    obtain ⟨k', v⟩ := p
    by_cases h : k' = k
    · simp [JsMap.get, JsMap.keys, h]
    · have h2 : ¬ k = k' := fun e => h e.symm
      simp only [JsMap.keys] at ih
      simp [JsMap.get, JsMap.keys, h, h2, ih]

theorem JsMap.mem_of_get {V : Type} {m : JsMap V} {k : Nat} {v : V} (h : m.get k = some v) :
    (k, v) ∈ m := by
  induction m with
  | nil => simp [JsMap.get] at h
  | cons p rest ih =>
    obtain ⟨k', v'⟩ := p
    by_cases hk : k' = k
    · simp [JsMap.get, hk] at h
      simp [hk, h]
    · simp [JsMap.get, hk] at h
      exact List.mem_cons_of_mem _ (ih h)

theorem JsMap.set_of_get_none {V : Type} {m : JsMap V} {k : Nat} (v : V) (h : m.get k = none) :
    m.set k v = m ++ [(k, v)] := by
  induction m with
  | nil => rfl
  | cons p rest ih =>
    obtain ⟨k', v'⟩ := p
    by_cases hk : k' = k
    · simp [JsMap.get, hk] at h
    · simp [JsMap.get, hk] at h
      simp [JsMap.set, hk, ih h]

theorem JsMap.keys_set_of_get_some {V : Type} {m : JsMap V} {k : Nat} {w : V} (v : V)
    (h : m.get k = some w) : (m.set k v).keys = m.keys := by
  induction m with
  | nil => simp [JsMap.get] at h
  | cons p rest ih =>
    obtain ⟨k', v'⟩ := p
    by_cases hk : k' = k
    · simp [JsMap.set, JsMap.keys, hk]
    · simp [JsMap.get, hk] at h
      have := ih h
      simp only [JsMap.keys] at this
      simp [JsMap.set, JsMap.keys, hk, this]

theorem JsMap.mem_set {V : Type} {m : JsMap V} {k : Nat} {v : V} {p : Nat × V}
    (h : p ∈ m.set k v) : p = (k, v) ∨ p ∈ m := by
  induction m with
  | nil => simpa [JsMap.set] using h
  | cons q rest ih =>
    obtain ⟨k', v'⟩ := q
    by_cases hk : k' = k
    · simp [JsMap.set, hk] at h
      rcases h with h | h
      · exact Or.inl h
      · exact Or.inr (List.mem_cons_of_mem _ h)
    · simp [JsMap.set, hk] at h
      rcases h with h | h
      · exact Or.inr (by simp [h])
      · rcases ih h with h | h
        · exact Or.inl h
        · exact Or.inr (List.mem_cons_of_mem _ h)

theorem JsMap.get_set_self {V : Type} (m : JsMap V) (k : Nat) (v : V) :
    (m.set k v).get k = some v := by
  induction m with
  | nil => simp [JsMap.set, JsMap.get]
  | cons q rest ih =>
    obtain ⟨k', v'⟩ := q
    by_cases hk : k' = k
    · simp [JsMap.set, JsMap.get, hk]
    · simp [JsMap.set, JsMap.get, hk, ih]

theorem JsMap.get_set_of_ne {V : Type} (m : JsMap V) {k k' : Nat} (v : V) (h : k' ≠ k) :
    (m.set k v).get k' = m.get k' := by
  induction m with
  | nil =>
    have h2 : ¬ k = k' := fun e => h e.symm
    simp [JsMap.set, JsMap.get, h2]
  | cons q rest ih =>
    obtain ⟨k'', v'⟩ := q
    by_cases hk : k'' = k
    · have h2 : ¬ k = k' := fun e => h e.symm
      subst hk
      simp [JsMap.set, JsMap.get, h2]
    · by_cases hk2 : k'' = k'
      · subst hk2
        simp [JsMap.set, JsMap.get, hk]
      · simp [JsMap.set, JsMap.get, hk, hk2, ih]

theorem userScores_snoc (s o c : List String) (ms : List Match) (x : Match) :
    userScores s o c (ms ++ [x]) = scoreStep s o c (userScores s o c ms) x := by
  simp [userScores, List.foldl_append]

theorem scoreStep_cases (s o c : List String) (M : JsMap Recommendation) (x : Match) :
    (scoreStep s o c M x = M ∧ ∃ kept, M.get x.user_id = some kept ∧
        computeScore s o c x ≤ kept.score) ∨
    (scoreStep s o c M x = M ++ [(x.user_id, ⟨x, computeScore s o c x⟩)] ∧
        M.get x.user_id = none) ∨
    (scoreStep s o c M x = M.set x.user_id ⟨x, computeScore s o c x⟩ ∧
        ∃ kept, M.get x.user_id = some kept ∧ kept.score < computeScore s o c x) := by
  unfold scoreStep
  cases h : M.get x.user_id with
  | none =>
    right; left
    exact ⟨JsMap.set_of_get_none _ h, rfl⟩
  | some kept =>
    by_cases hlt : kept.score < computeScore s o c x
    · right; right
      refine ⟨?_, kept, rfl, hlt⟩
      simp only [hlt, if_true]
    · left
      refine ⟨?_, kept, rfl, not_lt.mp hlt⟩
      simp only [hlt, if_false]

/-- Every entry of `userScores` is a provider row stored under its `user_id` with its score. -/
theorem userScores_entry (s o c : List String) (ms : List Match) :
    ∀ p ∈ userScores s o c ms,
      p.2.toMatch ∈ ms ∧ p.1 = p.2.user_id ∧ p.2.score = computeScore s o c p.2.toMatch := by
  induction ms using List.reverseRecOn with
  | nil => intro p hp; simp [userScores] at hp
  | append_singleton ms x ih =>
    intro p hp
    rw [userScores_snoc] at hp
    have old : p ∈ userScores s o c ms →
        p.2.toMatch ∈ ms ++ [x] ∧ p.1 = p.2.user_id ∧
          p.2.score = computeScore s o c p.2.toMatch := fun h =>
      ⟨List.mem_append_left _ (ih p h).1, (ih p h).2⟩
    have new : p = (x.user_id, (⟨x, computeScore s o c x⟩ : Recommendation)) →
        p.2.toMatch ∈ ms ++ [x] ∧ p.1 = p.2.user_id ∧
          p.2.score = computeScore s o c p.2.toMatch := by
      intro h; subst h; simp
    rcases scoreStep_cases s o c (userScores s o c ms) x with ⟨h, _⟩ | ⟨h, _⟩ | ⟨h, _⟩
    · rw [h] at hp; exact old hp
    · rw [h] at hp
      rcases List.mem_append.mp hp with hp | hp
      · exact old hp
      · exact new (by simpa using hp)
    · rw [h] at hp
      rcases JsMap.mem_set hp with hp | hp
      · exact new hp
      · exact old hp

theorem userScores_keys (s o c : List String) (ms : List Match) :
    (userScores s o c ms).keys.Nodup ∧
      ∀ k, k ∈ (userScores s o c ms).keys ↔ ∃ m ∈ ms, m.user_id = k := by
  induction ms using List.reverseRecOn with
  | nil => simp [userScores, JsMap.keys]
  | append_singleton ms x ih =>
    rw [userScores_snoc]
    have hmem : ∀ k, (k ∈ (userScores s o c ms).keys ∨ k = x.user_id) ↔
        ∃ m ∈ ms ++ [x], m.user_id = k := by
      intro k
      rw [ih.2 k]
      constructor
      · rintro (⟨m, hm, rfl⟩ | rfl)
        · exact ⟨m, List.mem_append_left _ hm, rfl⟩
        · exact ⟨x, by simp, rfl⟩
      · rintro ⟨m, hm, rfl⟩
        rcases List.mem_append.mp hm with hm | hm
        · exact Or.inl ⟨m, hm, rfl⟩
        · right; simp at hm; rw [hm]
    have hin : ∀ kept, (userScores s o c ms).get x.user_id = some kept →
        x.user_id ∈ (userScores s o c ms).keys := by
      intro kept hk
      by_contra hc
      rw [← JsMap.get_eq_none_iff, hk] at hc
      exact Option.noConfusion hc
    rcases scoreStep_cases s o c (userScores s o c ms) x with
      ⟨h, kept, hk, _⟩ | ⟨h, hk⟩ | ⟨h, kept, hk, _⟩
    · rw [h]
      refine ⟨ih.1, fun k => ?_⟩
      rw [← hmem k]
      constructor
      · exact Or.inl
      · rintro (h | rfl)
        · exact h
        · exact hin kept hk
    · rw [h]
      have hk2 := (JsMap.get_eq_none_iff _ _).mp hk
      have hkeys : JsMap.keys (userScores s o c ms ++
          [(x.user_id, (⟨x, computeScore s o c x⟩ : Recommendation))]) =
          (userScores s o c ms).keys ++ [x.user_id] := by simp [JsMap.keys]
      rw [hkeys]
      refine ⟨?_, fun k => ?_⟩
      · rw [List.nodup_append]
        refine ⟨ih.1, List.nodup_singleton _, ?_⟩
        intro a ha hb
        simp at hb
        exact hk2 (hb ▸ ha)
      · rw [← hmem k]; simp
    · rw [h, JsMap.keys_set_of_get_some _ hk]
      refine ⟨ih.1, fun k => ?_⟩
      rw [← hmem k]
      constructor
      · exact Or.inl
      · rintro (h | rfl)
        · exact h
        · exact hin kept hk

theorem computeScore_eq_specScore (s o c : List String) (m : Match) :
    computeScore s o c m = specScore s o c m := by
  have hne : ("expert" : String) ≠ "intermediate" := by decide
  have hmul : (m.total_trades : ℚ) * (1 / 2) = 1 / 2 * (m.total_trades : ℚ) := mul_comm _ _
  have hr : (match m.user_rating with
      | some r => if r ≠ 0 then matchBonus s o c m + r * 2 else matchBonus s o c m
      | none => matchBonus s o c m) = matchBonus s o c m + ratingBonus m := by
    unfold ratingBonus
    cases m.user_rating with
    | none => simp
    | some r =>
      by_cases h0 : r = 0
      · simp [h0]
      · simp [h0, mul_comm]
  have hm : (if m.skill_type = "offering" ∧ m.skill_name ∈ s then (0 : ℚ) + 10
      else if m.skill_type = "seeking" ∧ m.skill_name ∈ o then 0 + 8
      else if m.category ∈ c then 0 + 3 else 0) = matchBonus s o c m := by
    unfold matchBonus
    simp only [zero_add]
  unfold computeScore specScore
  simp only [hm, hr, hmul]
  unfold proficiencyBonus experienceBonus
  by_cases he : m.proficiency_level = "expert"
  · have hi : m.proficiency_level ≠ "intermediate" := by rw [he]; exact hne
    simp only [he, if_true]
    rw [if_neg hne]
  · by_cases hi : m.proficiency_level = "intermediate"
    · simp only [hi, if_true, if_neg hne.symm]
    · simp only [he, hi, if_false, add_zero]

theorem slice0_sublist {α : Type} (xs : List α) (limit : Int) : (slice0 xs limit).Sublist xs := by
  unfold slice0
  exact List.take_sublist _ _

theorem getRecommendations_eq (db : FactProvider) (userId : Nat) (limit : Option Int) :
    getRecommendations db userId limit = slice0 (rankedCandidates db userId) (limit.getD 5) :=
  rfl

theorem rankedCandidates_perm (db : FactProvider) (userId : Nat) :
    (rankedCandidates db userId).Perm
      (userScores (seekingSkills (db.userSkills userId)) (offeringSkills (db.userSkills userId))
        (userCategories (db.userSkills userId)) (candidates db userId)).values :=
  List.perm_insertionSort _ _

theorem mem_rankedCandidates {db : FactProvider} {userId : Nat} {e : Recommendation}
    (h : e ∈ rankedCandidates db userId) :
    e.toMatch ∈ candidates db userId ∧
      e.score = computeScore (seekingSkills (db.userSkills userId))
        (offeringSkills (db.userSkills userId)) (userCategories (db.userSkills userId))
        e.toMatch := by
  have h2 := (rankedCandidates_perm db userId).mem_iff.mp h
  simp only [JsMap.values, List.mem_map] at h2
  obtain ⟨p, hp, rfl⟩ := h2
  have := userScores_entry _ _ _ _ p hp
  exact ⟨this.1, this.2.2⟩

theorem userScores_values_user_id (s o c : List String) (ms : List Match) :
    (userScores s o c ms).values.map (fun e => e.user_id) = (userScores s o c ms).keys := by
  simp only [JsMap.values, JsMap.keys, List.map_map]
  apply List.map_congr_left
  intro p hp
  exact ((userScores_entry s o c ms p hp).2.1).symm

theorem rankedCandidates_nodup (db : FactProvider) (userId : Nat) :
    ((rankedCandidates db userId).map (fun e => e.user_id)).Nodup := by
  have hp := (rankedCandidates_perm db userId).map (fun e => e.user_id)
  rw [hp.nodup_iff, userScores_values_user_id]
  exact (userScores_keys _ _ _ _).1

theorem scoreStep_get (s o c : List String) (M : JsMap Recommendation) (x : Match) (k : Nat) :
    (scoreStep s o c M x).get k =
      if x.user_id = k then
        (match M.get k with
          | none => some { toMatch := x, score := computeScore s o c x }
          | some kept =>
            if kept.score < computeScore s o c x then
              some { toMatch := x, score := computeScore s o c x }
            else some kept)
      else M.get k := by
  unfold scoreStep
  by_cases hk : x.user_id = k
  · subst hk
    simp only [if_true]
    cases h : M.get x.user_id with
    | none => simp only [JsMap.get_set_self]
    | some kept =>
      by_cases hlt : kept.score < computeScore s o c x
      · simp only [hlt, if_true, JsMap.get_set_self]
      · simp only [hlt, if_false, h]
  · have hk2 : k ≠ x.user_id := fun e => hk e.symm
    simp only [hk, if_false]
    cases h : M.get x.user_id with
    | none => simp only [JsMap.get_set_of_ne _ _ hk2]
    | some kept =>
      by_cases hlt : kept.score < computeScore s o c x
      · simp only [hlt, if_true, JsMap.get_set_of_ne _ _ hk2]
      · simp only [hlt, if_false]

theorem userScores_get_none (s o c : List String) (ms : List Match) (u : Nat)
    (h : ∀ m ∈ ms, m.user_id ≠ u) : (userScores s o c ms).get u = none := by
  rw [JsMap.get_eq_none_iff, (userScores_keys s o c ms).2 u]
  rintro ⟨m, hm, hmu⟩
  exact h m hm hmu

/-- The entry kept for a user is the first declaration reaching the user's maximal score. -/
theorem userScores_get_first_max (s o c : List String) (ms : List Match) (u : Nat)
    (hu : ∃ m ∈ ms, m.user_id = u) :
    ∃ pre m post, ms = pre ++ m :: post ∧ m.user_id = u ∧
      (userScores s o c ms).get u = some { toMatch := m, score := computeScore s o c m } ∧
      (∀ x ∈ pre, x.user_id = u → computeScore s o c x < computeScore s o c m) ∧
      (∀ x ∈ post, x.user_id = u → computeScore s o c x ≤ computeScore s o c m) := by
  induction ms using List.reverseRecOn with
  | nil => simp at hu
  | append_singleton ms x ih =>
    rw [userScores_snoc, scoreStep_get]
    by_cases hold : ∃ m ∈ ms, m.user_id = u
    · obtain ⟨pre, m, post, hms, hmu, hget, hpre, hpost⟩ := ih hold
      by_cases hx : x.user_id = u
      · simp only [hx, if_true, hget]
        by_cases hlt : computeScore s o c m < computeScore s o c x
        · simp only [hlt, if_true]
          refine ⟨ms, x, [], rfl, hx, rfl, ?_, by simp⟩
          intro y hy hyu
          rw [hms] at hy
          rcases List.mem_append.mp hy with hy | hy
          · exact lt_trans (hpre y hy hyu) hlt
          · rcases List.mem_cons.mp hy with hy | hy
            · rw [hy]; exact hlt
            · exact lt_of_le_of_lt (hpost y hy hyu) hlt
        · simp only [hlt, if_false]
          refine ⟨pre, m, post ++ [x], by simp [hms], hmu, rfl, hpre, ?_⟩
          intro y hy hyu
          rcases List.mem_append.mp hy with hy | hy
          · exact hpost y hy hyu
          · simp at hy; rw [hy]; exact not_lt.mp hlt
      · simp only [hx, if_false, hget]
        refine ⟨pre, m, post ++ [x], by simp [hms], hmu, rfl, hpre, ?_⟩
        intro y hy hyu
        rcases List.mem_append.mp hy with hy | hy
        · exact hpost y hy hyu
        · simp at hy; rw [hy] at hyu; exact absurd hyu hx
    · have hnone : (userScores s o c ms).get u = none :=
        userScores_get_none s o c ms u (fun m hm hmu => hold ⟨m, hm, hmu⟩)
      have hx : x.user_id = u := by
        obtain ⟨m, hm, hmu⟩ := hu
        rcases List.mem_append.mp hm with hm | hm
        · exact absurd ⟨m, hm, hmu⟩ hold
        · simp at hm; rw [← hm]; exact hmu
      simp only [hx, if_true, hnone]
      refine ⟨ms, x, [], rfl, hx, rfl, ?_, by simp⟩
      intro y hy hyu
      exact absurd ⟨y, hy, hyu⟩ hold

instance : IsTotal Recommendation scoreDesc := ⟨fun a b => le_total b.score a.score⟩

instance : IsTrans Recommendation scoreDesc := ⟨fun _ _ _ hab hbc => le_trans hbc hab⟩

theorem rankedCandidates_sorted (db : FactProvider) (userId : Nat) :
    (rankedCandidates db userId).Pairwise scoreDesc :=
  List.sorted_insertionSort scoreDesc _

theorem JsMap.map_values_set {V W : Type} (f : V → W) {m : JsMap V} {k : Nat} {w : V} (v : V)
    (h : m.get k = some w) (hf : f v = f w) :
    (m.set k v).values.map f = m.values.map f := by
  induction m with
  | nil => simp [JsMap.get] at h
  | cons p rest ih =>
    obtain ⟨k', v'⟩ := p
    by_cases hk : k' = k
    · simp [JsMap.get, hk] at h
      simp [JsMap.set, JsMap.values, hk, hf, h]
    · simp [JsMap.get, hk] at h
      have := ih h
      simp only [JsMap.values] at this
      simp [JsMap.set, JsMap.values, hk, this]

/-- Stability of the sort: entries the sort did not have to swap keep a relation that held
between them in input order. -/
theorem pairwise_insertionSort_of_pairwise {α : Type} (r : α → α → Prop) [DecidableRel r]
    (P : α → α → Prop) (l : List α) (h : l.Pairwise P) :
    (l.insertionSort r).Pairwise (fun a b => r b a → P a b) := by
  induction l with
  | nil => simp
  | cons x l ih =>
    obtain ⟨hx, hl⟩ := List.pairwise_cons.mp h
    have ihl := ih hl
    rw [List.insertionSort, List.orderedInsert_eq_take_drop]
    have hsplit := List.takeWhile_append_dropWhile (fun b => decide ¬ r x b)
      (List.insertionSort r l)
    rw [← hsplit] at ihl
    obtain ⟨h1, h2, h3⟩ := List.pairwise_append.mp ihl
    rw [List.pairwise_append]
    refine ⟨h1, ?_, ?_⟩
    · rw [List.pairwise_cons]
      refine ⟨fun y hy _ => hx y ?_, h2⟩
      exact (List.mem_insertionSort r).mp ((List.dropWhile_sublist _).subset hy)
    · intro a ha b hb
      rcases List.mem_cons.mp hb with hb | hb
      · subst hb
        intro hr
        have := List.mem_takeWhile_imp ha
        simp at this
        exact absurd hr this
      · exact h3 a ha b hb

/-- The values of `userScores` stand in provider order when the provider rows do. -/
theorem userScores_values_providerOrder (s o c : List String) (ms : List Match)
    (hsorted : ms.Pairwise providerOrder)
    (hsame : ∀ a ∈ ms, ∀ b ∈ ms, a.user_id = b.user_id →
      a.user_rating = b.user_rating ∧ a.total_trades = b.total_trades) :
    ((userScores s o c ms).values.map (fun e => (e.user_rating, e.total_trades))).Pairwise
      (fun p q => ratingLt q.1 p.1 ∨ (p.1 = q.1 ∧ q.2 ≤ p.2)) := by
  induction ms using List.reverseRecOn with
  | nil => simp [userScores, JsMap.values]
  | append_singleton ms x ih =>
    obtain ⟨hms, _, hx⟩ := List.pairwise_append.mp hsorted
    have ih2 := ih hms (fun a ha b hb =>
      hsame a (List.mem_append_left _ ha) b (List.mem_append_left _ hb))
    rw [userScores_snoc]
    rcases scoreStep_cases s o c (userScores s o c ms) x with
      ⟨h, _⟩ | ⟨h, _⟩ | ⟨h, kept, hk, _⟩
    · rw [h]; exact ih2
    · rw [h]
      simp only [JsMap.values, List.map_append, List.map_cons, List.map_nil]
      rw [List.pairwise_append]
      refine ⟨ih2, List.pairwise_singleton _ _, ?_⟩
      intro p hp q hq
      simp only [List.mem_singleton] at hq
      subst hq
      simp only [JsMap.values, List.mem_map] at hp
      obtain ⟨e, ⟨pe, hpe, rfl⟩, rfl⟩ := hp
      exact hx pe.2.toMatch (userScores_entry s o c ms pe hpe).1 x (by simp)
    · rw [h, JsMap.map_values_set _ _ hk]
      · exact ih2
      · have hmem := JsMap.mem_of_get hk
        have hent := userScores_entry s o c ms _ hmem
        have := hsame x (by simp) kept.toMatch (List.mem_append_left _ hent.1) hent.2.1
        simp only [this.1, this.2]

theorem rankedCandidates_length (db : FactProvider) (userId : Nat) :
    (rankedCandidates db userId).length = distinctUsers (candidates db userId) := by
  rw [(rankedCandidates_perm db userId).length_eq, ← List.length_map _ (fun e => e.user_id),
    userScores_values_user_id]
  unfold distinctUsers
  apply List.Perm.length_eq
  rw [List.perm_ext_iff_of_nodup (userScores_keys _ _ _ _).1 (List.nodup_dedup _)]
  intro k
  rw [(userScores_keys _ _ _ _).2 k, List.mem_dedup, List.mem_map]

theorem slice0_of_nonneg {α : Type} (xs : List α) {limit : Int} (h : 0 ≤ limit) :
    slice0 xs limit = xs.take (min limit.toNat xs.length) := by
  unfold slice0
  have h1 : ¬ limit < 0 := not_lt.mpr h
  simp only [h1, if_false]
  congr 1
  omega

theorem slice0_of_neg {α : Type} (xs : List α) {limit : Int} (h : limit < 0) :
    slice0 xs limit = xs.take (xs.length - limit.natAbs) := by
  unfold slice0
  simp only [h, if_true]
  congr 1
  omega

theorem slice0_zero {α : Type} (xs : List α) : slice0 xs 0 = [] := by
  simp [slice0]

/-- With a limit of at least 1 the first returned entry scores at least as much as every row
the provider returned. -/
theorem head_scores_at_least (db : FactProvider) (userId : Nat) (limit : Int)
    (hlimit : 1 ≤ limit) (m : Match) (hm : m ∈ candidates db userId) :
    ∃ e, (getRecommendations db userId (some limit)).head? = some e ∧
      computeScore (seekingSkills (db.userSkills userId))
        (offeringSkills (db.userSkills userId)) (userCategories (db.userSkills userId)) m
        ≤ e.score := by
  obtain ⟨pre, m', post, hms, _, hget, hpre, hpost⟩ :=
    userScores_get_first_max (seekingSkills (db.userSkills userId))
      (offeringSkills (db.userSkills userId)) (userCategories (db.userSkills userId))
      (candidates db userId) m.user_id ⟨m, hm, rfl⟩
  have hle : computeScore (seekingSkills (db.userSkills userId))
      (offeringSkills (db.userSkills userId)) (userCategories (db.userSkills userId)) m
      ≤ computeScore (seekingSkills (db.userSkills userId))
      (offeringSkills (db.userSkills userId)) (userCategories (db.userSkills userId)) m' := by
    have hm2 := hm
    rw [hms] at hm2
    rcases List.mem_append.mp hm2 with h | h
    · exact le_of_lt (hpre m h rfl)
    · rcases List.mem_cons.mp h with h | h
      · rw [h]
      · exact hpost m h rfl
  have hkept : (⟨m', computeScore (seekingSkills (db.userSkills userId))
      (offeringSkills (db.userSkills userId)) (userCategories (db.userSkills userId)) m'⟩ :
      Recommendation) ∈ rankedCandidates db userId := by
    rw [(rankedCandidates_perm db userId).mem_iff]
    simp only [JsMap.values, List.mem_map]
    exact ⟨_, JsMap.mem_of_get hget, rfl⟩
  have hsorted := rankedCandidates_sorted db userId
  rw [getRecommendations_eq, Option.getD_some,
    slice0_of_nonneg _ (le_trans (by decide) hlimit)]
  cases hr : rankedCandidates db userId with
  | nil => rw [hr] at hkept; simp at hkept
  | cons e0 rest =>
    rw [hr] at hkept hsorted
    refine ⟨e0, ?_, ?_⟩
    · have hpos : min limit.toNat (e0 :: rest).length = (min limit.toNat (e0 :: rest).length - 1) + 1 := by
        simp only [List.length_cons]
        omega
      rw [hpos, List.take_succ_cons, List.head?_cons]
    · rcases List.mem_cons.mp hkept with h | h
      · rw [← h]; exact hle
      · exact le_trans hle ((List.pairwise_cons.mp hsorted).1 _ h)

theorem candidates_sqlProvider (population : List StoredDeclaration) (userId : Nat) :
    candidates (sqlProvider population) userId
      = ((qualifyingRows population userId
            (seekingSkills (userSkillsQuery population userId))
            (offeringSkills (userSkillsQuery population userId))
            (userCategories (userSkillsQuery population userId))).insertionSort
          providerOrder).take 20 :=
  rfl

theorem mem_candidates_sqlProvider_of_le (population : List StoredDeclaration) (userId : Nat)
    (hfew : (qualifyingRows population userId
        (seekingSkills (userSkillsQuery population userId))
        (offeringSkills (userSkillsQuery population userId))
        (userCategories (userSkillsQuery population userId))).length ≤ 20)
    (d : StoredDeclaration) (hd : d ∈ population)
    (hq : whereClause userId (seekingSkills (userSkillsQuery population userId))
        (offeringSkills (userSkillsQuery population userId))
        (userCategories (userSkillsQuery population userId)) d = true) :
    d.row ∈ candidates (sqlProvider population) userId := by
  rw [candidates_sqlProvider, List.take_of_length_le (by rw [List.length_insertionSort]; exact hfew),
    List.mem_insertionSort]
  unfold qualifyingRows
  rw [List.mem_dedup, List.mem_map]
  exact ⟨d, List.mem_filter.mpr ⟨hd, hq⟩, rfl⟩

theorem userSkillsQuery_eq_nil (population : List StoredDeclaration) (userId : Nat)
    (h : ∀ d ∈ population, d.row.user_id = userId → d.us_is_active = false) :
    userSkillsQuery population userId = [] := by
  unfold userSkillsQuery
  rw [List.map_eq_nil_iff, List.filter_eq_nil_iff]
  intro d hd
  simp only [decide_eq_true_eq, not_and]
  intro hu
  rw [h d hd hu]
  decide

theorem qualifies_nil (m : Match) : qualifies [] [] [] m = false := by
  simp [qualifies, sqlIn]

theorem ratingLt_trans {a b c : Option ℚ} (hab : ratingLt a b) (hbc : ratingLt b c) :
    ratingLt a c := by
  cases a <;> cases b <;> cases c <;> simp only [ratingLt] at *
  exact lt_trans hab hbc

theorem ratingLt_or_eq_or (a b : Option ℚ) : ratingLt a b ∨ a = b ∨ ratingLt b a := by
  cases a with
  | none =>
    cases b with
    | none => exact Or.inr (Or.inl rfl)
    | some y => exact Or.inl trivial
  | some x =>
    cases b with
    | none => exact Or.inr (Or.inr trivial)
    | some y =>
      rcases lt_trichotomy x y with h | h | h
      · exact Or.inl h
      · exact Or.inr (Or.inl (by rw [h]))
      · exact Or.inr (Or.inr h)

instance : IsTotal Match providerOrder :=
  ⟨fun a b => by
    unfold providerOrder
    rcases ratingLt_or_eq_or a.user_rating b.user_rating with h | h | h
    · exact Or.inr (Or.inl h)
    · rcases le_total a.total_trades b.total_trades with ht | ht
      · exact Or.inr (Or.inr ⟨h.symm, ht⟩)
      · exact Or.inl (Or.inr ⟨h, ht⟩)
    · exact Or.inl (Or.inl h)⟩

instance : IsTrans Match providerOrder :=
  ⟨fun a b c hab hbc => by
    unfold providerOrder at *
    rcases hab with hab | ⟨hab, tab⟩
    · rcases hbc with hbc | ⟨hbc, _⟩
      · exact Or.inl (ratingLt_trans hbc hab)
      · rw [← hbc]; exact Or.inl hab
    · rcases hbc with hbc | ⟨hbc, tbc⟩
      · rw [hab]; exact Or.inl hbc
      · exact Or.inr ⟨hab.trans hbc, le_trans tbc tab⟩⟩

/-- The candidate query returns its rows in provider order, at most 20 of them. -/
theorem candidates_sqlProvider_sorted (population : List StoredDeclaration) (userId : Nat) :
    (candidates (sqlProvider population) userId).Pairwise providerOrder ∧
      (candidates (sqlProvider population) userId).length ≤ 20 := by
  rw [candidates_sqlProvider]
  refine ⟨(List.sorted_insertionSort providerOrder _).sublist (List.take_sublist _ _), ?_⟩
  rw [List.length_take]
  exact Nat.min_le_left _ _

theorem mem_candidates_sqlProvider {population : List StoredDeclaration} {userId : Nat}
    {m : Match} (h : m ∈ candidates (sqlProvider population) userId) :
    ∃ d ∈ population, d.row = m ∧
      whereClause userId (seekingSkills (userSkillsQuery population userId))
        (offeringSkills (userSkillsQuery population userId))
        (userCategories (userSkillsQuery population userId)) d = true := by
  rw [candidates_sqlProvider] at h
  have h2 := (List.mem_insertionSort providerOrder).mp (List.mem_of_mem_take h)
  unfold qualifyingRows at h2
  rw [List.mem_dedup, List.mem_map] at h2
  obtain ⟨d, hd, hrow⟩ := h2
  obtain ⟨hd1, hd2⟩ := List.mem_filter.mp hd
  exact ⟨d, hd1, hrow, hd2⟩

/-- Over the stored tables both queries answer, and the method returns what the function
`getRecommendations` computes from the two result sets. -/
theorem getRecommendations_sqlDatabase (r : SkillRecommender)
    (population : List StoredDeclaration) (t : TrendTables) (now : Int) (userId : Nat)
    (limit : Option Int) :
    (r.getRecommendations (sqlDatabase population t now) userId limit).result
      = .ok (getRecommendations (sqlProvider population) userId limit) :=
  rfl

theorem computeScore_with_trades (s o c : List String) (m : Match) (t : Nat) :
    computeScore s o c { m with total_trades := t }
      = matchBonus s o c m + ratingBonus m + min ((1 / 2) * (t : ℚ)) 10
        + proficiencyBonus m := by
  rw [computeScore_eq_specScore]
  rfl

theorem matchBonus_ne_zero_iff (s o c : List String) (m : Match) :
    matchBonus s o c m ≠ 0 ↔
      (m.skill_type = "offering" ∧ m.skill_name ∈ s) ∨
      (m.skill_type = "seeking" ∧ m.skill_name ∈ o) ∨ m.category ∈ c := by
  unfold matchBonus
  by_cases h1 : m.skill_type = "offering" ∧ m.skill_name ∈ s
  · simp [h1]
  · by_cases h2 : m.skill_type = "seeking" ∧ m.skill_name ∈ o
    · simp [h1, h2]
    · by_cases h3 : m.category ∈ c
      · simp [h1, h2, h3]
      · simp [h1, h2, h3]

theorem qualifies_iff (s o c : List String) (m : Match) :
    qualifies s o c m = true ↔
      (m.skill_type = "offering" ∧ m.skill_name ∈ s) ∨
      (m.skill_type = "seeking" ∧ m.skill_name ∈ o) ∨ m.category ∈ c := by
  simp [qualifies, sqlIn, or_assoc]

theorem getRecommendations_sqlProvider_eq_nil (population : List StoredDeclaration)
    (userId : Nat) (limit : Option Int)
    (hnone : ∀ d ∈ population, d.row.user_id = userId → d.us_is_active = false) :
    getRecommendations (sqlProvider population) userId limit = [] := by
  have hc : candidates (sqlProvider population) userId = [] := by
    rw [candidates_sqlProvider, userSkillsQuery_eq_nil population userId hnone]
    have hf : population.filter (whereClause userId (seekingSkills []) (offeringSkills [])
        (userCategories [])) = [] := by
      rw [List.filter_eq_nil_iff]
      intro d _
      have : qualifies (seekingSkills []) (offeringSkills []) (userCategories []) d.row
          = false := qualifies_nil d.row
      simp [whereClause, this]
    unfold qualifyingRows
    rw [hf]
    rfl
  have hrank : rankedCandidates (sqlProvider population) userId = [] := by
    unfold rankedCandidates
    rw [hc]
    rfl
  rw [getRecommendations_eq, hrank]
  exact List.eq_nil_of_sublist_nil (slice0_sublist _ _)

theorem getRecommendations_queries_head (r : SkillRecommender) (db : Database) (userId : Nat)
    (limit : Option Int) :
    (r.getRecommendations db userId limit).queries.head? = some (.userSkills userId) ∧
      (r.getRecommendations db userId limit).queries.Nodup ∧
      (r.getRecommendations db userId limit).queries.length ≤ 2 := by
  unfold SkillRecommender.getRecommendations
  cases db.userSkills userId with
  | error e => simp
  | ok us =>
    simp only []
    cases db.potentialMatches userId (seekingSkills us) (offeringSkills us)
        (userCategories us) with
    | error e => simp
    | ok ms => simp

theorem getUserIdHandler_forbidden (r : SkillRecommender) (db : Database) (user : AuthUser)
    (p : UserIdParam) (limit : Option Int)
    (h : p.parsed ≠ some user.id ∧ user.role ≠ "admin") :
    getUserIdHandler r db user p limit
      = { response := { status := 403, body := .error "Forbidden" }, queries := [] } := by
  unfold getUserIdHandler
  simp only [h, ne_eq, not_false_eq_true, and_self, if_true]

theorem getUserIdHandler_allowed (r : SkillRecommender) (db : Database) (user : AuthUser)
    (p : UserIdParam) (limit : Option Int)
    (h : ¬ (p.parsed ≠ some user.id ∧ user.role ≠ "admin")) :
    getUserIdHandler r db user p limit
      = match (r.getRecommendations db p.sqlValue (some (limit.getD 5))).result with
        | .ok recommendations =>
          { response :=
              { status := 200,
                body := .recommendations recommendations
                  (if recommendations.length = 0 then some emptyMessage else none) },
            queries := (r.getRecommendations db p.sqlValue (some (limit.getD 5))).queries }
        | .error _ =>
          { response := { status := 500, body := .error "Internal server error" },
            queries := (r.getRecommendations db p.sqlValue (some (limit.getD 5))).queries } := by
  unfold getUserIdHandler
  simp only [if_neg h]

instance : IsTotal TrendingSkill trendDesc := ⟨fun a b => le_total b.trend_score a.trend_score⟩

instance : IsTrans TrendingSkill trendDesc := ⟨fun _ _ _ hab hbc => le_trans hbc hab⟩

theorem trendOrdered_sorted (t : TrendTables) (now : Int) :
    (trendOrdered t now).Sorted trendDesc :=
  List.sorted_insertionSort trendDesc _

theorem mem_trendOrdered {t : TrendTables} {now : Int} {x : TrendingSkill} :
    x ∈ trendOrdered t now ↔ x ∈ trendGroups t now :=
  List.mem_insertionSort trendDesc

theorem trend_score_of_mem_trendGroups {t : TrendTables} {now : Int} {x : TrendingSkill}
    (h : x ∈ trendGroups t now) :
    x.trend_score = 0.3 * (x.user_count : ℚ) + (x.trade_count : ℚ) := by
  unfold trendGroups at h
  obtain ⟨s, _, rfl⟩ := List.mem_map.mp h
  simp only [trendRow, tradeCount, Nat.cast_add]
  ring

theorem trendingQuery_of_nonneg (t : TrendTables) (now : Int) {limit : Int}
    (h : 0 ≤ limit) :
    trendingQuery t now limit = .ok ((trendOrdered t now).take limit.toNat) := by
  unfold trendingQuery
  rw [if_neg (not_lt.mpr h)]

theorem mem_requesterTrades {t : TrendTables} {now : Int} {s : SkillRow} {tr : TradeRow} :
    tr ∈ requesterTrades t now s ↔
      tr ∈ t.trades ∧ (∃ us ∈ activeDeclarations t s, us.id = tr.requester_skill_id) ∧
        now - thirtyDays ≤ tr.created_at := by
  simp [requesterTrades, inWindow, windowStart]

theorem mem_providerTrades {t : TrendTables} {now : Int} {s : SkillRow} {tr : TradeRow} :
    tr ∈ providerTrades t now s ↔
      tr ∈ t.trades ∧ (∃ us ∈ activeDeclarations t s, us.id = tr.provider_skill_id) ∧
        now - thirtyDays ≤ tr.created_at := by
  simp [providerTrades, inWindow, windowStart]

theorem countDistinct_filter_of_nodup (trades : List TradeRow) (keep : TradeRow → Bool)
    (h : (trades.map (fun tr => tr.id)).Nodup) :
    countDistinct ((trades.filter keep).map (fun tr => tr.id)) = (trades.filter keep).length := by
  unfold countDistinct
  have hnd : ((trades.filter keep).map (fun tr => tr.id)).Nodup :=
    h.sublist ((List.filter_sublist _).map _)
  rw [hnd.dedup, List.length_map]

theorem matchBonus_bounds (s o c : List String) (m : Match) :
    0 ≤ matchBonus s o c m ∧ matchBonus s o c m ≤ 10 ∧
      (matchBonus s o c m = 10 ↔ (m.skill_type = "offering" ∧ m.skill_name ∈ s)) := by
  unfold matchBonus
  by_cases h1 : m.skill_type = "offering" ∧ m.skill_name ∈ s
  · simp [h1]
  · rw [if_neg h1]
    simp only [h1, iff_false]
    by_cases h2 : m.skill_type = "seeking" ∧ m.skill_name ∈ o
    · rw [if_pos h2]
      norm_num
    · rw [if_neg h2]
      by_cases h3 : m.category ∈ c
      · rw [if_pos h3]
        norm_num
      · rw [if_neg h3]
        norm_num

theorem ratingBonus_bounds (m : Match)
    (hr : ∀ r, m.user_rating = some r → 0 ≤ r ∧ r ≤ 5) :
    0 ≤ ratingBonus m ∧ ratingBonus m ≤ 10 ∧ (ratingBonus m = 10 ↔ m.user_rating = some 5) := by
  unfold ratingBonus
  cases h : m.user_rating with
  | none => simp
  | some r =>
    obtain ⟨h0, h5⟩ := hr r h
    simp only [Option.some.injEq]
    refine ⟨by linarith, by linarith, ?_⟩
    constructor
    · intro h10; linarith
    · intro h10; rw [h10]; norm_num

theorem experienceBonus_bounds (m : Match) :
    0 ≤ experienceBonus m ∧ experienceBonus m ≤ 10 ∧
      (experienceBonus m = 10 ↔ 20 ≤ m.total_trades) := by
  unfold experienceBonus
  have hnn : (0 : ℚ) ≤ (m.total_trades : ℚ) := Nat.cast_nonneg _
  refine ⟨le_min (by linarith) (by norm_num), min_le_right _ _, ?_⟩
  constructor
  · intro h
    have h2 : (10 : ℚ) ≤ 1 / 2 * (m.total_trades : ℚ) := by
      rw [← h]; exact min_le_left _ _
    have h3 : (20 : ℚ) ≤ (m.total_trades : ℚ) := by linarith
    exact_mod_cast h3
  · intro h
    have h3 : (20 : ℚ) ≤ (m.total_trades : ℚ) := by exact_mod_cast h
    exact min_eq_right (by linarith)

theorem proficiencyBonus_bounds (m : Match) :
    0 ≤ proficiencyBonus m ∧ proficiencyBonus m ≤ 2 ∧
      (proficiencyBonus m = 2 ↔ m.proficiency_level = "expert") := by
  unfold proficiencyBonus
  by_cases h1 : m.proficiency_level = "expert"
  · simp [h1]
  · rw [if_neg h1]
    simp only [h1, iff_false]
    by_cases h2 : m.proficiency_level = "intermediate"
    · rw [if_pos h2]
      norm_num
    · rw [if_neg h2]
      norm_num

/-- The keys of `userScores` stand in the order in which the users first occur. -/
theorem userScores_keys_firstOccurrence (s o c : List String) (ms : List Match) :
    (userScores s o c ms).keys.Pairwise
      (fun u v => firstOccurrence ms u < firstOccurrence ms v) := by
  induction ms using List.reverseRecOn with
  | nil => simp [userScores, JsMap.keys]
  | append_singleton ms x ih =>
    have hkeys := userScores_keys s o c ms
    have hold : ∀ u ∈ (userScores s o c ms).keys,
        firstOccurrence (ms ++ [x]) u = firstOccurrence ms u := by
      intro u hu
      obtain ⟨m, hm, hmu⟩ := (hkeys.2 u).mp hu
      unfold firstOccurrence
      rw [List.map_append]
      exact List.indexOf_append_of_mem (List.mem_map.mpr ⟨m, hm, hmu⟩)
    have ih2 : (userScores s o c ms).keys.Pairwise
        (fun u v => firstOccurrence (ms ++ [x]) u < firstOccurrence (ms ++ [x]) v) := by
      refine List.Pairwise.imp_of_mem ?_ ih
      intro u v hu hv huv
      rw [hold u hu, hold v hv]
      exact huv
    rw [userScores_snoc]
    rcases scoreStep_cases s o c (userScores s o c ms) x with
      ⟨h, _⟩ | ⟨h, hnone⟩ | ⟨h, kept, hk, _⟩
    · rw [h]; exact ih2
    · rw [h]
      have hk2 := (JsMap.get_eq_none_iff _ _).mp hnone
      have hkeys2 : JsMap.keys (userScores s o c ms ++
          [(x.user_id, (⟨x, computeScore s o c x⟩ : Recommendation))]) =
          (userScores s o c ms).keys ++ [x.user_id] := by simp [JsMap.keys]
      rw [hkeys2, List.pairwise_append]
      refine ⟨ih2, List.pairwise_singleton _ _, ?_⟩
      intro u hu v hv
      simp only [List.mem_singleton] at hv
      subst hv
      rw [hold u hu]
      have hnot : x.user_id ∉ ms.map (fun m => m.user_id) := by
        intro hmem
        obtain ⟨m, hm, hmu⟩ := List.mem_map.mp hmem
        exact hk2 ((hkeys.2 x.user_id).mpr ⟨m, hm, hmu⟩)
      have hlt : firstOccurrence ms u < ms.length := by
        obtain ⟨m, hm, hmu⟩ := (hkeys.2 u).mp hu
        unfold firstOccurrence
        have := List.indexOf_lt_length.mpr (List.mem_map.mpr ⟨m, hm, hmu⟩ :
          u ∈ ms.map (fun m => m.user_id))
        simpa using this
      have hx : firstOccurrence (ms ++ [x]) x.user_id = ms.length := by
        unfold firstOccurrence
        rw [List.map_append, List.indexOf_append_of_not_mem hnot]
        simp
      rw [hx]
      exact hlt
    · rw [h, JsMap.keys_set_of_get_some _ hk]
      exact ih2

theorem newSet_fold_spec {α : Type} [DecidableEq α] (l : List α) :
    ∀ acc : List α, acc.Nodup →
      (l.foldl (fun acc x => if x ∈ acc then acc else acc ++ [x]) acc).Nodup ∧
      ∀ x, x ∈ l.foldl (fun acc x => if x ∈ acc then acc else acc ++ [x]) acc ↔
        x ∈ acc ∨ x ∈ l := by
  induction l with
  | nil => intro acc h; simpa using h
  | cons a l ih =>
    intro acc h
    rw [List.foldl_cons]
    by_cases ha : a ∈ acc
    · rw [if_pos ha]
      refine ⟨(ih acc h).1, fun x => ?_⟩
      rw [(ih acc h).2 x]
      constructor
      · rintro (hx | hx)
        · exact Or.inl hx
        · exact Or.inr (List.mem_cons_of_mem _ hx)
      · rintro (hx | hx)
        · exact Or.inl hx
        · rcases List.mem_cons.mp hx with hx | hx
          · exact Or.inl (hx ▸ ha)
          · exact Or.inr hx
    · rw [if_neg ha]
      have hnd : (acc ++ [a]).Nodup := by
        rw [List.nodup_append]
        refine ⟨h, List.nodup_singleton a, ?_⟩
        intro x hx hx2
        simp only [List.mem_singleton] at hx2
        exact ha (hx2 ▸ hx)
      refine ⟨(ih _ hnd).1, fun x => ?_⟩
      rw [(ih _ hnd).2 x]
      simp only [List.mem_append, List.mem_singleton, List.mem_cons]
      tauto

theorem nodup_newSet {α : Type} [DecidableEq α] (l : List α) : (newSet l).Nodup :=
  (newSet_fold_spec l [] List.nodup_nil).1

theorem mem_newSet {α : Type} [DecidableEq α] {l : List α} {x : α} :
    x ∈ newSet l ↔ x ∈ l := by
  unfold newSet
  rw [(newSet_fold_spec l [] List.nodup_nil).2 x]
  simp

theorem toFinset_newSet {α : Type} [DecidableEq α] (l : List α) :
    (newSet l).toFinset = l.toFinset := by
  ext x
  simp [mem_newSet]

theorem length_newSet {α : Type} [DecidableEq α] (l : List α) :
    (newSet l).length = l.toFinset.card := by
  rw [← List.toFinset_card_of_nodup (nodup_newSet l), toFinset_newSet]

/-- The method computes the guarded quotient of the sizes of intersection and union. -/
theorem calculateSimilarity_eq {α : Type} [DecidableEq α] (A B : List α) :
    calculateSimilarity A B =
      if (A.toFinset ∪ B.toFinset).card = 0 then 0
      else ((A.toFinset ∩ B.toFinset).card : ℚ) / ((A.toFinset ∪ B.toFinset).card : ℚ) := by
  have hu : (newSet (newSet A ++ newSet B)).length = (A.toFinset ∪ B.toFinset).card := by
    rw [length_newSet, List.toFinset_append, toFinset_newSet, toFinset_newSet]
  have hi : (newSet ((newSet A).filter (fun x => decide (x ∈ newSet B)))).length
      = (A.toFinset ∩ B.toFinset).card := by
    rw [length_newSet]
    congr 1
    ext x
    simp [mem_newSet]
  unfold calculateSimilarity
  simp only [hu, hi]

theorem inter_card_le_union_card {α : Type} [DecidableEq α] (S T : Finset α) :
    (S ∩ T).card ≤ (S ∪ T).card :=
  Finset.card_le_card (fun _ hx => Finset.mem_union_left _ (Finset.mem_inter.mp hx).1)

theorem bearerToken_eq_some {authHeader : Option String} {token : String}
    (h : bearerToken authHeader = some token) (hne : token ≠ "") :
    ∃ header, authHeader = some header ∧ (jsSplitSpace header).get? 1 = some token := by
  cases authHeader with
  | none => simp [bearerToken] at h
  | some header =>
    refine ⟨header, rfl, ?_⟩
    unfold bearerToken at h
    by_cases hh : header = ""
    · simp only [hh, if_true, Option.some.injEq] at h
      exact absurd h.symm hne
    · simpa only [hh, if_false] using h

/-- Every response `authenticateToken` sends has an error body. -/
theorem authenticateToken_respond_body {env : AuthEnv} {authHeader : Option String}
    {response : Response} (h : authenticateToken env authHeader = .respond response) :
    ∃ message, response.body = .error message ∧ (response.status = 401 ∨ response.status = 403) := by
  unfold authenticateToken at h
  cases hb : bearerToken authHeader with
  | none =>
    simp only [hb, MiddlewareResult.respond.injEq] at h
    exact ⟨_, by rw [← h], Or.inl (by rw [← h])⟩
  | some token =>
    by_cases ht : token = ""
    · simp only [hb, ht, if_true, MiddlewareResult.respond.injEq] at h
      exact ⟨_, by rw [← h], Or.inl (by rw [← h])⟩
    · cases hv : env.verify token with
      | none =>
        simp only [hb, ht, if_false, hv, MiddlewareResult.respond.injEq] at h
        exact ⟨_, by rw [← h], Or.inr (by rw [← h])⟩
      | some userId =>
        cases hu : env.usersById userId with
        | error e =>
          simp only [hb, ht, if_false, hv, hu, MiddlewareResult.respond.injEq] at h
          exact ⟨_, by rw [← h], Or.inr (by rw [← h])⟩
        | ok rows =>
          cases rows with
          | nil =>
            simp only [hb, ht, if_false, hv, hu, MiddlewareResult.respond.injEq] at h
            exact ⟨_, by rw [← h], Or.inl (by rw [← h])⟩
          | cons row rest =>
            by_cases ha : row.is_active = false
            · simp only [hb, ht, if_false, hv, hu, ha, if_true,
                MiddlewareResult.respond.injEq] at h
              exact ⟨_, by rw [← h], Or.inl (by rw [← h])⟩
            · simp only [hb, ht, if_false, hv, hu] at h
              rw [if_neg ha] at h
              exact MiddlewareResult.noConfusion h

theorem getUserIdHandler_body_ne_trendingSkills (r : SkillRecommender) (db : Database)
    (user : AuthUser) (p : UserIdParam) (limit : Option Int) (ts : List TrendingSkill) :
    (getUserIdHandler r db user p limit).response.body ≠ .trendingSkills ts := by
  by_cases h : p.parsed ≠ some user.id ∧ user.role ≠ "admin"
  · rw [getUserIdHandler_forbidden r db user p limit h]
    exact fun hb => Body.noConfusion hb
  · rw [getUserIdHandler_allowed r db user p limit h]
    cases (r.getRecommendations db p.sqlValue (some (limit.getD 5))).result with
    | error e => exact fun hb => Body.noConfusion hb
    | ok recs => exact fun hb => Body.noConfusion hb

theorem Route.run_userId (env : AuthEnv) (r : SkillRecommender) (db : Database)
    (readParam : String → UserIdParam) (req : RouterRequest) :
    Route.run env r db readParam .userId req
      = match authenticateToken env req.authorization with
        | .respond response => { response := response, queries := [] }
        | .next user =>
          getUserIdHandler r db { id := user.id, role := user.role }
            (readParam req.segment) req.limit :=
  rfl

theorem canUpdate_eq_true_iff (trade : TradeRecord) (senderId : Nat) (status : String) :
    canUpdate trade senderId status = true ↔
      (trade.status = "pending" ∧ (status = "accepted" ∨ status = "rejected") ∧
          trade.provider_id = senderId) ∨
        (trade.status = "accepted" ∧ status = "in_progress") ∨
        (trade.status = "in_progress" ∧ status = "completed") := by
  unfold canUpdate
  by_cases h1 : status = "accepted" ∧ trade.status = "pending"
  · rw [if_pos h1]
    obtain ⟨hs, ht⟩ := h1
    simp [hs, ht]
  · rw [if_neg h1]
    by_cases h2 : status = "rejected" ∧ trade.status = "pending"
    · rw [if_pos h2]
      obtain ⟨hs, ht⟩ := h2
      simp [hs, ht]
    · rw [if_neg h2]
      by_cases h3 : status = "in_progress" ∧ trade.status = "accepted"
      · rw [if_pos h3]
        obtain ⟨hs, ht⟩ := h3
        simp [hs, ht]
      · rw [if_neg h3]
        by_cases h4 : status = "completed" ∧ trade.status = "in_progress"
        · rw [if_pos h4]
          obtain ⟨hs, ht⟩ := h4
          simp [hs, ht]
        · rw [if_neg h4]
          simp only [Bool.false_eq_true, false_iff, not_or, not_and]
          refine ⟨?_, ?_, ?_⟩
          · intro ht hs hp
            rcases hs with hs | hs
            · exact h1 ⟨hs, ht⟩
            · exact h2 ⟨hs, ht⟩
          · intro ht hs
            exact h3 ⟨hs, ht⟩
          · intro ht hs
            exact h4 ⟨hs, ht⟩

theorem selectTrade_eq_some_iff (trades : TradeTable) (tradeId senderId : Nat)
    (trade : TradeRecord) :
    selectTrade trades tradeId senderId = some trade ↔
      trades tradeId = some trade ∧
        (trade.requester_id = senderId ∨ trade.provider_id = senderId) := by
  unfold selectTrade
  cases h : trades tradeId with
  | none => simp
  | some found =>
    simp only [Option.filter, Option.some.injEq]
    by_cases hp : found.requester_id = senderId ∨ found.provider_id = senderId
    · simp only [hp, decide_True, if_true, Option.some.injEq]
      constructor
      · intro he; subst he; exact ⟨rfl, hp⟩
      · intro he; exact he.1
    · simp only [hp, decide_False]
      constructor
      · intro he; simp at he
      · rintro ⟨he, hq⟩
        subst he
        exact absurd hq hp

/-- The three ways the handler can end. -/
theorem updateTradeStatus_cases (trades : TradeTable) (senderId : Nat) (now : Int)
    (data : StatusUpdate) :
    (selectTrade trades data.tradeId senderId = none ∧
      updateTradeStatus trades senderId now data = (trades, [.error "Unauthorized"])) ∨
    (∃ trade, selectTrade trades data.tradeId senderId = some trade ∧
      canUpdate trade senderId data.status = false ∧
      updateTradeStatus trades senderId now data
        = (trades, [.error "Cannot update trade status"])) ∨
    (∃ trade, selectTrade trades data.tradeId senderId = some trade ∧
      canUpdate trade senderId data.status = true ∧
      updateTradeStatus trades senderId now data
        = (Function.update trades data.tradeId
            (some (updatedTrade trade data.status (data.notes.getD "") now)),
          [.tradeStatusUpdated data.tradeId data.status (data.notes.getD ""),
           .tradeNotification
             (if trade.requester_id = senderId then trade.provider_id else trade.requester_id)
             data.tradeId ("Trade status updated to " ++ data.status)])) := by
  unfold updateTradeStatus
  cases hsel : selectTrade trades data.tradeId senderId with
  | none => exact Or.inl ⟨rfl, rfl⟩
  | some trade =>
    right
    cases hcan : canUpdate trade senderId data.status with
    | false =>
      left
      exact ⟨trade, rfl, hcan, by simp [hcan]⟩
    | true =>
      right
      exact ⟨trade, rfl, hcan, by simp [hcan]⟩

theorem applied_error (trades : TradeTable) (message : String) :
    applied (trades, [SocketEmit.error message]) = false :=
  rfl

theorem applied_update (trades : TradeTable) (tradeId receiverId : Nat)
    (status notes message : String) :
    applied (trades, [SocketEmit.tradeStatusUpdated tradeId status notes,
      SocketEmit.tradeNotification receiverId tradeId message]) = true :=
  rfl

theorem statusRank_le_three (status : String) : statusRank status ≤ 3 := by
  unfold statusRank
  split_ifs <;> decide

theorem tradeRank_le_three (trades : TradeTable) (tradeId : Nat) :
    tradeRank trades tradeId ≤ 3 := by
  unfold tradeRank
  cases trades tradeId with
  | none => exact le_refl 3
  | some trade => exact statusRank_le_three trade.status

theorem statusRank_lt_of_canUpdate {trade : TradeRecord} {senderId : Nat} {status : String}
    (h : canUpdate trade senderId status = true) :
    statusRank trade.status < statusRank status := by
  rcases (canUpdate_eq_true_iff trade senderId status).mp h with
    ⟨ht, hs | hs, _⟩ | ⟨ht, hs⟩ | ⟨ht, hs⟩ <;> rw [ht, hs] <;> decide

/-- Handling one event never lowers the rank of a trade, and raises it when the event applied
an update to that trade. -/
theorem tradeRank_step (trades : TradeTable) (senderId : Nat) (now : Int)
    (data : StatusUpdate) (tradeId : Nat) :
    tradeRank trades tradeId
        ≤ tradeRank (updateTradeStatus trades senderId now data).1 tradeId ∧
    (applied (updateTradeStatus trades senderId now data) = true →
      data.tradeId = tradeId →
      tradeRank trades tradeId
        < tradeRank (updateTradeStatus trades senderId now data).1 tradeId) := by
  rcases updateTradeStatus_cases trades senderId now data with
    ⟨_, h⟩ | ⟨trade, _, _, h⟩ | ⟨trade, hsel, hcan, h⟩
  · rw [h]
    exact ⟨le_refl _, fun ha => absurd ha (by rw [applied_error]; decide)⟩
  · rw [h]
    exact ⟨le_refl _, fun ha => absurd ha (by rw [applied_error]; decide)⟩
  · rw [h]
    have hrow := ((selectTrade_eq_some_iff trades data.tradeId senderId trade).mp hsel).1
    have hlt := statusRank_lt_of_canUpdate hcan
    by_cases hk : data.tradeId = tradeId
    · subst hk
      have hnew : tradeRank (Function.update trades data.tradeId
          (some (updatedTrade trade data.status (data.notes.getD "") now))) data.tradeId
          = statusRank data.status := by
        simp [tradeRank, updatedTrade]
      have hold : tradeRank trades data.tradeId = statusRank trade.status := by
        simp [tradeRank, hrow]
      simp only [hnew, hold]
      exact ⟨le_of_lt hlt, fun _ _ => hlt⟩
    · have hsame : tradeRank (Function.update trades data.tradeId
          (some (updatedTrade trade data.status (data.notes.getD "") now))) tradeId
          = tradeRank trades tradeId := by
        unfold tradeRank
        rw [Function.update_noteq (fun e => hk e.symm)]
      simp only [hsame]
      exact ⟨le_refl _, fun _ he => absurd he hk⟩

theorem successfulUpdates_add_rank (tradeId : Nat) (events : List StatusEvent) :
    ∀ trades : TradeTable, successfulUpdates tradeId trades events + tradeRank trades tradeId ≤ 3 := by
  induction events with
  | nil =>
    intro trades
    simp only [successfulUpdates, zero_add]
    exact tradeRank_le_three trades tradeId
  | cons ev rest ih =>
    intro trades
    have hstep := tradeRank_step trades ev.senderId ev.now ev.data tradeId
    have hrest := ih (updateTradeStatus trades ev.senderId ev.now ev.data).1
    unfold successfulUpdates
    by_cases hap : applied (updateTradeStatus trades ev.senderId ev.now ev.data) = true
        ∧ ev.data.tradeId = tradeId
    · rw [if_pos hap]
      have := hstep.2 hap.1 hap.2
      omega
    · rw [if_neg hap]
      have := hstep.1
      omega

theorem resolveSkill_user_skills (store : SkillsStore) (skillName category description : String) :
    (resolveSkill store skillName category description).1.user_skills = store.user_skills := by
  unfold resolveSkill
  cases store.skills.filter (fun row => decide (row.name = skillName)) with
  | nil => rfl
  | cons row rest => rfl

/-- The three ways `POST /skills` can end, seen on the `user_skills` table. -/
theorem postSkill_cases (store : SkillsStore) (user : AuthUser) (req : AddSkillRequest) :
    (req.errors ≠ [] ∧ postSkill store user req
        = (store, { status := 400, body := .errors req.errors })) ∨
    (req.errors = [] ∧
      (∃ row ∈ store.user_skills, row.user_id = user.id ∧
        row.skill_id
          = (resolveSkill store req.skillName req.category (req.description.getD "")).2 ∧
        row.skill_type = req.skillType) ∧
      (postSkill store user req).2
        = { status := 400, body := .error "You already have this skill in your profile" } ∧
      (postSkill store user req).1.user_skills = store.user_skills) ∨
    (req.errors = [] ∧
      (∀ row ∈ store.user_skills, ¬ (row.user_id = user.id ∧
        row.skill_id
          = (resolveSkill store req.skillName req.category (req.description.getD "")).2 ∧
        row.skill_type = req.skillType)) ∧
      (∃ userSkillId, (postSkill store user req).2
        = { status := 201, body := .added "Skill added successfully" userSkillId }) ∧
      ∃ added : UserSkillsTableRow,
        tripleOf added = (user.id,
          (resolveSkill store req.skillName req.category (req.description.getD "")).2,
          req.skillType) ∧
        (postSkill store user req).1.user_skills = store.user_skills ++ [added]) := by
  by_cases herr : req.errors ≠ []
  · left
    refine ⟨herr, ?_⟩
    unfold postSkill
    rw [if_pos herr]
  · right
    have herr2 : req.errors = [] := not_not.mp herr
    have hus := resolveSkill_user_skills store req.skillName req.category
      (req.description.getD "")
    by_cases hex : ((resolveSkill store req.skillName req.category
        (req.description.getD "")).1.user_skills.filter (fun row =>
        decide (row.user_id = user.id)
          && decide (row.skill_id
            = (resolveSkill store req.skillName req.category (req.description.getD "")).2)
          && decide (row.skill_type = req.skillType))).length > 0
    · left
      refine ⟨herr2, ?_, ?_, ?_⟩
      · obtain ⟨row, hrow⟩ := List.exists_mem_of_length_pos hex
        obtain ⟨hmem, hcond⟩ := List.mem_filter.mp hrow
        rw [hus] at hmem
        simp only [Bool.and_eq_true, decide_eq_true_eq] at hcond
        exact ⟨row, hmem, hcond.1.1, hcond.1.2, hcond.2⟩
      · unfold postSkill
        rw [if_neg herr]
        simp only []
        rw [if_pos hex]
      · unfold postSkill
        rw [if_neg herr]
        simp only []
        rw [if_pos hex]
        exact hus
    · right
      refine ⟨herr2, ?_, ?_, ?_⟩
      · intro row hmem hcond
        apply hex
        apply List.length_pos_of_mem (a := row)
        rw [List.mem_filter, hus]
        refine ⟨hmem, ?_⟩
        simp only [Bool.and_eq_true, decide_eq_true_eq]
        exact ⟨⟨hcond.1, hcond.2.1⟩, hcond.2.2⟩
      · unfold postSkill
        rw [if_neg herr]
        simp only []
        rw [if_neg hex]
        exact ⟨_, rfl⟩
      · unfold postSkill
        rw [if_neg herr]
        simp only []
        rw [if_neg hex]
        refine ⟨_, ?_, by rw [hus]⟩
        rfl

theorem postSkill_noDuplicateTriple (store : SkillsStore) (user : AuthUser)
    (req : AddSkillRequest) (h : noDuplicateTriple store.user_skills) :
    noDuplicateTriple (postSkill store user req).1.user_skills := by
  rcases postSkill_cases store user req with
    ⟨_, hp⟩ | ⟨_, _, _, hp⟩ | ⟨_, hfresh, _, added, htriple, hp⟩
  · rw [hp]; exact h
  · rw [hp]; exact h
  · rw [hp]
    unfold noDuplicateTriple at h ⊢
    rw [List.map_append, List.nodup_append]
    refine ⟨h, List.nodup_singleton _, ?_⟩
    intro t ht ht2
    simp only [List.map_cons, List.map_nil, List.mem_singleton] at ht2
    obtain ⟨row, hrow, hrt⟩ := List.mem_map.mp ht
    apply hfresh row hrow
    have : tripleOf row = tripleOf added := hrt.trans ht2
    rw [htriple] at this
    unfold tripleOf at this
    simp only [Prod.mk.injEq] at this
    exact this

theorem handlePosts_noDuplicateTriple (requests : List (AuthUser × AddSkillRequest)) :
    ∀ store : SkillsStore, noDuplicateTriple store.user_skills →
      noDuplicateTriple (handlePosts store requests).user_skills := by
  induction requests with
  | nil => intro store h; exact h
  | cons first rest ih =>
    intro store h
    obtain ⟨user, req⟩ := first
    exact ih _ (postSkill_noDuplicateTriple store user req h)

theorem searchQuery_bounds (page limit : Option Int)
    (hpage : ∀ p, page = some p → 1 ≤ p)
    (hlimit : ∀ l, limit = some l → 1 ≤ l ∧ l ≤ 100) :
    1 ≤ page.getD 1 ∧ 1 ≤ limit.getD 20 ∧ limit.getD 20 ≤ 100 := by
  refine ⟨?_, ?_, ?_⟩
  · cases page with
    | none => exact le_refl 1
    | some p => exact hpage p rfl
  · cases limit with
    | none => decide
    | some l => exact (hlimit l rfl).1
  · cases limit with
    | none => decide
    | some l => exact (hlimit l rfl).2

/-! ## Lemmas on the score in double precision and on the collation -/

theorem roundHalfEven_bounds (n : ℚ) : ⌊n⌋ ≤ roundHalfEven n ∧ roundHalfEven n ≤ ⌊n⌋ + 1 := by
  unfold roundHalfEven
  simp only []
  split_ifs <;> omega

theorem roundHalfEven_intCast (k : ℤ) : roundHalfEven (k : ℚ) = k := by
  unfold roundHalfEven
  simp

theorem roundHalfEven_mono {n m : ℚ} (h : n ≤ m) : roundHalfEven n ≤ roundHalfEven m := by
  have hf : ⌊n⌋ ≤ ⌊m⌋ := Int.floor_mono h
  rcases lt_or_eq_of_le hf with hlt | heq
  · have h1 := (roundHalfEven_bounds n).2
    have h2 := (roundHalfEven_bounds m).1
    omega
  · have hr : n - (⌊n⌋ : ℚ) ≤ m - (⌊m⌋ : ℚ) := by rw [heq]; linarith
    unfold roundHalfEven
    simp only []
    rw [heq] at hr ⊢
    split_ifs <;> first | omega | (exfalso; linarith)

theorem roundHalfEven_le_of_le_intCast {n : ℚ} {k : ℤ} (h : n ≤ (k : ℚ)) :
    roundHalfEven n ≤ k := by
  have := roundHalfEven_mono h
  rwa [roundHalfEven_intCast] at this

theorem le_roundHalfEven_of_intCast_le {n : ℚ} {k : ℤ} (h : (k : ℚ) ≤ n) :
    k ≤ roundHalfEven n := by
  have := roundHalfEven_mono h
  rwa [roundHalfEven_intCast] at this

theorem two_zpow_pos (e : ℤ) : (0 : ℚ) < (2 : ℚ) ^ e :=
  zpow_pos (by norm_num) e

/-- For positive `x` the scaled value lies in `[2^52, 2^53)`. -/
theorem scaled_bounds {x : ℚ} (hx : 0 < x) :
    ((2 : ℤ) ^ 52 : ℤ) ≤ roundHalfEven (x / (2 : ℚ) ^ (Int.log 2 x - 52)) ∧
    roundHalfEven (x / (2 : ℚ) ^ (Int.log 2 x - 52)) ≤ ((2 : ℤ) ^ 53 : ℤ) := by
  have hq := two_zpow_pos (Int.log 2 x - 52)
  have hlow : (2 : ℚ) ^ (Int.log 2 x) ≤ x := by
    have := Int.zpow_log_le_self (b := 2) (by norm_num) hx
    simpa using this
  have hhigh : x < (2 : ℚ) ^ (Int.log 2 x + 1) := by
    have := Int.lt_zpow_succ_log_self (b := 2) (by norm_num) x
    simpa using this
  have e1 : (2 : ℚ) ^ (Int.log 2 x) = (2 : ℚ) ^ (52 : ℕ) * (2 : ℚ) ^ (Int.log 2 x - 52) := by
    have : (2 : ℚ) ^ (Int.log 2 x) = (2 : ℚ) ^ ((52 : ℤ) + (Int.log 2 x - 52)) := by
      congr 1; ring
    rw [this, zpow_add₀ (by norm_num)]
    norm_num
  have e2 : (2 : ℚ) ^ (Int.log 2 x + 1) = (2 : ℚ) ^ (53 : ℕ) * (2 : ℚ) ^ (Int.log 2 x - 52) := by
    have : (2 : ℚ) ^ (Int.log 2 x + 1) = (2 : ℚ) ^ ((53 : ℤ) + (Int.log 2 x - 52)) := by
      congr 1; ring
    rw [this, zpow_add₀ (by norm_num)]
    norm_num
  have c1 : (((2 : ℤ) ^ 52 : ℤ) : ℚ) = (2 : ℚ) ^ (52 : ℕ) := by norm_num
  have c2 : (((2 : ℤ) ^ 53 : ℤ) : ℚ) = (2 : ℚ) ^ (53 : ℕ) := by norm_num
  constructor
  · apply le_roundHalfEven_of_intCast_le
    rw [le_div_iff₀ hq, c1, ← e1]
    exact hlow
  · apply roundHalfEven_le_of_le_intCast
    rw [div_le_iff₀ hq, c2, ← e2]
    exact le_of_lt hhigh

theorem roundDouble_of_pos {x : ℚ} (hx : 0 < x) :
    roundDouble x = (roundHalfEven (x / (2 : ℚ) ^ (Int.log 2 x - 52)) : ℚ)
      * (2 : ℚ) ^ (Int.log 2 x - 52) := by
  unfold roundDouble
  simp only [ne_of_gt hx, if_false, hx, if_true, abs_of_pos hx]

theorem roundDouble_neg (x : ℚ) : roundDouble (-x) = -roundDouble x := by
  unfold roundDouble
  rcases lt_trichotomy x 0 with h | h | h
  · have h1 : ¬ (0 < x) := not_lt.mpr (le_of_lt h)
    have h2 : (0 : ℚ) < -x := by linarith
    simp [ne_of_lt h, h1, h2, (ne_of_lt h).symm]
  · simp [h]
  · have h1 : ¬ ((0 : ℚ) < -x) := by linarith
    simp [ne_of_gt h, h, h1]

theorem roundDouble_zero : roundDouble 0 = 0 := by
  simp [roundDouble]

theorem roundDouble_pos_bounds {x : ℚ} (hx : 0 < x) :
    (2 : ℚ) ^ (Int.log 2 x) ≤ roundDouble x ∧
      roundDouble x ≤ (2 : ℚ) ^ (Int.log 2 x + 1) := by
  have hq := two_zpow_pos (Int.log 2 x - 52)
  obtain ⟨h1, h2⟩ := scaled_bounds hx
  have e1 : (2 : ℚ) ^ (Int.log 2 x) = (2 : ℚ) ^ (52 : ℕ) * (2 : ℚ) ^ (Int.log 2 x - 52) := by
    have : (2 : ℚ) ^ (Int.log 2 x) = (2 : ℚ) ^ ((52 : ℤ) + (Int.log 2 x - 52)) := by
      congr 1; ring
    rw [this, zpow_add₀ (by norm_num)]
    norm_num
  have e2 : (2 : ℚ) ^ (Int.log 2 x + 1) = (2 : ℚ) ^ (53 : ℕ) * (2 : ℚ) ^ (Int.log 2 x - 52) := by
    have : (2 : ℚ) ^ (Int.log 2 x + 1) = (2 : ℚ) ^ ((53 : ℤ) + (Int.log 2 x - 52)) := by
      congr 1; ring
    rw [this, zpow_add₀ (by norm_num)]
    norm_num
  rw [roundDouble_of_pos hx, e1, e2]
  have c1 : ((2 : ℚ) ^ (52 : ℕ)) ≤ (roundHalfEven (x / (2 : ℚ) ^ (Int.log 2 x - 52)) : ℚ) := by
    exact_mod_cast h1
  have c2 : (roundHalfEven (x / (2 : ℚ) ^ (Int.log 2 x - 52)) : ℚ) ≤ ((2 : ℚ) ^ (53 : ℕ)) := by
    exact_mod_cast h2
  exact ⟨mul_le_mul_of_nonneg_right c1 (le_of_lt hq), mul_le_mul_of_nonneg_right c2 (le_of_lt hq)⟩

theorem roundDouble_pos {x : ℚ} (hx : 0 < x) : 0 < roundDouble x :=
  lt_of_lt_of_le (two_zpow_pos _) (roundDouble_pos_bounds hx).1

theorem roundDouble_mono_pos {x y : ℚ} (hx : 0 < x) (hxy : x ≤ y) :
    roundDouble x ≤ roundDouble y := by
  have hy : 0 < y := lt_of_lt_of_le hx hxy
  have hlog : Int.log 2 x ≤ Int.log 2 y := Int.log_mono_right hx hxy
  rcases lt_or_eq_of_le hlog with hlt | heq
  · calc roundDouble x ≤ (2 : ℚ) ^ (Int.log 2 x + 1) := (roundDouble_pos_bounds hx).2
      _ ≤ (2 : ℚ) ^ (Int.log 2 y) := zpow_le_zpow_right₀ (by norm_num) (by omega)
      _ ≤ roundDouble y := (roundDouble_pos_bounds hy).1
  · rw [roundDouble_of_pos hx, roundDouble_of_pos hy, heq]
    have hq := two_zpow_pos (Int.log 2 y - 52)
    apply mul_le_mul_of_nonneg_right _ (le_of_lt hq)
    have : x / (2 : ℚ) ^ (Int.log 2 y - 52) ≤ y / (2 : ℚ) ^ (Int.log 2 y - 52) :=
      div_le_div_of_nonneg_right hxy (le_of_lt hq)
    exact_mod_cast roundHalfEven_mono this

theorem roundDouble_monotone : Monotone roundDouble := by
  intro x y hxy
  rcases lt_trichotomy 0 x with hx | hx | hx
  · exact roundDouble_mono_pos hx hxy
  · rw [← hx] at hxy ⊢
    rw [roundDouble_zero]
    rcases lt_or_eq_of_le hxy with h | h
    · exact le_of_lt (roundDouble_pos h)
    · rw [← h, roundDouble_zero]
  · rcases lt_trichotomy 0 y with hy | hy | hy
    · have h1 : roundDouble x < 0 := by
        have := roundDouble_pos (by linarith : (0 : ℚ) < -x)
        rw [roundDouble_neg] at this
        linarith
      exact le_of_lt (lt_trans h1 (roundDouble_pos hy))
    · rw [← hy, roundDouble_zero]
      have := roundDouble_pos (by linarith : (0 : ℚ) < -x)
      rw [roundDouble_neg] at this
      linarith
    · have := roundDouble_mono_pos (by linarith : (0 : ℚ) < -y) (by linarith : -y ≤ -x)
      rw [roundDouble_neg, roundDouble_neg] at this
      linarith

theorem roundHalfEven_err (n : ℚ) : |(roundHalfEven n : ℚ) - n| ≤ 1 / 2 := by
  have h1 : (⌊n⌋ : ℚ) ≤ n := Int.floor_le n
  have h2 : n < (⌊n⌋ : ℚ) + 1 := Int.lt_floor_add_one n
  unfold roundHalfEven
  simp only []
  rw [abs_le]
  split_ifs with ha hb hc
  · constructor <;> linarith
  · push_cast; constructor <;> linarith
  · have : n - (⌊n⌋ : ℚ) = 1 / 2 := le_antisymm (not_lt.mp hb) (not_lt.mp ha)
    constructor <;> linarith
  · have : n - (⌊n⌋ : ℚ) = 1 / 2 := le_antisymm (not_lt.mp hb) (not_lt.mp ha)
    push_cast; constructor <;> linarith

theorem int_log_eq {x : ℚ} (hx : 0 < x) (e : ℤ) (h1 : (2 : ℚ) ^ e ≤ x)
    (h2 : x < (2 : ℚ) ^ (e + 1)) : Int.log 2 x = e := by
  have a1 : e ≤ Int.log 2 x := by
    have := (Int.zpow_le_iff_le_log (b := 2) (by norm_num) hx (x := e)).mp (by simpa using h1)
    exact this
  have a2 : Int.log 2 x < e + 1 := by
    have := (Int.lt_zpow_iff_log_lt (b := 2) (by norm_num) hx (x := e + 1)).mp
      (by simpa using h2)
    exact this
  omega

/-- The error of rounding a positive value is at most `2 ^ (-53)` times the rounded value. -/
theorem roundDouble_err {x : ℚ} (hx : 0 < x) :
    |roundDouble x - x| ≤ roundDouble x / 2 ^ 53 := by
  have hq := two_zpow_pos (Int.log 2 x - 52)
  have hb := (roundDouble_pos_bounds hx).1
  have herr := roundHalfEven_err (x / (2 : ℚ) ^ (Int.log 2 x - 52))
  have e1 : (2 : ℚ) ^ (Int.log 2 x) = (2 : ℚ) ^ (52 : ℕ) * (2 : ℚ) ^ (Int.log 2 x - 52) := by
    have : (2 : ℚ) ^ (Int.log 2 x) = (2 : ℚ) ^ ((52 : ℤ) + (Int.log 2 x - 52)) := by
      congr 1; ring
    rw [this, zpow_add₀ (by norm_num)]; norm_num
  have hmul : |roundDouble x - x|
      = |(roundHalfEven (x / (2 : ℚ) ^ (Int.log 2 x - 52)) : ℚ)
          - x / (2 : ℚ) ^ (Int.log 2 x - 52)| * (2 : ℚ) ^ (Int.log 2 x - 52) := by
    rw [roundDouble_of_pos hx, ← abs_of_pos hq, ← abs_mul, abs_of_pos hq, sub_mul,
      div_mul_cancel₀ _ (ne_of_gt hq)]
  rw [hmul]
  have h3 : |(roundHalfEven (x / (2 : ℚ) ^ (Int.log 2 x - 52)) : ℚ)
      - x / (2 : ℚ) ^ (Int.log 2 x - 52)| * (2 : ℚ) ^ (Int.log 2 x - 52)
      ≤ 1 / 2 * (2 : ℚ) ^ (Int.log 2 x - 52) :=
    mul_le_mul_of_nonneg_right herr (le_of_lt hq)
  have h4 : (1 : ℚ) / 2 * (2 : ℚ) ^ (Int.log 2 x - 52) = (2 : ℚ) ^ (Int.log 2 x) / 2 ^ 53 := by
    rw [e1]; norm_num; ring
  have h5 : (2 : ℚ) ^ (Int.log 2 x) / 2 ^ 53 ≤ roundDouble x / 2 ^ 53 :=
    div_le_div_of_nonneg_right hb (by positivity)
  linarith

/-- A binary64 number is kept by rounding. -/
theorem roundDouble_idem_pos {x : ℚ} (hx : 0 < x) : roundDouble (roundDouble x) = roundDouble x := by
  have hq := two_zpow_pos (Int.log 2 x - 52)
  have hpos := roundDouble_pos hx
  obtain ⟨hlo, hhi⟩ := roundDouble_pos_bounds hx
  obtain ⟨slo, shi⟩ := scaled_bounds hx
  have hval := roundDouble_of_pos hx
  rcases lt_or_eq_of_le hhi with hlt | heq
  · have hlog : Int.log 2 (roundDouble x) = Int.log 2 x := int_log_eq hpos _ hlo hlt
    rw [roundDouble_of_pos hpos, hlog]
    nth_rewrite 1 [hval]
    rw [mul_div_assoc, div_self (ne_of_gt hq), mul_one, roundHalfEven_intCast, ← hval]
  · have hlog : Int.log 2 (roundDouble x) = Int.log 2 x + 1 := by
      apply int_log_eq hpos
      · rw [heq]
      · rw [heq]
        exact zpow_lt_zpow_right₀ (by norm_num) (by omega)
    rw [roundDouble_of_pos hpos, hlog]
    have e3 : (2 : ℚ) ^ (Int.log 2 x + 1) = ((2 ^ 52 : ℤ) : ℚ) * (2 : ℚ) ^ (Int.log 2 x + 1 - 52) := by
      have : (2 : ℚ) ^ (Int.log 2 x + 1) = (2 : ℚ) ^ ((52 : ℤ) + (Int.log 2 x + 1 - 52)) := by
        congr 1; ring
      rw [this, zpow_add₀ (by norm_num)]; norm_num
    have hq2 := two_zpow_pos (Int.log 2 x + 1 - 52)
    rw [heq]
    nth_rewrite 1 [e3]
    rw [mul_div_assoc, div_self (ne_of_gt hq2), mul_one, roundHalfEven_intCast, ← e3]

theorem roundDouble_idem (x : ℚ) : roundDouble (roundDouble x) = roundDouble x := by
  rcases lt_trichotomy x 0 with h | h | h
  · have h2 : (0 : ℚ) < -x := by linarith
    have := roundDouble_idem_pos h2
    rw [roundDouble_neg, roundDouble_neg] at this
    linarith
  · rw [h, roundDouble_zero, roundDouble_zero]
  · exact roundDouble_idem_pos h

theorem userScoresBy_snoc (score : Match → ℚ) (ms : List Match) (x : Match) :
    userScoresBy score (ms ++ [x]) = scoreStepBy score (userScoresBy score ms) x := by
  simp [userScoresBy, List.foldl_append]

theorem scoreStepBy_cases (score : Match → ℚ) (M : JsMap Recommendation) (x : Match) :
    (scoreStepBy score M x = M ∧ ∃ kept, M.get x.user_id = some kept ∧
        score x ≤ kept.score) ∨
    (scoreStepBy score M x = M ++ [(x.user_id, ⟨x, score x⟩)] ∧
        M.get x.user_id = none) ∨
    (scoreStepBy score M x = M.set x.user_id ⟨x, score x⟩ ∧
        ∃ kept, M.get x.user_id = some kept ∧ kept.score < score x) := by
  unfold scoreStepBy
  cases h : M.get x.user_id with
  | none =>
    right; left
    exact ⟨JsMap.set_of_get_none _ h, rfl⟩
  | some kept =>
    by_cases hlt : kept.score < score x
    · right; right
      refine ⟨?_, kept, rfl, hlt⟩
      simp only [hlt, if_true]
    · left
      refine ⟨?_, kept, rfl, not_lt.mp hlt⟩
      simp only [hlt, if_false]

/-- Every entry of `userScoresBy` is a provider row stored under its `user_id` with its score. -/
theorem userScoresBy_entry (score : Match → ℚ) (ms : List Match) :
    ∀ p ∈ userScoresBy score ms,
      p.2.toMatch ∈ ms ∧ p.1 = p.2.user_id ∧ p.2.score = score p.2.toMatch := by
  induction ms using List.reverseRecOn with
  | nil => intro p hp; simp [userScoresBy] at hp
  | append_singleton ms x ih =>
    intro p hp
    rw [userScoresBy_snoc] at hp
    have old : p ∈ userScoresBy score ms →
        p.2.toMatch ∈ ms ++ [x] ∧ p.1 = p.2.user_id ∧
          p.2.score = score p.2.toMatch := fun h =>
      ⟨List.mem_append_left _ (ih p h).1, (ih p h).2⟩
    have new : p = (x.user_id, (⟨x, score x⟩ : Recommendation)) →
        p.2.toMatch ∈ ms ++ [x] ∧ p.1 = p.2.user_id ∧
          p.2.score = score p.2.toMatch := by
      intro h; subst h; simp
    rcases scoreStepBy_cases score (userScoresBy score ms) x with ⟨h, _⟩ | ⟨h, _⟩ | ⟨h, _⟩
    · rw [h] at hp; exact old hp
    · rw [h] at hp
      rcases List.mem_append.mp hp with hp | hp
      · exact old hp
      · exact new (by simpa using hp)
    · rw [h] at hp
      rcases JsMap.mem_set hp with hp | hp
      · exact new hp
      · exact old hp

theorem userScoresBy_keys (score : Match → ℚ) (ms : List Match) :
    (userScoresBy score ms).keys.Nodup ∧
      ∀ k, k ∈ (userScoresBy score ms).keys ↔ ∃ m ∈ ms, m.user_id = k := by
  induction ms using List.reverseRecOn with
  | nil => simp [userScoresBy, JsMap.keys]
  | append_singleton ms x ih =>
    rw [userScoresBy_snoc]
    have hmem : ∀ k, (k ∈ (userScoresBy score ms).keys ∨ k = x.user_id) ↔
        ∃ m ∈ ms ++ [x], m.user_id = k := by
      intro k
      rw [ih.2 k]
      constructor
      · rintro (⟨m, hm, rfl⟩ | rfl)
        · exact ⟨m, List.mem_append_left _ hm, rfl⟩
        · exact ⟨x, by simp, rfl⟩
      · rintro ⟨m, hm, rfl⟩
        rcases List.mem_append.mp hm with hm | hm
        · exact Or.inl ⟨m, hm, rfl⟩
        · right; simp at hm; rw [hm]
    have hin : ∀ kept, (userScoresBy score ms).get x.user_id = some kept →
        x.user_id ∈ (userScoresBy score ms).keys := by
      intro kept hk
      by_contra hc
      rw [← JsMap.get_eq_none_iff, hk] at hc
      exact Option.noConfusion hc
    rcases scoreStepBy_cases score (userScoresBy score ms) x with
      ⟨h, kept, hk, _⟩ | ⟨h, hk⟩ | ⟨h, kept, hk, _⟩
    · rw [h]
      refine ⟨ih.1, fun k => ?_⟩
      rw [← hmem k]
      constructor
      · exact Or.inl
      · rintro (h | rfl)
        · exact h
        · exact hin kept hk
    · rw [h]
      have hk2 := (JsMap.get_eq_none_iff _ _).mp hk
      have hkeys : JsMap.keys (userScoresBy score ms ++
          [(x.user_id, (⟨x, score x⟩ : Recommendation))]) =
          (userScoresBy score ms).keys ++ [x.user_id] := by simp [JsMap.keys]
      rw [hkeys]
      refine ⟨?_, fun k => ?_⟩
      · rw [List.nodup_append]
        refine ⟨ih.1, List.nodup_singleton _, ?_⟩
        intro a ha hb
        simp at hb
        exact hk2 (hb ▸ ha)
      · rw [← hmem k]; simp
    · rw [h, JsMap.keys_set_of_get_some _ hk]
      refine ⟨ih.1, fun k => ?_⟩
      rw [← hmem k]
      constructor
      · exact Or.inl
      · rintro (h | rfl)
        · exact h
        · exact hin kept hk

theorem userScoresBy_values_user_id (score : Match → ℚ) (ms : List Match) :
    (userScoresBy score ms).values.map (fun e => e.user_id) = (userScoresBy score ms).keys := by
  simp only [JsMap.values, JsMap.keys, List.map_map]
  apply List.map_congr_left
  intro p hp
  exact ((userScoresBy_entry score ms p hp).2.1).symm

/-- The values of `userScoresBy` stand in provider order when the provider rows do. -/
theorem userScoresBy_values_providerOrder (score : Match → ℚ) (ms : List Match)
    (hsorted : ms.Pairwise providerOrder)
    (hsame : ∀ a ∈ ms, ∀ b ∈ ms, a.user_id = b.user_id →
      a.user_rating = b.user_rating ∧ a.total_trades = b.total_trades) :
    ((userScoresBy score ms).values.map (fun e => (e.user_rating, e.total_trades))).Pairwise
      (fun p q => ratingLt q.1 p.1 ∨ (p.1 = q.1 ∧ q.2 ≤ p.2)) := by
  induction ms using List.reverseRecOn with
  | nil => simp [userScoresBy, JsMap.values]
  | append_singleton ms x ih =>
    obtain ⟨hms, _, hx⟩ := List.pairwise_append.mp hsorted
    have ih2 := ih hms (fun a ha b hb =>
      hsame a (List.mem_append_left _ ha) b (List.mem_append_left _ hb))
    rw [userScoresBy_snoc]
    rcases scoreStepBy_cases score (userScoresBy score ms) x with
      ⟨h, _⟩ | ⟨h, _⟩ | ⟨h, kept, hk, _⟩
    · rw [h]; exact ih2
    · rw [h]
      simp only [JsMap.values, List.map_append, List.map_cons, List.map_nil]
      rw [List.pairwise_append]
      refine ⟨ih2, List.pairwise_singleton _ _, ?_⟩
      intro p hp q hq
      simp only [List.mem_singleton] at hq
      subst hq
      simp only [JsMap.values, List.mem_map] at hp
      obtain ⟨e, ⟨pe, hpe, rfl⟩, rfl⟩ := hp
      exact hx pe.2.toMatch (userScoresBy_entry score ms pe hpe).1 x (by simp)
    · rw [h, JsMap.map_values_set _ _ hk]
      · exact ih2
      · have hmem := JsMap.mem_of_get hk
        have hent := userScoresBy_entry score ms _ hmem
        have := hsame x (by simp) kept.toMatch (List.mem_append_left _ hent.1) hent.2.1
        simp only [this.1, this.2]

/-- The keys of `userScoresBy` stand in the order in which the users first occur. -/
theorem userScoresBy_keys_firstOccurrence (score : Match → ℚ) (ms : List Match) :
    (userScoresBy score ms).keys.Pairwise
      (fun u v => firstOccurrence ms u < firstOccurrence ms v) := by
  induction ms using List.reverseRecOn with
  | nil => simp [userScoresBy, JsMap.keys]
  | append_singleton ms x ih =>
    have hkeys := userScoresBy_keys score ms
    have hold : ∀ u ∈ (userScoresBy score ms).keys,
        firstOccurrence (ms ++ [x]) u = firstOccurrence ms u := by
      intro u hu
      obtain ⟨m, hm, hmu⟩ := (hkeys.2 u).mp hu
      unfold firstOccurrence
      rw [List.map_append]
      exact List.indexOf_append_of_mem (List.mem_map.mpr ⟨m, hm, hmu⟩)
    have ih2 : (userScoresBy score ms).keys.Pairwise
        (fun u v => firstOccurrence (ms ++ [x]) u < firstOccurrence (ms ++ [x]) v) := by
      refine List.Pairwise.imp_of_mem ?_ ih
      intro u v hu hv huv
      rw [hold u hu, hold v hv]
      exact huv
    rw [userScoresBy_snoc]
    rcases scoreStepBy_cases score (userScoresBy score ms) x with
      ⟨h, _⟩ | ⟨h, hnone⟩ | ⟨h, kept, hk, _⟩
    · rw [h]; exact ih2
    · rw [h]
      have hk2 := (JsMap.get_eq_none_iff _ _).mp hnone
      have hkeys2 : JsMap.keys (userScoresBy score ms ++
          [(x.user_id, (⟨x, score x⟩ : Recommendation))]) =
          (userScoresBy score ms).keys ++ [x.user_id] := by simp [JsMap.keys]
      rw [hkeys2, List.pairwise_append]
      refine ⟨ih2, List.pairwise_singleton _ _, ?_⟩
      intro u hu v hv
      simp only [List.mem_singleton] at hv
      subst hv
      rw [hold u hu]
      have hnot : x.user_id ∉ ms.map (fun m => m.user_id) := by
        intro hmem
        obtain ⟨m, hm, hmu⟩ := List.mem_map.mp hmem
        exact hk2 ((hkeys.2 x.user_id).mpr ⟨m, hm, hmu⟩)
      have hlt : firstOccurrence ms u < ms.length := by
        obtain ⟨m, hm, hmu⟩ := (hkeys.2 u).mp hu
        unfold firstOccurrence
        have := List.indexOf_lt_length.mpr (List.mem_map.mpr ⟨m, hm, hmu⟩ :
          u ∈ ms.map (fun m => m.user_id))
        simpa using this
      have hx : firstOccurrence (ms ++ [x]) x.user_id = ms.length := by
        unfold firstOccurrence
        rw [List.map_append, List.indexOf_append_of_not_mem hnot]
        simp
      rw [hx]
      exact hlt
    · rw [h, JsMap.keys_set_of_get_some _ hk]
      exact ih2

/-- Rounding to binary64 keeps the sign: the rounded value is at most 0 exactly when the
value is. -/
theorem roundDouble_nonpos_iff (x : ℚ) : roundDouble x ≤ 0 ↔ x ≤ 0 := by
  constructor
  · intro h
    by_contra hx
    exact absurd (roundDouble_pos (not_le.mp hx)) (not_lt.mpr h)
  · intro h
    have := roundDouble_monotone h
    rwa [roundDouble_zero] at this

/-- In binary64 the comparator `b.score - a.score` is non-positive exactly when `b.score` is
at most `a.score`. -/
theorem scoreDescWith_ieeeDouble (a b : Recommendation) :
    scoreDescWith ieeeDouble a b ↔ scoreDesc a b := by
  unfold scoreDescWith compareScores Rounding.sub ieeeDouble scoreDesc
  rw [roundDouble_nonpos_iff]
  exact sub_nonpos

theorem scoreDescWith_exactRounding (a b : Recommendation) :
    scoreDescWith exactRounding a b ↔ scoreDesc a b := by
  unfold scoreDescWith compareScores Rounding.sub exactRounding scoreDesc
  exact sub_nonpos

/-- Two comparators that agree give the same sort. -/
theorem insertionSort_congr {α : Type} (r1 r2 : α → α → Prop) [DecidableRel r1]
    [DecidableRel r2] (h : ∀ a b, r1 a b ↔ r2 a b) (l : List α) :
    l.insertionSort r1 = l.insertionSort r2 := by
  have hins : ∀ (x : α) (l : List α), l.orderedInsert r1 x = l.orderedInsert r2 x := by
    intro x l
    induction l with
    | nil => rfl
    | cons y l ih =>
      simp only [List.orderedInsert]
      by_cases hxy : r1 x y
      · rw [if_pos hxy, if_pos ((h x y).mp hxy)]
      · rw [if_neg hxy, if_neg (fun h2 => hxy ((h x y).mpr h2)), ih]
  induction l with
  | nil => rfl
  | cons x l ih => simp only [List.insertionSort, ih, hins]

theorem sortedByScoreWith_ieeeDouble (l : List Recommendation) :
    sortedByScoreWith ieeeDouble l = sortedByScore l :=
  insertionSort_congr _ _ scoreDescWith_ieeeDouble l

theorem sortedByScoreWith_exactRounding (l : List Recommendation) :
    sortedByScoreWith exactRounding l = sortedByScore l :=
  insertionSort_congr _ _ scoreDescWith_exactRounding l

theorem getRecommendationsWith_eq (r : Rounding) (db : FactProvider) (userId : Nat)
    (limit : Option Int) :
    getRecommendationsWith r db userId limit
      = slice0 (sortedByScoreWith r
          (userScoresBy (computeScoreWith r (seekingSkills (db.userSkills userId))
            (offeringSkills (db.userSkills userId)) (userCategories (db.userSkills userId)))
            (candidates db userId)).values) (limit.getD 5) := rfl

/-- In exact arithmetic the score is `computeScore`. -/
theorem computeScoreWith_exactRounding (s o c : List String) (m : Match) :
    computeScoreWith exactRounding s o c m = computeScore s o c m := by
  unfold computeScoreWith computeScore experienceWith Rounding.add Rounding.mul exactRounding
  rfl

theorem scoreStepBy_computeScore (s o c : List String) :
    scoreStepBy (computeScore s o c) = scoreStep s o c := rfl

/-- In exact arithmetic the method is `getRecommendations`. -/
theorem getRecommendationsWith_exactRounding (db : FactProvider) (userId : Nat)
    (limit : Option Int) :
    getRecommendationsWith exactRounding db userId limit = getRecommendations db userId limit := by
  rw [getRecommendationsWith_eq, getRecommendations_eq, sortedByScoreWith_exactRounding]
  have h : computeScoreWith exactRounding (seekingSkills (db.userSkills userId))
      (offeringSkills (db.userSkills userId)) (userCategories (db.userSkills userId))
      = computeScore (seekingSkills (db.userSkills userId))
      (offeringSkills (db.userSkills userId)) (userCategories (db.userSkills userId)) :=
    funext (computeScoreWith_exactRounding _ _ _)
  rw [h]
  rfl

/-- Whatever the score of a row is, entries of the sorted values that tie in score stand in
provider order when the provider rows do. -/
theorem sorted_ties_in_provider_order (score : Match → ℚ) (ms : List Match)
    (hsorted : ms.Pairwise providerOrder)
    (hsame : ∀ a ∈ ms, ∀ b ∈ ms, a.user_id = b.user_id →
      a.user_rating = b.user_rating ∧ a.total_trades = b.total_trades) :
    (sortedByScore (userScoresBy score ms).values).Pairwise
      (fun a b => a.score = b.score → providerOrder a.toMatch b.toMatch) := by
  have hvals := userScoresBy_values_providerOrder score ms hsorted hsame
  rw [List.pairwise_map] at hvals
  have hst := pairwise_insertionSort_of_pairwise scoreDesc _ _ hvals
  refine List.Pairwise.imp ?_ hst
  intro a b hab heq
  exact hab (le_of_eq heq)

/-- Whatever the score of a row is, entries of the sorted values that tie in score stand in
the order in which their users first occur. -/
theorem sorted_ties_in_first_occurrence_order (score : Match → ℚ) (ms : List Match) :
    (sortedByScore (userScoresBy score ms).values).Pairwise
      (fun a b => a.score = b.score →
        firstOccurrence ms a.user_id < firstOccurrence ms b.user_id) := by
  have hkeys := userScoresBy_keys_firstOccurrence score ms
  rw [← userScoresBy_values_user_id, List.pairwise_map] at hkeys
  have hst := pairwise_insertionSort_of_pairwise scoreDesc _ _ hkeys
  refine List.Pairwise.imp ?_ hst
  intro a b hab heq
  exact hab (le_of_eq heq)

/-- The experience part is monotone in the trade count when the rounding is. -/
theorem experienceWith_mono (r : Rounding) (hmono : Monotone r.rnd) (m : Match) (t1 t2 : Nat)
    (h : t1 ≤ t2) :
    experienceWith r { m with total_trades := t1 }
      ≤ experienceWith r { m with total_trades := t2 } := by
  unfold experienceWith Rounding.mul
  have hcast : (t1 : ℚ) ≤ (t2 : ℚ) := Nat.cast_le.mpr h
  have h1 := hmono hcast
  exact min_le_min (hmono (by linarith)) le_rfl

/-- From 20 trades on the experience part is 10, when the rounding is monotone and keeps 10
and 20. -/
theorem experienceWith_of_20_le (r : Rounding) (hmono : Monotone r.rnd) (h10 : r.rnd 10 = 10)
    (h20 : r.rnd 20 = 20) (m : Match) (t : Nat) (h : 20 ≤ t) :
    experienceWith r { m with total_trades := t } = 10 := by
  unfold experienceWith Rounding.mul
  have hcast : (20 : ℚ) ≤ (t : ℚ) := by exact_mod_cast h
  have h1 : (20 : ℚ) ≤ r.rnd (t : ℚ) := by
    have := hmono hcast
    rwa [h20] at this
  have h2 : (10 : ℚ) ≤ r.rnd (r.rnd (t : ℚ) * (1 / 2)) := by
    have := hmono (show (10 : ℚ) ≤ r.rnd (t : ℚ) * (1 / 2) by linarith)
    rwa [h10] at this
  exact min_eq_right h2

/-- The last three statements of the score (lines 92-96) are monotone in the experience
part when the rounding is. -/
theorem proficiency_steps_mono (r : Rounding) (hmono : Monotone r.rnd) (p1 p2 : Prop)
    [Decidable p1] [Decidable p2] (base a b : ℚ) (hab : a ≤ b) :
    (if p2 then r.add (if p1 then r.add (r.add base a) 2 else r.add base a) 1
      else (if p1 then r.add (r.add base a) 2 else r.add base a))
    ≤ (if p2 then r.add (if p1 then r.add (r.add base b) 2 else r.add base b) 1
      else (if p1 then r.add (r.add base b) 2 else r.add base b)) := by
  have h0 : r.add base a ≤ r.add base b := hmono (by linarith)
  have h1 : (if p1 then r.add (r.add base a) 2 else r.add base a)
      ≤ (if p1 then r.add (r.add base b) 2 else r.add base b) := by
    split_ifs
    · exact hmono (by linarith)
    · exact h0
  split_ifs at h1 ⊢
  · exact hmono (by linarith)
  · exact hmono (by linarith)
  · exact h1
  · exact h1

/-- The score reads the trade count only through the experience part, and is monotone in it. -/
theorem computeScoreWith_trades (r : Rounding) (s o c : List String) (m : Match) :
    ∃ f : ℚ → ℚ, (Monotone r.rnd → Monotone f) ∧
      ∀ t : Nat, computeScoreWith r s o c { m with total_trades := t }
        = f (experienceWith r { m with total_trades := t }) := by
  refine ⟨fun e =>
    let score : ℚ := 0
    let score : ℚ :=
      if m.skill_type = "offering" ∧ m.skill_name ∈ s then r.add score 10
      else if m.skill_type = "seeking" ∧ m.skill_name ∈ o then r.add score 8
      else if m.category ∈ c then r.add score 3
      else score
    let score : ℚ :=
      match m.user_rating with
      | some rating =>
        let user_rating : ℚ := r.rnd rating
        if user_rating ≠ 0 then r.add score (r.mul user_rating 2) else score
      | none => score
    let score : ℚ := r.add score e
    let score : ℚ := if m.proficiency_level = "expert" then r.add score 2 else score
    let score : ℚ := if m.proficiency_level = "intermediate" then r.add score 1 else score
    score, ?_, fun t => rfl⟩
  intro hmono a b hab
  exact proficiency_steps_mono r hmono _ _ _ a b hab

theorem computeScoreWith_mono_trades (r : Rounding) (hmono : Monotone r.rnd)
    (s o c : List String) (m : Match) (t1 t2 : Nat) (h : t1 ≤ t2) :
    computeScoreWith r s o c { m with total_trades := t1 }
      ≤ computeScoreWith r s o c { m with total_trades := t2 } := by
  obtain ⟨f, hf, hcs⟩ := computeScoreWith_trades r s o c m
  rw [hcs t1, hcs t2]
  exact hf hmono (experienceWith_mono r hmono m t1 t2 h)

theorem computeScoreWith_const_from_20 (r : Rounding) (hmono : Monotone r.rnd)
    (h10 : r.rnd 10 = 10) (h20 : r.rnd 20 = 20) (s o c : List String) (m : Match)
    (t1 t2 : Nat) (h1 : 20 ≤ t1) (h2 : 20 ≤ t2) :
    computeScoreWith r s o c { m with total_trades := t1 }
      = computeScoreWith r s o c { m with total_trades := t2 } := by
  obtain ⟨f, _, hcs⟩ := computeScoreWith_trades r s o c m
  rw [hcs t1, hcs t2, experienceWith_of_20_le r hmono h10 h20 m t1 h1,
    experienceWith_of_20_le r hmono h10 h20 m t2 h2]

theorem roundDouble_10 : roundDouble 10 = 10 := by decide!

theorem roundDouble_20 : roundDouble 20 = 20 := by decide!

/-- Under a collation that finds every string equal to itself, a listed string passes `IN`. -/
theorem sqlInBy_of_mem (coll : Collation) (hrefl : ∀ x, coll x x = true) (x : String)
    (xs : List String) (h : x ∈ xs) : sqlInBy coll x xs = true := by
  unfold sqlInBy
  rw [List.any_eq_true]
  exact ⟨x, h, hrefl x⟩

theorem sqlInBy_binaryCollation (x : String) (xs : List String) :
    sqlInBy binaryCollation x xs = sqlIn x xs := by
  unfold sqlInBy sqlIn binaryCollation
  induction xs with
  | nil => rfl
  | cons y ys ih =>
    rw [List.any_cons, ih]
    by_cases hxy : x = y <;> simp [hxy]

/-- Under the binary collation the qualifying condition is `qualifies`. -/
theorem qualifiesBy_binaryCollation (s o c : List String) (m : Match) :
    qualifiesBy binaryCollation s o c m = qualifies s o c m := by
  unfold qualifiesBy qualifies
  rw [sqlInBy_binaryCollation, sqlInBy_binaryCollation, sqlInBy_binaryCollation]
  rfl

/-- A row with a non-zero match bonus qualifies under every collation that finds every string
equal to itself. -/
theorem qualifiesBy_of_matchBonus (coll : Collation) (hrefl : ∀ x, coll x x = true)
    (s o c : List String) (m : Match) (h : matchBonus s o c m ≠ 0) :
    qualifiesBy coll s o c m = true := by
  rw [matchBonus_ne_zero_iff] at h
  unfold qualifiesBy
  rcases h with ⟨h1, h2⟩ | ⟨h1, h2⟩ | h3
  · rw [h1, hrefl, sqlInBy_of_mem coll hrefl _ _ h2]; rfl
  · rw [h1, hrefl, sqlInBy_of_mem coll hrefl _ _ h2]; simp
  · rw [sqlInBy_of_mem coll hrefl _ _ h3]; simp

theorem roundDouble_nonneg {x : ℚ} (hx : 0 ≤ x) : 0 ≤ roundDouble x := by
  have := roundDouble_monotone hx
  rwa [roundDouble_zero] at this

/-- Rounding two non-negative values widens their distance by at most `2 ^ (-52)` times the
larger rounded value. -/
theorem roundDouble_sub_le {x1 x2 : ℚ} (h0 : 0 ≤ x1) (h : x1 ≤ x2) :
    roundDouble x2 - roundDouble x1 ≤ (x2 - x1) + roundDouble x2 / 2 ^ 52 := by
  have hm := roundDouble_monotone h
  have e2 : roundDouble x2 - x2 ≤ roundDouble x2 / 2 ^ 53 := by
    rcases lt_or_eq_of_le (le_trans h0 h) with hpos | hz
    · exact (abs_le.mp (roundDouble_err hpos)).2
    · rw [← hz, roundDouble_zero]; norm_num
  have e1 : x1 - roundDouble x1 ≤ roundDouble x1 / 2 ^ 53 := by
    rcases lt_or_eq_of_le h0 with hpos | hz
    · have := (abs_le.mp (roundDouble_err hpos)).1
      linarith
    · rw [← hz, roundDouble_zero]; norm_num
  have e3 : roundDouble x1 / 2 ^ 53 ≤ roundDouble x2 / 2 ^ 53 :=
    div_le_div_of_nonneg_right hm (by positivity)
  have e4 : roundDouble x2 / 2 ^ 52 = 2 * (roundDouble x2 / 2 ^ 53) := by ring
  linarith

/-- One more rounded addition of a non-negative constant after a rounded sum: the distance of
the results exceeds the distance `d` of the exact sums by at most `2 ^ (-51)` times the larger
result. -/
theorem roundDouble_two_steps {x1 x2 p d : ℚ} (h0 : 0 ≤ x1) (h : x1 ≤ x2) (hp : 0 ≤ p)
    (hd : x2 - x1 ≤ d) :
    roundDouble (roundDouble x2 + p) - roundDouble (roundDouble x1 + p)
      ≤ d + roundDouble (roundDouble x2 + p) / 2 ^ 51 := by
  have hy1 := roundDouble_nonneg h0
  have hy := roundDouble_monotone h
  have s1 := roundDouble_sub_le h0 h
  have s2 := @roundDouble_sub_le (roundDouble x1 + p) (roundDouble x2 + p)
    (by linarith) (by linarith)
  have hle : roundDouble x2 ≤ roundDouble (roundDouble x2 + p) := by
    have := roundDouble_monotone (show roundDouble x2 ≤ roundDouble x2 + p by linarith)
    rwa [roundDouble_idem] at this
  have e1 : roundDouble x2 / 2 ^ 52 ≤ roundDouble (roundDouble x2 + p) / 2 ^ 52 :=
    div_le_div_of_nonneg_right hle (by positivity)
  have e2 : roundDouble (roundDouble x2 + p) / 2 ^ 51
      = 2 * (roundDouble (roundDouble x2 + p) / 2 ^ 52) := by ring
  linarith

theorem experienceWith_nonneg (m : Match) : 0 ≤ experienceWith ieeeDouble m := by
  unfold experienceWith Rounding.mul ieeeDouble
  refine le_min (roundDouble_nonneg ?_) (by norm_num)
  have : (0 : ℚ) ≤ roundDouble (m.total_trades : ℚ) := roundDouble_nonneg (Nat.cast_nonneg _)
  linarith

/-- The score in binary64 is built from the part `base` of lines 77-90, which does not read
the trade count and is non-negative when the rating is, by the rounded additions of lines
92-96. -/
theorem computeScoreWith_ieeeDouble_split (s o c : List String) (m : Match)
    (hrating : ∀ q, m.user_rating = some q → 0 ≤ q) :
    ∃ base : ℚ, 0 ≤ base ∧
      ∀ t : Nat, computeScoreWith ieeeDouble s o c { m with total_trades := t }
        = (if m.proficiency_level = "intermediate" then
            roundDouble ((if m.proficiency_level = "expert" then
              roundDouble (roundDouble (base + experienceWith ieeeDouble
                { m with total_trades := t }) + 2)
              else roundDouble (base + experienceWith ieeeDouble
                { m with total_trades := t })) + 1)
          else (if m.proficiency_level = "expert" then
              roundDouble (roundDouble (base + experienceWith ieeeDouble
                { m with total_trades := t }) + 2)
              else roundDouble (base + experienceWith ieeeDouble
                { m with total_trades := t }))) := by
  refine ⟨
    (let score : ℚ := 0
     let score : ℚ :=
      if m.skill_type = "offering" ∧ m.skill_name ∈ s then ieeeDouble.add score 10
      else if m.skill_type = "seeking" ∧ m.skill_name ∈ o then ieeeDouble.add score 8
      else if m.category ∈ c then ieeeDouble.add score 3
      else score
     let score : ℚ :=
      match m.user_rating with
      | some rating =>
        let user_rating : ℚ := ieeeDouble.rnd rating
        if user_rating ≠ 0 then ieeeDouble.add score (ieeeDouble.mul user_rating 2) else score
      | none => score
     score), ?_, fun t => rfl⟩
  have hmatch : (0 : ℚ) ≤
      (if m.skill_type = "offering" ∧ m.skill_name ∈ s then ieeeDouble.add 0 10
      else if m.skill_type = "seeking" ∧ m.skill_name ∈ o then ieeeDouble.add 0 8
      else if m.category ∈ c then ieeeDouble.add 0 3
      else 0) := by
    unfold Rounding.add ieeeDouble
    split_ifs
    · exact roundDouble_nonneg (by norm_num)
    · exact roundDouble_nonneg (by norm_num)
    · exact roundDouble_nonneg (by norm_num)
    · exact le_rfl
  cases hr : m.user_rating with
  | none => exact hmatch
  | some q =>
    have hq : (0 : ℚ) ≤ roundDouble q := roundDouble_nonneg (hrating q hr)
    have hq2 : (0 : ℚ) ≤ roundDouble (roundDouble q * 2) := roundDouble_nonneg (by linarith)
    show (0 : ℚ) ≤ if roundDouble q ≠ 0 then roundDouble (_ + roundDouble (roundDouble q * 2))
      else _
    by_cases hz : roundDouble q ≠ 0
    · rw [if_pos hz]
      exact roundDouble_nonneg (add_nonneg hmatch hq2)
    · rw [if_neg hz]
      exact hmatch

/-- In binary64, for a row whose rating is absent or non-negative, the score at the larger
trade count exceeds the score at the smaller one by at most 10 and a rounding error of
`2 ^ (-51)` times the larger score. -/
theorem computeScoreWith_ieeeDouble_sub_le (s o c : List String) (m : Match) (t1 t2 : Nat)
    (h : t1 ≤ t2) (hrating : ∀ q, m.user_rating = some q → 0 ≤ q) :
    computeScoreWith ieeeDouble s o c { m with total_trades := t2 }
        - computeScoreWith ieeeDouble s o c { m with total_trades := t1 }
      ≤ 10 + computeScoreWith ieeeDouble s o c { m with total_trades := t2 } / 2 ^ 51 := by
  obtain ⟨base, hbase, hcs⟩ := computeScoreWith_ieeeDouble_split s o c m hrating
  rw [hcs t1, hcs t2]
  have he1 := experienceWith_nonneg { m with total_trades := t1 }
  have he2 : experienceWith ieeeDouble { m with total_trades := t2 } ≤ 10 := min_le_right _ _
  have hmono := experienceWith_mono ieeeDouble roundDouble_monotone m t1 t2 h
  generalize experienceWith ieeeDouble { m with total_trades := t1 } = a1 at he1 hmono ⊢
  generalize experienceWith ieeeDouble { m with total_trades := t2 } = a2 at he2 hmono ⊢
  have h0 : 0 ≤ base + a1 := by linarith
  have hle : base + a1 ≤ base + a2 := by linarith
  have hd : (base + a2) - (base + a1) ≤ 10 := by linarith
  have hplain : roundDouble (base + a2) - roundDouble (base + a1)
      ≤ 10 + roundDouble (base + a2) / 2 ^ 51 := by
    have := roundDouble_sub_le h0 hle
    have hnn : 0 ≤ roundDouble (base + a2) := roundDouble_nonneg (le_trans h0 hle)
    have e : roundDouble (base + a2) / 2 ^ 51 = 2 * (roundDouble (base + a2) / 2 ^ 52) := by
      ring
    have : 0 ≤ roundDouble (base + a2) / 2 ^ 52 := div_nonneg hnn (by positivity)
    linarith
  by_cases hi : m.proficiency_level = "intermediate"
  · have hx : ¬ m.proficiency_level = "expert" := by rw [hi]; decide
    rw [if_pos hi, if_pos hi, if_neg hx, if_neg hx]
    exact roundDouble_two_steps h0 hle (by norm_num) hd
  · rw [if_neg hi, if_neg hi]
    by_cases hx : m.proficiency_level = "expert"
    · rw [if_pos hx, if_pos hx]
      exact roundDouble_two_steps h0 hle (by norm_num) hd
    · rw [if_neg hx, if_neg hx]
      exact hplain

/-- For a row without rating, trades and proficiency level the score in binary64 is the match
bonus. -/
theorem computeScoreWith_ieeeDouble_bare (s o c : List String) (m : Match) :
    computeScoreWith ieeeDouble s o c
        { m with user_rating := none, total_trades := 0, proficiency_level := "" }
      = matchBonus s o c m := by
  have h10 : roundDouble (roundDouble (0 + 10)
      + min (roundDouble (roundDouble ((0 : ℕ) : ℚ) * (1 / 2))) 10) = 10 := by decide!
  have h8 : roundDouble (roundDouble (0 + 8)
      + min (roundDouble (roundDouble ((0 : ℕ) : ℚ) * (1 / 2))) 10) = 8 := by decide!
  have h3 : roundDouble (roundDouble (0 + 3)
      + min (roundDouble (roundDouble ((0 : ℕ) : ℚ) * (1 / 2))) 10) = 3 := by decide!
  have h0 : roundDouble (0
      + min (roundDouble (roundDouble ((0 : ℕ) : ℚ) * (1 / 2))) 10) = 0 := by decide!
  have hx : ¬ ("" : String) = "expert" := by decide
  have hi : ¬ ("" : String) = "intermediate" := by decide
  unfold computeScoreWith matchBonus experienceWith Rounding.add Rounding.mul ieeeDouble
  simp only []
  rw [if_neg hx, if_neg hi]
  split_ifs
  · exact h10
  · exact h8
  · exact h3
  · exact h0

/-- Sample values of the rounding: `0.1 + 0.2` is `0.30000000000000004`, not `0.3`; a value
half-way between two neighbours goes to the one with the even significand; small integers and
powers of two are kept. -/
theorem roundDouble_samples :
    roundDouble (roundDouble 0.1 + roundDouble 0.2) = roundDouble 0.30000000000000004 ∧
    roundDouble 0.3 < roundDouble 0.30000000000000004 ∧
    roundDouble (1 + 1 / 2 ^ 53) = 1 ∧
    roundDouble (1 + 3 / 2 ^ 53) = 1 + 2 / 2 ^ 52 ∧
    roundDouble (1 / 2) = 1 / 2 ∧ roundDouble 3 = 3 ∧ roundDouble (-3) = -3 := by
  decide!

/-! ## The claims -/

/-- C1: the score `getRecommendations` gives a candidate row is the sum of the match-type bonus
(10, else 8, else 3, else 0: one case only), twice the rating (0 when absent), the experience
bonus `min (0.5 * total_trades) 10` and the proficiency bonus (2, 1 or 0); this holds for the
score computation on every row and for the score field of every returned entry. -/
theorem score_is_sum_of_bonuses (db : FactProvider) (userId : Nat) (limit : Option Int) :
    (∀ (s o c : List String) (m : Match),
      computeScore s o c m
          = matchBonus s o c m + ratingBonus m + experienceBonus m + proficiencyBonus m ∧
        (matchBonus s o c m = 10 ∨ matchBonus s o c m = 8 ∨ matchBonus s o c m = 3 ∨
          matchBonus s o c m = 0)) ∧
    ∀ e ∈ getRecommendations db userId limit,
      e.score = matchBonus (seekingSkills (db.userSkills userId))
          (offeringSkills (db.userSkills userId)) (userCategories (db.userSkills userId))
          e.toMatch
        + ratingBonus e.toMatch + experienceBonus e.toMatch + proficiencyBonus e.toMatch := by
  refine ⟨fun s o c m => ⟨computeScore_eq_specScore s o c m, ?_⟩, ?_⟩
  · unfold matchBonus
    split_ifs <;> simp
  · intro e he
    rw [getRecommendations_eq] at he
    have h := mem_rankedCandidates ((slice0_sublist _ _).subset he)
    rw [h.2, computeScore_eq_specScore]
    rfl

/-- C2: in the scenario (caller seeks React Development; A offers it as an expert with rating
4.8 and 23 trades; B has another Programming skill, intermediate, rating 4.0, 5 trades) A gets
the score 31.6, B gets 14.5, and A is returned before B, whichever order the provider uses. -/
theorem react_scenario_scores :
    getRecommendations (scenarioDb [candidateA, candidateB]) 1 none
        = [{ toMatch := candidateA, score := 31.6 }, { toMatch := candidateB, score := 14.5 }] ∧
    getRecommendations (scenarioDb [candidateB, candidateA]) 1 none
        = [{ toMatch := candidateA, score := 31.6 }, { toMatch := candidateB, score := 14.5 }] := by
  constructor <;> decide!

/-- C3: the result of `getRecommendations` holds each `user_id` at most once, and each entry
is a row of the provider sequence (so its `user_id` is that of a provider declaration). -/
theorem result_users_distinct (db : FactProvider) (userId : Nat) (limit : Option Int) :
    ((getRecommendations db userId limit).map (fun e => e.user_id)).Nodup ∧
    ∀ e ∈ getRecommendations db userId limit,
      ∃ m ∈ candidates db userId, m.user_id = e.user_id := by
  rw [getRecommendations_eq]
  constructor
  · exact ((slice0_sublist _ _).map _).nodup (rankedCandidates_nodup db userId)
  · intro e he
    exact ⟨e.toMatch, (mem_rankedCandidates ((slice0_sublist _ _).subset he)).1, rfl⟩

/-- C4: for a user with at least one declaration in the provider sequence, the entry kept in
`userScores` (before sorting) is the first declaration of that user whose score is the maximum
over the user's declarations: earlier declarations of the user score strictly less, later ones
score at most as much, and the score field is that single-declaration score. -/
theorem kept_entry_is_first_maximum (s o c : List String) (ms : List Match) (u : Nat)
    (hu : ∃ m ∈ ms, m.user_id = u) :
    ∃ pre m post, ms = pre ++ m :: post ∧ m.user_id = u ∧
      (userScores s o c ms).get u = some { toMatch := m, score := computeScore s o c m } ∧
      (∀ x ∈ pre, x.user_id = u → computeScore s o c x < computeScore s o c m) ∧
      (∀ x ∈ post, x.user_id = u → computeScore s o c x ≤ computeScore s o c m) :=
  userScores_get_first_max s o c ms u hu

/-- Witness for C4: user 2 has three declarations among `repeatedRows`. -/
theorem kept_entry_is_first_maximum_witness :
    (∃ m ∈ repeatedRows, m.user_id = 2) ∧
    ∃ pre m post, repeatedRows = pre ++ m :: post ∧ m.user_id = 2 ∧
      (userScores ["React Development"] [] ["Programming"] repeatedRows).get 2
        = some { toMatch := m,
                 score := computeScore ["React Development"] [] ["Programming"] m } ∧
      (∀ x ∈ pre, x.user_id = 2 → computeScore ["React Development"] [] ["Programming"] x
          < computeScore ["React Development"] [] ["Programming"] m) ∧
      (∀ x ∈ post, x.user_id = 2 → computeScore ["React Development"] [] ["Programming"] x
          ≤ computeScore ["React Development"] [] ["Programming"] m) :=
  ⟨⟨candidateA, by decide!, rfl⟩,
    kept_entry_is_first_maximum ["React Development"] [] ["Programming"] repeatedRows 2
      ⟨candidateA, by decide!, rfl⟩⟩

/-- C5: the result of `getRecommendations` is ordered by score descending: whenever an entry
stands before another one in the result, its score is at least the other's score. -/
theorem result_sorted_by_score (db : FactProvider) (userId : Nat) (limit : Option Int) :
    (getRecommendations db userId limit).Pairwise (fun a b => b.score ≤ a.score) := by
  rw [getRecommendations_eq]
  exact (rankedCandidates_sorted db userId).sublist (slice0_sublist _ _)

/-- C6: when the provider sequence is ordered by rating descending (absent lowest), then by
trade count descending, and all declarations of one user carry the same rating and trade count,
two result entries of equal score stand in provider order: the earlier one has the higher
rating, or the same rating and a trade count at least as high. The scores are the binary64
numbers the method computes, and two entries have equal score when these numbers are equal. -/
theorem equal_scores_keep_provider_order (db : FactProvider) (userId : Nat)
    (limit : Option Int)
    (hsorted : (candidates db userId).Pairwise providerOrder)
    (hsame : ∀ a ∈ candidates db userId, ∀ b ∈ candidates db userId, a.user_id = b.user_id →
      a.user_rating = b.user_rating ∧ a.total_trades = b.total_trades) :
    (getRecommendationsWith ieeeDouble db userId limit).Pairwise
      (fun a b => a.score = b.score → providerOrder a.toMatch b.toMatch) := by
  rw [getRecommendationsWith_eq, sortedByScoreWith_ieeeDouble]
  exact (sorted_ties_in_provider_order _ _ hsorted hsame).sublist (slice0_sublist _ _)

/-- Witness for C6: `tiedRows` is in provider order, users 2 and 4 tie at the binary64 number
nearest to 31.6 and are returned in provider order. `roundedRows` is in provider order too;
its users 5 and 6 both score 13.3334 in exact arithmetic, but in binary64 user 6 scores
13.333400000000001 and user 5 scores 13.3334: they do not tie, and user 6 is returned first. -/
theorem equal_scores_keep_provider_order_witness :
    ((candidates (scenarioDb tiedRows) 1).Pairwise providerOrder ∧
      (∀ a ∈ candidates (scenarioDb tiedRows) 1, ∀ b ∈ candidates (scenarioDb tiedRows) 1,
        a.user_id = b.user_id →
          a.user_rating = b.user_rating ∧ a.total_trades = b.total_trades) ∧
      (getRecommendationsWith ieeeDouble (scenarioDb tiedRows) 1 none).Pairwise
        (fun a b => a.score = b.score → providerOrder a.toMatch b.toMatch) ∧
      (getRecommendationsWith ieeeDouble (scenarioDb tiedRows) 1 none).map
          (fun e => (e.user_id, e.score))
        = [(2, roundDouble 31.6), (4, roundDouble 31.6), (3, 14.5)]) ∧
    ((candidates (scenarioDb roundedRows) 1).Pairwise providerOrder ∧
      (∀ a ∈ candidates (scenarioDb roundedRows) 1,
        ∀ b ∈ candidates (scenarioDb roundedRows) 1, a.user_id = b.user_id →
          a.user_rating = b.user_rating ∧ a.total_trades = b.total_trades) ∧
      (getRecommendationsWith ieeeDouble (scenarioDb roundedRows) 1 none).Pairwise
        (fun a b => a.score = b.score → providerOrder a.toMatch b.toMatch) ∧
      (getRecommendationsWith ieeeDouble (scenarioDb roundedRows) 1 none).map
          (fun e => (e.user_id, e.score))
        = [(6, roundDouble 13.333400000000001), (5, roundDouble 13.3334)] ∧
      roundDouble 13.3334 < roundDouble 13.333400000000001 ∧
      (getRecommendationsWith exactRounding (scenarioDb roundedRows) 1 none).map
          (fun e => (e.user_id, e.score))
        = [(5, 13.3334), (6, 13.3334)]) :=
  ⟨⟨by decide!, by decide!,
      equal_scores_keep_provider_order (scenarioDb tiedRows) 1 none (by decide!) (by decide!),
      by rw [getRecommendationsWith_eq, sortedByScoreWith_ieeeDouble]; decide!⟩,
    ⟨by decide!, by decide!,
      equal_scores_keep_provider_order (scenarioDb roundedRows) 1 none (by decide!)
        (by decide!),
      by rw [getRecommendationsWith_eq, sortedByScoreWith_ieeeDouble]; decide!,
      by decide!,
      by rw [getRecommendationsWith_eq, sortedByScoreWith_exactRounding]; decide!⟩⟩

/-- C7: for a positive limit and a provider sequence with `n` distinct `user_id`s,
`getRecommendations` returns the first `min limit n` entries of the deduplicated, score-sorted
candidate list, which has `n` entries; so the result has at most `limit` and at most `n`
entries, and at most 5 when the limit is omitted. -/
theorem result_is_first_limit_entries (db : FactProvider) (userId : Nat) (limit : Int)
    (hpos : 0 < limit) :
    getRecommendations db userId (some limit)
        = (rankedCandidates db userId).take
            (min limit.toNat (distinctUsers (candidates db userId))) ∧
    (rankedCandidates db userId).length = distinctUsers (candidates db userId) ∧
    (getRecommendations db userId (some limit)).length
        = min limit.toNat (distinctUsers (candidates db userId)) ∧
    ((getRecommendations db userId (some limit)).length : Int) ≤ limit ∧
    (getRecommendations db userId (some limit)).length ≤ distinctUsers (candidates db userId) ∧
    (getRecommendations db userId none).length ≤ 5 ∧
    (getRecommendations db userId none).length ≤ distinctUsers (candidates db userId) := by
  have hlen := rankedCandidates_length db userId
  have h1 : getRecommendations db userId (some limit)
      = (rankedCandidates db userId).take
          (min limit.toNat (distinctUsers (candidates db userId))) := by
    rw [getRecommendations_eq, ← hlen]
    exact slice0_of_nonneg _ (le_of_lt hpos)
  have h2 : getRecommendations db userId none
      = (rankedCandidates db userId).take
          (min 5 (distinctUsers (candidates db userId))) := by
    rw [getRecommendations_eq, ← hlen]
    exact slice0_of_nonneg _ (by decide)
  refine ⟨h1, hlen, ?_, ?_, ?_, ?_, ?_⟩
  · rw [h1, List.length_take, hlen]; omega
  · rw [h1, List.length_take, hlen]; omega
  · rw [h1, List.length_take, hlen]; omega
  · rw [h2, List.length_take, hlen]; omega
  · rw [h2, List.length_take, hlen]; omega

/-- Witness for C7: limit 2 over the three users of `tiedRows`. -/
theorem result_is_first_limit_entries_witness :
    (0 : Int) < 2 ∧
    getRecommendations (scenarioDb tiedRows) 1 (some 2)
        = (rankedCandidates (scenarioDb tiedRows) 1).take
            (min (2 : Int).toNat (distinctUsers (candidates (scenarioDb tiedRows) 1))) ∧
    (getRecommendations (scenarioDb tiedRows) 1 (some 2)).length = 2 :=
  ⟨by decide, (result_is_first_limit_entries (scenarioDb tiedRows) 1 2 (by decide)).1, by decide!⟩

/-- C8 (as stated, refuted): a limit of zero or below is not clamped to 1. With three
qualifying candidates, limit 1 returns one entry, limit 0 returns none, and limit -1 returns
two entries. -/
theorem nonpositive_limit_is_not_clamped :
    candidates (scenarioDb tiedRows) 1 ≠ [] ∧
    (getRecommendations (scenarioDb tiedRows) 1 (some 1)).map (fun e => e.user_id) = [2] ∧
    getRecommendations (scenarioDb tiedRows) 1 (some 0) = [] ∧
    (getRecommendations (scenarioDb tiedRows) 1 (some (-1))).map (fun e => e.user_id)
      = [2, 4] := by
  refine ⟨?_, ?_, ?_, ?_⟩ <;> decide!

/-- C8 (amended): for a limit of zero `getRecommendations` returns the empty sequence, and for
a negative limit `-k` it returns the ranked candidate list without its last `k` entries (the
empty sequence when `k` is at least the number of ranked candidates). -/
theorem nonpositive_limit_slices_from_end (db : FactProvider) (userId : Nat) (limit : Int)
    (hlimit : limit ≤ 0) :
    (limit = 0 → getRecommendations db userId (some limit) = []) ∧
    (limit < 0 → getRecommendations db userId (some limit)
        = (rankedCandidates db userId).take
            (distinctUsers (candidates db userId) - limit.natAbs)) ∧
    (getRecommendations db userId (some limit)).length
        = distinctUsers (candidates db userId) - (if limit = 0
            then distinctUsers (candidates db userId) else limit.natAbs) := by
  have hlen := rankedCandidates_length db userId
  rw [getRecommendations_eq, Option.getD_some]
  by_cases h0 : limit = 0
  · subst h0
    simp [slice0_zero]
  · have hneg : limit < 0 := lt_of_le_of_ne hlimit h0
    rw [slice0_of_neg _ hneg, hlen]
    refine ⟨fun h => absurd h h0, fun _ => rfl, ?_⟩
    rw [List.length_take, hlen, if_neg h0]
    omega

/-- Witness for C8 (amended): limit -1 over the three users of `tiedRows`. -/
theorem nonpositive_limit_slices_from_end_witness :
    (-1 : Int) ≤ 0 ∧
    getRecommendations (scenarioDb tiedRows) 1 (some (-1))
      = (rankedCandidates (scenarioDb tiedRows) 1).take
          (distinctUsers (candidates (scenarioDb tiedRows) 1) - (-1 : Int).natAbs) ∧
    (getRecommendations (scenarioDb tiedRows) 1 (some (-1))).length = 2 :=
  ⟨by decide,
    (nonpositive_limit_slices_from_end (scenarioDb tiedRows) 1 (-1) (by decide)).2.1 (by decide),
    by decide!⟩

/-- C9 (as stated, refuted): the 20-row prefetch can remove the best-scoring candidate. In a
population where 21 declarations qualify, candidate A qualifies with score 31.6, yet the only
entry returned for limit 1 is a category-only match with score 13, and A is absent from the
result even for limit 21. -/
theorem prefetch_can_drop_best_candidate :
    stored candidateA ∈ crowdedPopulation ∧
    whereClause 1 (seekingSkills (userSkillsQuery crowdedPopulation 1))
      (offeringSkills (userSkillsQuery crowdedPopulation 1))
      (userCategories (userSkillsQuery crowdedPopulation 1)) (stored candidateA) = true ∧
    computeScore (seekingSkills (userSkillsQuery crowdedPopulation 1))
      (offeringSkills (userSkillsQuery crowdedPopulation 1))
      (userCategories (userSkillsQuery crowdedPopulation 1)) candidateA = 31.6 ∧
    (getRecommendations (sqlProvider crowdedPopulation) 1 (some 1)).map
      (fun e => (e.user_id, e.score)) = [(100, 13)] ∧
    candidateA.user_id ∉
      (getRecommendations (sqlProvider crowdedPopulation) 1 (some 21)).map
        (fun e => e.user_id) := by
  refine ⟨?_, ?_, ?_, ?_, ?_⟩ <;> decide!

/-- C9 (amended): for every stored population and every limit of at least 1, the first entry
returned by `getRecommendations` scores at least as much as every row of the 20-row prefetch;
and when at most 20 distinct declarations qualify, it scores at least as much as every active
declaration of another active user that satisfies the qualifying condition. -/
theorem first_entry_is_best_of_prefetch (population : List StoredDeclaration) (userId : Nat)
    (limit : Int) (hlimit : 1 ≤ limit) :
    (∀ m ∈ candidates (sqlProvider population) userId,
      ∃ e, (getRecommendations (sqlProvider population) userId (some limit)).head? = some e ∧
        computeScore (seekingSkills (userSkillsQuery population userId))
          (offeringSkills (userSkillsQuery population userId))
          (userCategories (userSkillsQuery population userId)) m ≤ e.score) ∧
    ((qualifyingRows population userId (seekingSkills (userSkillsQuery population userId))
        (offeringSkills (userSkillsQuery population userId))
        (userCategories (userSkillsQuery population userId))).length ≤ 20 →
      ∀ d ∈ population,
        whereClause userId (seekingSkills (userSkillsQuery population userId))
          (offeringSkills (userSkillsQuery population userId))
          (userCategories (userSkillsQuery population userId)) d = true →
        ∃ e, (getRecommendations (sqlProvider population) userId (some limit)).head? = some e ∧
          computeScore (seekingSkills (userSkillsQuery population userId))
            (offeringSkills (userSkillsQuery population userId))
            (userCategories (userSkillsQuery population userId)) d.row ≤ e.score) := by
  constructor
  · intro m hm
    exact head_scores_at_least (sqlProvider population) userId limit hlimit m hm
  · intro hfew d hd hq
    exact head_scores_at_least (sqlProvider population) userId limit hlimit d.row
      (mem_candidates_sqlProvider_of_le population userId hfew d hd hq)

/-- Witness for C9 (amended): limit 1 over `smallPopulation`, where two rows qualify. -/
theorem first_entry_is_best_of_prefetch_witness :
    (1 : Int) ≤ 1 ∧
    ∃ e, (getRecommendations (sqlProvider smallPopulation) 1 (some 1)).head? = some e ∧
      computeScore (seekingSkills (userSkillsQuery smallPopulation 1))
        (offeringSkills (userSkillsQuery smallPopulation 1))
        (userCategories (userSkillsQuery smallPopulation 1)) (stored candidateB).row
        ≤ e.score :=
  ⟨by decide,
    (first_entry_is_best_of_prefetch smallPopulation 1 1 (by decide)).2 (by decide!)
      (stored candidateB) (by decide!) (by decide!)⟩

/-- C10: when the caller has no active declaration, the offering names, seeking names and
categories are all empty (each `IN` list is spliced as `NULL`), no row satisfies the qualifying
condition, the candidate query returns no row and `getRecommendations` returns the empty
sequence, whatever the other users' declarations are. -/
theorem no_declarations_gives_empty_result (population : List StoredDeclaration)
    (userId : Nat) (limit : Option Int)
    (hnone : ∀ d ∈ population, d.row.user_id = userId → d.us_is_active = false) :
    offeringSkills ((sqlProvider population).userSkills userId) = [] ∧
    seekingSkills ((sqlProvider population).userSkills userId) = [] ∧
    userCategories ((sqlProvider population).userSkills userId) = [] ∧
    inPlaceholders (seekingSkills ((sqlProvider population).userSkills userId)) = "NULL" ∧
    inPlaceholders (offeringSkills ((sqlProvider population).userSkills userId)) = "NULL" ∧
    inPlaceholders (userCategories ((sqlProvider population).userSkills userId)) = "NULL" ∧
    (∀ m : Match,
      qualifies (seekingSkills ((sqlProvider population).userSkills userId))
        (offeringSkills ((sqlProvider population).userSkills userId))
        (userCategories ((sqlProvider population).userSkills userId)) m = false) ∧
    candidates (sqlProvider population) userId = [] ∧
    getRecommendations (sqlProvider population) userId limit = [] := by
  have hus : (sqlProvider population).userSkills userId = [] :=
    userSkillsQuery_eq_nil population userId hnone
  have hc : candidates (sqlProvider population) userId = [] := by
    rw [candidates_sqlProvider, userSkillsQuery_eq_nil population userId hnone]
    have hq : qualifyingRows population userId (seekingSkills []) (offeringSkills [])
        (userCategories []) = [] := by
      unfold qualifyingRows
      have hf : population.filter (whereClause userId (seekingSkills []) (offeringSkills [])
          (userCategories [])) = [] := by
        rw [List.filter_eq_nil_iff]
        intro d _
        have : qualifies (seekingSkills []) (offeringSkills []) (userCategories []) d.row
            = false := qualifies_nil d.row
        simp [whereClause, this]
      rw [hf]
      rfl
    rw [hq]
    rfl
  have hr : getRecommendations (sqlProvider population) userId limit = [] := by
    have hrank : rankedCandidates (sqlProvider population) userId = [] := by
      unfold rankedCandidates
      rw [hc]
      rfl
    rw [getRecommendations_eq, hrank]
    exact List.eq_nil_of_sublist_nil (slice0_sublist _ _)
  rw [hus]
  refine ⟨rfl, rfl, rfl, by decide, by decide, by decide, qualifies_nil, hc, hr⟩

/-- Witness for C10: the caller of `idlePopulation` has no active declaration. -/
theorem no_declarations_gives_empty_result_witness :
    (∀ d ∈ idlePopulation, d.row.user_id = 1 → d.us_is_active = false) ∧
    candidates (sqlProvider idlePopulation) 1 = [] ∧
    getRecommendations (sqlProvider idlePopulation) 1 none = [] :=
  ⟨by decide!,
    (no_declarations_gives_empty_result idlePopulation 1 none (by decide!)).2.2.2.2.2.2.2.1,
    (no_declarations_gives_empty_result idlePopulation 1 none (by decide!)).2.2.2.2.2.2.2.2⟩

/-- C11: over every stored population and for every `userId` and limit, no entry returned by
`getRecommendations` has `user_id` equal to `userId` (the candidate query's
`WHERE us.user_id != ?`); the same holds for the list the method returns. -/
theorem caller_is_never_recommended (population : List StoredDeclaration) (userId : Nat)
    (limit : Option Int) :
    (∀ e ∈ getRecommendations (sqlProvider population) userId limit, e.user_id ≠ userId) ∧
    ∀ (r : SkillRecommender) (t : TrendTables) (now : Int) (recs : List Recommendation),
      (r.getRecommendations (sqlDatabase population t now) userId limit).result = .ok recs →
      ∀ e ∈ recs, e.user_id ≠ userId := by
  have hpure : ∀ e ∈ getRecommendations (sqlProvider population) userId limit,
      e.user_id ≠ userId := by
    intro e he
    rw [getRecommendations_eq] at he
    obtain ⟨d, _, hrow, hw⟩ :=
      mem_candidates_sqlProvider (mem_rankedCandidates ((slice0_sublist _ _).subset he)).1
    have hne : d.row.user_id ≠ userId := by
      simp only [whereClause, Bool.and_eq_true, decide_eq_true_eq] at hw
      exact hw.1.1.1
    rw [hrow] at hne
    exact hne
  refine ⟨hpure, ?_⟩
  intro r t now recs hrecs e he
  rw [getRecommendations_sqlDatabase] at hrecs
  injection hrecs with hrecs
  rw [← hrecs] at he
  exact hpure e he

/-- C12 (as stated, refuted): the difference of the scores at two trade counts can exceed 10.
For a category match rated 1.8, beginner, the method computes the binary64 numbers 6.6 at 0
trades and 16.6 at 20 trades; their difference is larger than 10, and the subtraction
`16.6 - 6.6` of JavaScript gives 10.000000000000002. -/
theorem score_difference_exceeds_10 :
    computeScoreWith ieeeDouble ["React Development"] [] ["Programming"] (candidateZ 0)
      = roundDouble 6.6 ∧
    computeScoreWith ieeeDouble ["React Development"] [] ["Programming"] (candidateZ 20)
      = roundDouble 16.6 ∧
    ¬ (computeScoreWith ieeeDouble ["React Development"] [] ["Programming"] (candidateZ 20)
        - computeScoreWith ieeeDouble ["React Development"] [] ["Programming"] (candidateZ 0)
          ≤ 10) ∧
    ieeeDouble.sub
        (computeScoreWith ieeeDouble ["React Development"] [] ["Programming"] (candidateZ 20))
        (computeScoreWith ieeeDouble ["React Development"] [] ["Programming"] (candidateZ 0))
      = roundDouble 10.000000000000002 ∧
    (10 : ℚ) < roundDouble 10.000000000000002 := by decide!

/-- C12 (amended): with every other field of the candidate row and the caller's lists fixed,
the score the method computes in binary64 is monotone in `total_trades`: for `t1 ≤ t2` the
score at `t1` is at most the score at `t2`; the experience part never exceeds 10; from 20
trades on the score no longer changes; for a row whose rating is absent or non-negative the
difference of the two scores is at most 10 and a rounding error of `2 ^ (-51)` times the
larger score; and the difference is at most 10 when the sums are taken exactly. -/
theorem score_monotone_in_trades (s o c : List String) (m : Match) (t1 t2 : Nat)
    (h : t1 ≤ t2) :
    computeScoreWith ieeeDouble s o c { m with total_trades := t1 }
        ≤ computeScoreWith ieeeDouble s o c { m with total_trades := t2 } ∧
    experienceWith ieeeDouble { m with total_trades := t2 } ≤ 10 ∧
    (20 ≤ t1 → computeScoreWith ieeeDouble s o c { m with total_trades := t1 }
        = computeScoreWith ieeeDouble s o c { m with total_trades := t2 }) ∧
    ((∀ q, m.user_rating = some q → 0 ≤ q) →
      computeScoreWith ieeeDouble s o c { m with total_trades := t2 }
          - computeScoreWith ieeeDouble s o c { m with total_trades := t1 }
        ≤ 10 + computeScoreWith ieeeDouble s o c { m with total_trades := t2 } / 2 ^ 51) ∧
    computeScoreWith exactRounding s o c { m with total_trades := t2 }
        - computeScoreWith exactRounding s o c { m with total_trades := t1 } ≤ 10 := by
  refine ⟨computeScoreWith_mono_trades ieeeDouble roundDouble_monotone s o c m t1 t2 h,
    min_le_right _ _, ?_, computeScoreWith_ieeeDouble_sub_le s o c m t1 t2 h, ?_⟩
  · intro h20
    exact computeScoreWith_const_from_20 ieeeDouble roundDouble_monotone roundDouble_10
      roundDouble_20 s o c m t1 t2 h20 (le_trans h20 h)
  · rw [computeScoreWith_exactRounding, computeScoreWith_exactRounding,
      computeScore_with_trades, computeScore_with_trades]
    have hcast : (t1 : ℚ) ≤ (t2 : ℚ) := Nat.cast_le.mpr h
    have h1nn : (0 : ℚ) ≤ (t1 : ℚ) := Nat.cast_nonneg t1
    have hcap : min ((1 / 2) * (t2 : ℚ)) 10 ≤ 10 := min_le_right _ _
    have hlow : (0 : ℚ) ≤ min ((1 / 2) * (t1 : ℚ)) 10 := le_min (by linarith) (by norm_num)
    linarith

/-- Witness for C12: the category match rated 1.8 with 0 and with 20 trades. Its score grows
from 6.6 to 16.6, by more than 10 and by less than 10 + 16.6 / 2 ^ 51. -/
theorem score_monotone_in_trades_witness :
    (0 : Nat) ≤ 20 ∧
    computeScoreWith ieeeDouble ["React Development"] [] ["Programming"] (candidateZ 0)
      ≤ computeScoreWith ieeeDouble ["React Development"] [] ["Programming"] (candidateZ 20) ∧
    computeScoreWith ieeeDouble ["React Development"] [] ["Programming"] (candidateZ 20)
        - computeScoreWith ieeeDouble ["React Development"] [] ["Programming"] (candidateZ 0)
      ≤ 10 + computeScoreWith ieeeDouble ["React Development"] [] ["Programming"]
          (candidateZ 20) / 2 ^ 51 :=
  ⟨by decide,
    (score_monotone_in_trades ["React Development"] [] ["Programming"] (candidateZ 0) 0 20
      (by decide)).1,
    (score_monotone_in_trades ["React Development"] [] ["Programming"] (candidateZ 0) 0 20
      (by decide)).2.2.2.1 (by intro q hq; cases hq; decide!)⟩

/-- C13: the score depends only on the row's `skill_type`, `skill_name`, `category`,
`user_rating`, `total_trades` and `proficiency_level` and on the caller's three lists: rows
that agree on these six fields get equal scores; and two runs of the method whose two queries
return the same rows give the same outcome, whatever the two fields of the recommender hold. -/
theorem score_and_result_are_deterministic (s o c : List String) (m1 m2 : Match)
    (r1 r2 : SkillRecommender) (db1 db2 : Database) (userId : Nat) (limit : Option Int)
    (htype : m1.skill_type = m2.skill_type) (hname : m1.skill_name = m2.skill_name)
    (hcat : m1.category = m2.category) (hrating : m1.user_rating = m2.user_rating)
    (htrades : m1.total_trades = m2.total_trades)
    (hlevel : m1.proficiency_level = m2.proficiency_level)
    (hskills : db1.userSkills userId = db2.userSkills userId)
    (hrows : ∀ us, db2.userSkills userId = .ok us →
      db1.potentialMatches userId (seekingSkills us) (offeringSkills us) (userCategories us)
        = db2.potentialMatches userId (seekingSkills us) (offeringSkills us)
            (userCategories us)) :
    computeScore s o c m1 = computeScore s o c m2 ∧
    (r1.getRecommendations db1 userId limit).result
      = (r2.getRecommendations db2 userId limit).result ∧
    (r1.getRecommendations db1 userId limit).queries
      = (r2.getRecommendations db2 userId limit).queries := by
  refine ⟨?_, ?_, ?_⟩
  · unfold computeScore
    rw [htype, hname, hcat, hrating, htrades, hlevel]
  · unfold SkillRecommender.getRecommendations
    rw [hskills]
    cases hus : db2.userSkills userId with
    | error e => rfl
    | ok us =>
      simp only []
      rw [hrows us hus]
  · unfold SkillRecommender.getRecommendations
    rw [hskills]
    cases hus : db2.userSkills userId with
    | error e => rfl
    | ok us =>
      simp only []
      rw [hrows us hus]

/-- Witness for C13: candidate A and a row of another user and skill id with the same six
fields; two recommenders with different field contents over the same database. -/
theorem score_and_result_are_deterministic_witness :
    computeScore ["React Development"] [] ["Programming"] candidateA
      = computeScore ["React Development"] [] ["Programming"]
          { candidateA with user_id := 4, username := "carol", full_name := "Carol C",
                            skill_id := 13 } ∧
    (SkillRecommender.constructor.getRecommendations
        (sqlDatabase smallPopulation scenarioTables trendNow) 1 none).result
      = (SkillRecommender.getRecommendations
          { userSkillMatrix := [(1, ["React Development"])], skillSimilarity := [(1, 0.5)] }
          (sqlDatabase smallPopulation scenarioTables trendNow) 1 none).result ∧
    (SkillRecommender.constructor.getRecommendations
        (sqlDatabase smallPopulation scenarioTables trendNow) 1 none).queries
      = (SkillRecommender.getRecommendations
          { userSkillMatrix := [(1, ["React Development"])], skillSimilarity := [(1, 0.5)] }
          (sqlDatabase smallPopulation scenarioTables trendNow) 1 none).queries :=
  score_and_result_are_deterministic ["React Development"] [] ["Programming"] candidateA
    { candidateA with user_id := 4, username := "carol", full_name := "Carol C",
                      skill_id := 13 }
    SkillRecommender.constructor
    { userSkillMatrix := [(1, ["React Development"])], skillSimilarity := [(1, 0.5)] }
    (sqlDatabase smallPopulation scenarioTables trendNow)
    (sqlDatabase smallPopulation scenarioTables trendNow) 1 none rfl rfl rfl rfl rfl rfl rfl
    (fun _ _ => rfl)

/-- C14 (as stated, refuted): under a case-insensitive collation, the default of MySQL, a
row can satisfy the qualifying condition of the candidate query and still get no match bonus.
For a caller with the category `Programming`, a declaration of the category `programming` of
a skill the caller neither seeks nor offers passes `s.category IN (...)`, while
`userCategories.includes` does not find it: its match bonus is 0 and its score is 11.5, where
the same declaration under `Programming` scores 14.5. -/
theorem qualifying_row_without_match_bonus :
    qualifiesBy caseInsensitive ["React Development"] [] ["Programming"] lowerCaseRow = true ∧
    matchBonus ["React Development"] [] ["Programming"] lowerCaseRow = 0 ∧
    computeScoreWith ieeeDouble ["React Development"] [] ["Programming"] lowerCaseRow = 11.5 ∧
    computeScoreWith ieeeDouble ["React Development"] [] ["Programming"] candidateB = 14.5 ∧
    ¬ (qualifiesBy caseInsensitive ["React Development"] [] ["Programming"] lowerCaseRow
        = true ↔ matchBonus ["React Development"] [] ["Programming"] lowerCaseRow ≠ 0) := by
  decide!

/-- C14 (amended): under every collation that finds each string equal to itself, a row to
which the scoring step gives a non-zero match bonus satisfies the qualifying condition of the
candidate query. Under a binary collation (strings are equal only when identical) the converse
holds too: a row qualifies exactly when its match bonus is non-zero, and then the bonus is 10,
8 or 3. The match bonus is what the scoring step adds: it is the score the method computes in
binary64 for the row without rating, trades and proficiency level, and in exact arithmetic the
score exceeds the three other bonuses by it. -/
theorem qualifies_iff_match_bonus (coll : Collation) (s o c : List String) (m : Match)
    (hrefl : ∀ x, coll x x = true) :
    (matchBonus s o c m ≠ 0 → qualifiesBy coll s o c m = true) ∧
    (qualifiesBy binaryCollation s o c m = true ↔ matchBonus s o c m ≠ 0) ∧
    (qualifiesBy binaryCollation s o c m = true →
      matchBonus s o c m = 10 ∨ matchBonus s o c m = 8 ∨ matchBonus s o c m = 3) ∧
    computeScoreWith ieeeDouble s o c
        { m with user_rating := none, total_trades := 0, proficiency_level := "" }
      = matchBonus s o c m ∧
    computeScore s o c m - (ratingBonus m + experienceBonus m + proficiencyBonus m)
      = matchBonus s o c m := by
  have hiff : qualifiesBy binaryCollation s o c m = true ↔ matchBonus s o c m ≠ 0 := by
    rw [qualifiesBy_binaryCollation, qualifies_iff, matchBonus_ne_zero_iff]
  refine ⟨qualifiesBy_of_matchBonus coll hrefl s o c m, hiff, ?_,
    computeScoreWith_ieeeDouble_bare s o c m, ?_⟩
  · intro hq
    have hne := hiff.mp hq
    unfold matchBonus at hne ⊢
    split_ifs at hne ⊢ <;> simp at hne ⊢
  · rw [computeScore_eq_specScore]
    unfold specScore
    ring

/-- Witness for C14: the case-insensitive collation finds each string equal to itself, and
candidate A, whose match bonus is 10, qualifies under it. -/
theorem qualifies_iff_match_bonus_witness :
    (∀ x, caseInsensitive x x = true) ∧
    matchBonus ["React Development"] [] ["Programming"] candidateA = 10 ∧
    qualifiesBy caseInsensitive ["React Development"] [] ["Programming"] candidateA = true :=
  ⟨fun x => by simp [caseInsensitive], by decide!,
    (qualifies_iff_match_bonus caseInsensitive ["React Development"] [] ["Programming"]
      candidateA (fun x => by simp [caseInsensitive])).1 (by decide!)⟩

/-- C15 (as stated, refuted): no not-found error exists. User 99 has no row in the small
population, yet the method returns the empty list and the handler answers an administrator
with status 200, an empty list and the advisory message; and for user 1 of a population in
which that user is inactive the method still returns two recommendations. -/
theorem unknown_user_is_answered_with_a_list :
    (∀ d ∈ smallPopulation, d.row.user_id ≠ 99) ∧
    (SkillRecommender.constructor.getRecommendations
        (sqlDatabase smallPopulation scenarioTables trendNow) 99 none).result = .ok [] ∧
    (getUserIdHandler SkillRecommender.constructor
        (sqlDatabase smallPopulation scenarioTables trendNow) adminUser
        { parsed := some 99, sqlValue := 99 } none).response
      = { status := 200, body := .recommendations [] (some emptyMessage) } ∧
    (∀ d ∈ inactiveCallerPopulation, d.row.user_id = 1 → d.user_is_active = false) ∧
    (SkillRecommender.constructor.getRecommendations
        (sqlDatabase inactiveCallerPopulation scenarioTables trendNow) 1 none).result
      = .ok [{ toMatch := candidateA, score := 31.6 },
             { toMatch := candidateB, score := 14.5 }] := by
  refine ⟨?_, ?_, ?_, ?_, ?_⟩ <;> decide!

/-- C15 (amended): for a `userId` with no stored declaration (in particular one that
identifies no user) nothing fails: the method returns the empty list, the handler answers a
caller who is that user or an administrator with status 200, the empty list and the advisory
message, and answers any other caller with 403. -/
theorem unknown_user_gets_empty_list (r : SkillRecommender)
    (population : List StoredDeclaration) (t : TrendTables) (now : Int) (user : AuthUser)
    (p : UserIdParam) (limit : Option Int)
    (hnone : ∀ d ∈ population, d.row.user_id ≠ p.sqlValue) :
    (r.getRecommendations (sqlDatabase population t now) p.sqlValue limit).result = .ok [] ∧
    ((p.parsed = some user.id ∨ user.role = "admin") →
      (getUserIdHandler r (sqlDatabase population t now) user p limit).response
        = { status := 200, body := .recommendations [] (some emptyMessage) }) ∧
    ((p.parsed ≠ some user.id ∧ user.role ≠ "admin") →
      (getUserIdHandler r (sqlDatabase population t now) user p limit).response
        = { status := 403, body := .error "Forbidden" }) := by
  have hempty : ∀ l : Option Int,
      (r.getRecommendations (sqlDatabase population t now) p.sqlValue l).result = .ok [] := by
    intro l
    rw [getRecommendations_sqlDatabase,
      getRecommendations_sqlProvider_eq_nil population p.sqlValue l
        (fun d hd hu => absurd hu (hnone d hd))]
  refine ⟨hempty limit, ?_, ?_⟩
  · intro hallowed
    have hnot : ¬ (p.parsed ≠ some user.id ∧ user.role ≠ "admin") := by
      rintro ⟨h1, h2⟩
      rcases hallowed with h | h
      · exact h1 h
      · exact h2 h
    rw [getUserIdHandler_allowed r _ user p limit hnot, hempty]
    rfl
  · intro hforbidden
    rw [getUserIdHandler_forbidden r _ user p limit hforbidden]

/-- Witness for C15 (amended): user 99 of the small population, asked for by an administrator. -/
theorem unknown_user_gets_empty_list_witness :
    (∀ d ∈ smallPopulation, d.row.user_id ≠ 99) ∧
    (SkillRecommender.constructor.getRecommendations
        (sqlDatabase smallPopulation scenarioTables trendNow) 99 (some 3)).result = .ok [] :=
  ⟨by decide!,
    (unknown_user_gets_empty_list SkillRecommender.constructor smallPopulation scenarioTables
      trendNow adminUser { parsed := some 99, sqlValue := 99 } (some 3) (by decide!)).1⟩

/-- C16: the handler of `GET /:userId` answers 403 without calling `getRecommendations` (no
query is issued) exactly when the integer parsed from the path differs from the caller's id
and the caller's role is not admin; in every other case it calls `getRecommendations` for
that `userId` (its queries are the handler's queries, the first one being the skills lookup
of that user) and answers 200 or 500. -/
theorem forbidden_iff_other_user_and_not_admin (r : SkillRecommender) (db : Database)
    (user : AuthUser) (p : UserIdParam) (limit : Option Int) :
    ((getUserIdHandler r db user p limit).response.status = 403 ↔
      (p.parsed ≠ some user.id ∧ user.role ≠ "admin")) ∧
    ((p.parsed ≠ some user.id ∧ user.role ≠ "admin") →
      getUserIdHandler r db user p limit
        = { response := { status := 403, body := .error "Forbidden" }, queries := [] }) ∧
    (¬ (p.parsed ≠ some user.id ∧ user.role ≠ "admin") →
      (getUserIdHandler r db user p limit).queries
          = (r.getRecommendations db p.sqlValue (some (limit.getD 5))).queries ∧
        (getUserIdHandler r db user p limit).queries.head? = some (.userSkills p.sqlValue) ∧
        ((getUserIdHandler r db user p limit).response.status = 200 ∨
          (getUserIdHandler r db user p limit).response.status = 500)) := by
  have hallowed : ¬ (p.parsed ≠ some user.id ∧ user.role ≠ "admin") →
      (getUserIdHandler r db user p limit).queries
          = (r.getRecommendations db p.sqlValue (some (limit.getD 5))).queries ∧
        (getUserIdHandler r db user p limit).queries.head? = some (.userSkills p.sqlValue) ∧
        ((getUserIdHandler r db user p limit).response.status = 200 ∨
          (getUserIdHandler r db user p limit).response.status = 500) := by
    intro h
    have hq := (getRecommendations_queries_head r db p.sqlValue (some (limit.getD 5))).1
    rw [getUserIdHandler_allowed r db user p limit h]
    cases hres : (r.getRecommendations db p.sqlValue (some (limit.getD 5))).result with
    | error e => exact ⟨rfl, hq, Or.inr rfl⟩
    | ok recs => exact ⟨rfl, hq, Or.inl rfl⟩
  refine ⟨⟨?_, ?_⟩, getUserIdHandler_forbidden r db user p limit, hallowed⟩
  · intro h403
    by_contra hnot
    rcases (hallowed hnot).2.2 with h | h
    · rw [h] at h403; exact absurd h403 (by decide)
    · rw [h] at h403; exact absurd h403 (by decide)
  · intro h
    rw [getUserIdHandler_forbidden r db user p limit h]

/-- Witness for C16: an ordinary user asks for another user's recommendations. -/
theorem forbidden_iff_other_user_and_not_admin_witness :
    getUserIdHandler SkillRecommender.constructor
        (sqlDatabase smallPopulation scenarioTables trendNow) plainUser
        { parsed := some 2, sqlValue := 2 } none
      = { response := { status := 403, body := .error "Forbidden" }, queries := [] } :=
  (forbidden_iff_other_user_and_not_admin SkillRecommender.constructor
    (sqlDatabase smallPopulation scenarioTables trendNow) plainUser
    { parsed := some 2, sqlValue := 2 } none).2.1 (by decide)

/-- C17: whenever the handler of `GET /:userId` answers with a recommendations list, the
status is 200 and the message is non-null exactly when the list is empty: a non-empty list
comes with message null, an empty list with the advisory message. -/
theorem message_iff_no_recommendations (r : SkillRecommender) (db : Database)
    (user : AuthUser) (p : UserIdParam) (limit : Option Int) (recs : List Recommendation)
    (message : Option String)
    (hbody : (getUserIdHandler r db user p limit).response.body
      = .recommendations recs message) :
    (getUserIdHandler r db user p limit).response.status = 200 ∧
    (message ≠ none ↔ recs = []) ∧
    (recs ≠ [] → message = none) ∧
    (recs = [] → message = some emptyMessage) := by
  by_cases h : p.parsed ≠ some user.id ∧ user.role ≠ "admin"
  · rw [getUserIdHandler_forbidden r db user p limit h] at hbody
    exact Body.noConfusion hbody
  · rw [getUserIdHandler_allowed r db user p limit h] at hbody ⊢
    cases hres : (r.getRecommendations db p.sqlValue (some (limit.getD 5))).result with
    | error e =>
      rw [hres] at hbody
      exact Body.noConfusion hbody
    | ok found =>
      rw [hres] at hbody
      simp only [Body.recommendations.injEq] at hbody
      obtain ⟨hrecs, hmsg⟩ := hbody
      subst hrecs
      refine ⟨rfl, ?_, ?_, ?_⟩
      · rw [← hmsg]
        cases found <;> simp
      · intro hne
        rw [← hmsg]
        cases found with
        | nil => exact absurd rfl hne
        | cons a l => simp
      · intro he
        rw [← hmsg, he]
        rfl

/-- Witness for C17: user 1 of the small population asks for their own recommendations. -/
theorem message_iff_no_recommendations_witness :
    (getUserIdHandler SkillRecommender.constructor
        (sqlDatabase smallPopulation scenarioTables trendNow) plainUser
        { parsed := some 1, sqlValue := 1 } none).response.status = 200 :=
  (message_iff_no_recommendations SkillRecommender.constructor
    (sqlDatabase smallPopulation scenarioTables trendNow) plainUser
    { parsed := some 1, sqlValue := 1 } none
    [{ toMatch := candidateA, score := 31.6 }, { toMatch := candidateB, score := 14.5 }] none
    (by decide!)).1

/-- C18: when a query of `getRecommendations` throws, the method throws that same error,
returns no list and issues no further query: after a failed skills lookup the candidate query
is not issued, and no query is issued twice. The handler of `GET /:userId` then answers 500
with an error body. The same holds for `getTrendingSkills` and the handler of
`GET /trending`. -/
theorem query_failure_propagates (r : SkillRecommender) (db : Database) (user : AuthUser)
    (p : UserIdParam) (userId : Nat) (limit : Option Int) (e : DbError) :
    (db.userSkills userId = .error e →
      r.getRecommendations db userId limit
        = { queries := [.userSkills userId], result := .error e }) ∧
    (∀ us, db.userSkills userId = .ok us →
      db.potentialMatches userId (seekingSkills us) (offeringSkills us) (userCategories us)
        = .error e →
      r.getRecommendations db userId limit
        = { queries := [.userSkills userId,
              .potentialMatches userId (seekingSkills us) (offeringSkills us)
                (userCategories us)],
            result := .error e }) ∧
    (r.getRecommendations db userId limit).queries.Nodup ∧
    ((r.getRecommendations db p.sqlValue (some (limit.getD 5))).result = .error e →
      ¬ (p.parsed ≠ some user.id ∧ user.role ≠ "admin") →
      getUserIdHandler r db user p limit
        = { response := { status := 500, body := .error "Internal server error" },
            queries := (r.getRecommendations db p.sqlValue (some (limit.getD 5))).queries }) ∧
    (db.trendingSkills (limit.getD 10) = .error e →
      r.getTrendingSkills db limit
          = { queries := [.trendingSkills (limit.getD 10)], result := .error e } ∧
        getTrendingHandler r db limit
          = { response := { status := 500, body := .error "Internal server error" },
              queries := [.trendingSkills (limit.getD 10)] }) := by
  refine ⟨?_, ?_, (getRecommendations_queries_head r db userId limit).2.1, ?_, ?_⟩
  · intro h
    unfold SkillRecommender.getRecommendations
    rw [h]
  · intro us hus hms
    unfold SkillRecommender.getRecommendations
    rw [hus]
    simp only []
    rw [hms]
  · intro hres hallowed
    rw [getUserIdHandler_allowed r db user p limit hallowed, hres]
  · intro h
    have hcall : r.getTrendingSkills db limit
        = { queries := [.trendingSkills (limit.getD 10)], result := .error e } := by
      unfold SkillRecommender.getTrendingSkills
      simp only []
      rw [h]
    refine ⟨hcall, ?_⟩
    unfold getTrendingHandler SkillRecommender.getTrendingSkills
    simp only [Option.getD_some]
    rw [h]

/-- Witness for C18: the skills lookup throws; one query is issued and its error is thrown. -/
theorem query_failure_propagates_witness :
    SkillRecommender.constructor.getRecommendations skillsLookupDown 1 none
      = { queries := [.userSkills 1], result := .error { message := "connection lost" } } :=
  (query_failure_propagates SkillRecommender.constructor skillsLookupDown plainUser
    { parsed := some 1, sqlValue := 1 } 1 none { message := "connection lost" }).1 rfl

/-- C19: for every positive limit `getTrendingSkills` over the stored tables returns at most
`limit` skills, each with `trend_score = 0.3 * user_count + trade_count`, in non-increasing
order of `trend_score`, and no omitted skill has a higher `trend_score` than a returned one.
In the scenario (skill X: 10 declarations, 5 trades, score 8; skill Y: 2 declarations,
8 trades, score 8.6) the result for limit 1 is exactly Y. -/
theorem trending_returns_top_limit (r : SkillRecommender)
    (population : List StoredDeclaration) (t : TrendTables) (now : Int) (limit : Int)
    (hpos : 0 < limit) :
    (∃ result,
      (r.getTrendingSkills (sqlDatabase population t now) (some limit)).result = .ok result ∧
      (result.length : Int) ≤ limit ∧
      (∀ x ∈ result, x.trend_score = 0.3 * (x.user_count : ℚ) + (x.trade_count : ℚ)) ∧
      result.Pairwise (fun a b => b.trend_score ≤ a.trend_score) ∧
      (∀ a ∈ result, ∀ b ∈ trendGroups t now, b ∉ result →
        b.trend_score ≤ a.trend_score)) ∧
    trendRow scenarioTables trendNow skillX
      = { id := 1, name := "X", category := "Programming", user_count := 10,
          trade_count := 5, trend_score := 8 } ∧
    trendRow scenarioTables trendNow skillY
      = { id := 2, name := "Y", category := "Design", user_count := 2,
          trade_count := 8, trend_score := 8.6 } ∧
    (r.getTrendingSkills (sqlDatabase population scenarioTables trendNow) (some 1)).result
      = .ok [trendRow scenarioTables trendNow skillY] := by
  refine ⟨⟨(trendOrdered t now).take limit.toNat, ?_, ?_, ?_, ?_, ?_⟩,
    by decide!, by decide!, ?_⟩
  · unfold SkillRecommender.getTrendingSkills
    simp only [Option.getD_some, sqlDatabase]
    rw [trendingQuery_of_nonneg t now (le_of_lt hpos)]
  · rw [List.length_take]
    omega
  · intro x hx
    exact trend_score_of_mem_trendGroups (mem_trendOrdered.mp (List.mem_of_mem_take hx))
  · exact (trendOrdered_sorted t now).sublist (List.take_sublist _ _)
  · intro a ha b hb hnot
    have hb2 : b ∈ trendOrdered t now := mem_trendOrdered.mpr hb
    rw [← List.take_append_drop limit.toNat (trendOrdered t now)] at hb2
    rcases List.mem_append.mp hb2 with h | h
    · exact absurd h hnot
    · exact (trendOrdered_sorted t now).rel_of_mem_take_of_mem_drop ha h
  · have hq : trendingQuery scenarioTables trendNow 1
        = .ok [trendRow scenarioTables trendNow skillY] := by decide!
    unfold SkillRecommender.getTrendingSkills
    simp only [Option.getD_some, sqlDatabase]
    rw [hq]

/-- Witness for C19: the scenario tables with limit 1. -/
theorem trending_returns_top_limit_witness :
    (0 : Int) < 1 ∧
    (SkillRecommender.constructor.getTrendingSkills
        (sqlDatabase [] scenarioTables trendNow) (some 1)).result
      = .ok [{ id := 2, name := "Y", category := "Design", user_count := 2,
               trade_count := 8, trend_score := 8.6 }] ∧
    ∃ result,
      (SkillRecommender.constructor.getTrendingSkills
        (sqlDatabase [] scenarioTables trendNow) (some 1)).result = .ok result ∧
      (result.length : Int) ≤ 1 ∧
      (∀ x ∈ result, x.trend_score = 0.3 * (x.user_count : ℚ) + (x.trade_count : ℚ)) ∧
      result.Pairwise (fun a b => b.trend_score ≤ a.trend_score) ∧
      (∀ a ∈ result, ∀ b ∈ trendGroups scenarioTables trendNow, b ∉ result →
        b.trend_score ≤ a.trend_score) :=
  ⟨by decide, by decide!,
    (trending_returns_top_limit SkillRecommender.constructor [] scenarioTables trendNow 1
      (by decide)).1⟩

/-- C20 (as stated, refuted): the window has no upper bound. A trade created exactly at the
evaluation time, and a trade created a day after it, are each counted in `trade_count`. -/
theorem trade_at_or_after_now_is_counted :
    tradeCount (boundaryTables trendNow) trendNow skillX = 1 ∧
    tradeCount (boundaryTables (trendNow + 86400)) trendNow skillX = 1 ∧
    ((SkillRecommender.constructor.getTrendingSkills
        (sqlDatabase [] (boundaryTables (trendNow + 86400)) trendNow) none).result.toOption.getD
          []).map (fun x => (x.name, x.trade_count)) = [("X", 1), ("Y", 1)] := by
  refine ⟨?_, ?_, ?_⟩ <;> decide!

/-- C20 (amended): a trade contributes to a skill's `trade_count` exactly when it references
an active declaration of the skill (as requester or as provider) and its creation time `t`
satisfies `now - 30 days ≤ t`; with distinct trade ids the count is the number of such trades
in the two roles. A trade created exactly at `now - 30 days` is counted, one created a second
earlier is not, and there is no upper bound on `t`. -/
theorem trade_counted_iff_after_window_start (t : TrendTables) (now : Int) (s : SkillRow) :
    (∀ tr, tr ∈ requesterTrades t now s ↔
      tr ∈ t.trades ∧ (∃ us ∈ activeDeclarations t s, us.id = tr.requester_skill_id) ∧
        now - thirtyDays ≤ tr.created_at) ∧
    (∀ tr, tr ∈ providerTrades t now s ↔
      tr ∈ t.trades ∧ (∃ us ∈ activeDeclarations t s, us.id = tr.provider_skill_id) ∧
        now - thirtyDays ≤ tr.created_at) ∧
    ((t.trades.map (fun tr => tr.id)).Nodup →
      tradeCount t now s
        = (requesterTrades t now s).length + (providerTrades t now s).length) ∧
    (∀ createdAt : Int,
      tradeCount (boundaryTables createdAt) now skillX
        = if now - thirtyDays ≤ createdAt then 1 else 0) := by
  refine ⟨fun tr => mem_requesterTrades, fun tr => mem_providerTrades, ?_, ?_⟩
  · intro hnd
    unfold tradeCount requesterTrades providerTrades
    rw [countDistinct_filter_of_nodup _ _ hnd, countDistinct_filter_of_nodup _ _ hnd]
  · intro createdAt
    by_cases h : now - thirtyDays ≤ createdAt
    · have h2 : now ≤ createdAt + thirtyDays := by linarith
      simp [tradeCount, requesterTrades, providerTrades, activeDeclarations, boundaryTables,
        skillX, inWindow, windowStart, countDistinct, h, h2]
    · have h2 : createdAt + thirtyDays < now := by linarith
      simp [tradeCount, requesterTrades, providerTrades, activeDeclarations, boundaryTables,
        skillX, inWindow, windowStart, countDistinct, h, h2]

/-- C26: for a candidate row whose rating is absent or lies in [0, 5] (the trade count is a
natural number) the score lies in [0, 32], and it equals 32 exactly when the row is an
offering of a skill the caller seeks, the rating is 5, the trade count is at least 20 and the
proficiency is expert. -/
theorem score_between_zero_and_32 (s o c : List String) (m : Match)
    (hr : ∀ r, m.user_rating = some r → 0 ≤ r ∧ r ≤ 5) :
    0 ≤ computeScore s o c m ∧ computeScore s o c m ≤ 32 ∧
    (computeScore s o c m = 32 ↔
      (m.skill_type = "offering" ∧ m.skill_name ∈ s) ∧ m.user_rating = some 5 ∧
        20 ≤ m.total_trades ∧ m.proficiency_level = "expert") := by
  obtain ⟨a0, a1, a2⟩ := matchBonus_bounds s o c m
  obtain ⟨b0, b1, b2⟩ := ratingBonus_bounds m hr
  obtain ⟨c0, c1, c2⟩ := experienceBonus_bounds m
  obtain ⟨d0, d1, d2⟩ := proficiencyBonus_bounds m
  rw [computeScore_eq_specScore]
  unfold specScore
  refine ⟨by linarith, by linarith, ?_⟩
  rw [← a2, ← b2, ← c2, ← d2]
  constructor
  · intro h
    refine ⟨by linarith, by linarith, by linarith, by linarith⟩
  · rintro ⟨h1, h2, h3, h4⟩
    rw [h1, h2, h3, h4]
    norm_num

/-- Witness for C26: candidate A (rating 4.8) scores between 0 and 32. -/
theorem score_between_zero_and_32_witness :
    (∀ r, candidateA.user_rating = some r → 0 ≤ r ∧ r ≤ 5) ∧
    0 ≤ computeScore ["React Development"] [] ["Programming"] candidateA ∧
    computeScore ["React Development"] [] ["Programming"] candidateA ≤ 32 :=
  ⟨by intro r hr; cases hr; decide!,
    (score_between_zero_and_32 ["React Development"] [] ["Programming"] candidateA
      (by intro r hr; cases hr; decide!)).1,
    (score_between_zero_and_32 ["React Development"] [] ["Programming"] candidateA
      (by intro r hr; cases hr; decide!)).2.1⟩

/-- C27: for every provider sequence, two result entries with equal score stand in the order
in which their users first occur in the provider sequence; the scores are the binary64 numbers
the method computes. In `overtakingRows` user 2 occurs first but reaches the score 31.6 only
with the third row (skill 10), after user 4 reached it with the second row; user 2 is still
returned before user 4. In `roundedRows` user 5 occurs before user 6, and the two scores, both
13.3334 in exact arithmetic, differ in binary64: user 6 is returned first. -/
theorem equal_scores_keep_first_occurrence_order (db : FactProvider) (userId : Nat)
    (limit : Option Int) :
    (getRecommendationsWith ieeeDouble db userId limit).Pairwise
      (fun a b => a.score = b.score →
        firstOccurrence (candidates db userId) a.user_id
          < firstOccurrence (candidates db userId) b.user_id) ∧
    (getRecommendationsWith ieeeDouble (scenarioDb overtakingRows) 1 none).map
        (fun e => (e.user_id, e.skill_id, e.score))
      = [(2, 10, roundDouble 31.6), (4, 10, roundDouble 31.6)] ∧
    (getRecommendationsWith ieeeDouble (scenarioDb roundedRows) 1 none).map
        (fun e => (e.user_id, e.score))
      = [(6, roundDouble 13.333400000000001), (5, roundDouble 13.3334)] := by
  refine ⟨?_, ?_, ?_⟩
  · rw [getRecommendationsWith_eq, sortedByScoreWith_ieeeDouble]
    exact (sorted_ties_in_first_occurrence_order _ _).sublist (slice0_sublist _ _)
  · rw [getRecommendationsWith_eq, sortedByScoreWith_ieeeDouble]
    decide!
  · rw [getRecommendationsWith_eq, sortedByScoreWith_ieeeDouble]
    decide!

/-- C22: `calculateSimilarity` is the Jaccard index of the element sets of its two lists,
the size of the intersection over the size of the union; it is 0 when both lists are empty (the
guard avoids the division by zero); and lists with the same elements, in any order and with
any repetitions, give the same result. -/
theorem similarity_is_jaccard_index {α : Type} [DecidableEq α] (A B : List α) :
    ((A ≠ [] ∨ B ≠ []) → calculateSimilarity A B = jaccardIndex A.toFinset B.toFinset) ∧
    calculateSimilarity ([] : List α) [] = 0 ∧
    (∀ A2 B2 : List α, (∀ x, x ∈ A2 ↔ x ∈ A) → (∀ x, x ∈ B2 ↔ x ∈ B) →
      calculateSimilarity A2 B2 = calculateSimilarity A B) := by
  refine ⟨?_, ?_, ?_⟩
  · intro hne
    rw [calculateSimilarity_eq]
    have hcard : (A.toFinset ∪ B.toFinset).card ≠ 0 := by
      rw [Finset.card_ne_zero]
      rcases hne with h | h
      · obtain ⟨a, l, rfl⟩ := List.exists_cons_of_ne_nil h
        exact ⟨a, by simp⟩
      · obtain ⟨b, l, rfl⟩ := List.exists_cons_of_ne_nil h
        exact ⟨b, by simp⟩
    rw [if_neg hcard]
    rfl
  · rw [calculateSimilarity_eq]
    simp
  · intro A2 B2 hA hB
    have h1 : A2.toFinset = A.toFinset := by ext x; simp [hA x]
    have h2 : B2.toFinset = B.toFinset := by ext x; simp [hB x]
    rw [calculateSimilarity_eq, calculateSimilarity_eq, h1, h2]

/-- Witness for C22: two lists with two elements in common out of four. -/
theorem similarity_is_jaccard_index_witness :
    calculateSimilarity ["React", "Vue", "React", "Python"] ["Python", "Go", "React"] = 1 / 2 ∧
    calculateSimilarity ["React", "Vue", "React", "Python"] ["Python", "Go", "React"]
      = jaccardIndex (["React", "Vue", "React", "Python"] : List String).toFinset
          (["Python", "Go", "React"] : List String).toFinset :=
  ⟨by decide!,
    (similarity_is_jaccard_index ["React", "Vue", "React", "Python"]
      ["Python", "Go", "React"]).1 (Or.inl (by decide))⟩

/-- C30: `calculateSimilarity` is symmetric and lies between 0 and 1; it equals 1 exactly when
both lists are non-empty and have the same set of elements, and it equals 0 exactly when the
lists share no element. -/
theorem similarity_symmetric_and_normalised {α : Type} [DecidableEq α] (A B : List α) :
    calculateSimilarity A B = calculateSimilarity B A ∧
    0 ≤ calculateSimilarity A B ∧ calculateSimilarity A B ≤ 1 ∧
    (calculateSimilarity A B = 1 ↔ A ≠ [] ∧ B ≠ [] ∧ ∀ x, x ∈ A ↔ x ∈ B) ∧
    (calculateSimilarity A B = 0 ↔ ∀ x, x ∈ A → x ∉ B) := by
  have hle := inter_card_le_union_card A.toFinset B.toFinset
  refine ⟨?_, ?_, ?_, ?_, ?_⟩
  · rw [calculateSimilarity_eq, calculateSimilarity_eq, Finset.inter_comm, Finset.union_comm]
  · rw [calculateSimilarity_eq]
    split_ifs
    · exact le_refl 0
    · exact div_nonneg (Nat.cast_nonneg _) (Nat.cast_nonneg _)
  · rw [calculateSimilarity_eq]
    split_ifs with h
    · exact zero_le_one
    · have hpos : (0 : ℚ) < ((A.toFinset ∪ B.toFinset).card : ℚ) :=
        Nat.cast_pos.mpr (Nat.pos_of_ne_zero h)
      rw [div_le_one hpos]
      exact_mod_cast hle
  · rw [calculateSimilarity_eq]
    constructor
    · intro h1
      by_cases hc : (A.toFinset ∪ B.toFinset).card = 0
      · rw [if_pos hc] at h1
        exact absurd h1 (by norm_num)
      · rw [if_neg hc] at h1
        have hpos : (0 : ℚ) < ((A.toFinset ∪ B.toFinset).card : ℚ) :=
          Nat.cast_pos.mpr (Nat.pos_of_ne_zero hc)
        rw [div_eq_one_iff_eq (ne_of_gt hpos)] at h1
        have hcard : (A.toFinset ∩ B.toFinset).card = (A.toFinset ∪ B.toFinset).card := by
          exact_mod_cast h1
        have hsub : A.toFinset ∩ B.toFinset ⊆ A.toFinset ∪ B.toFinset :=
          fun _ hx => Finset.mem_union_left _ (Finset.mem_inter.mp hx).1
        have heq : A.toFinset ∩ B.toFinset = A.toFinset ∪ B.toFinset :=
          Finset.eq_of_subset_of_card_le hsub (le_of_eq hcard.symm)
        have hiff : ∀ x, x ∈ A ↔ x ∈ B := by
          intro x
          constructor
          · intro hx
            have : x ∈ A.toFinset ∪ B.toFinset :=
              Finset.mem_union_left _ (List.mem_toFinset.mpr hx)
            rw [← heq] at this
            exact List.mem_toFinset.mp (Finset.mem_inter.mp this).2
          · intro hx
            have : x ∈ A.toFinset ∪ B.toFinset :=
              Finset.mem_union_right _ (List.mem_toFinset.mpr hx)
            rw [← heq] at this
            exact List.mem_toFinset.mp (Finset.mem_inter.mp this).1
        obtain ⟨x, hx⟩ := Finset.card_ne_zero.mp hc
        have hxA : x ∈ A := by
          rcases Finset.mem_union.mp hx with h | h
          · exact List.mem_toFinset.mp h
          · exact (hiff x).mpr (List.mem_toFinset.mp h)
        refine ⟨List.ne_nil_of_mem hxA, List.ne_nil_of_mem ((hiff x).mp hxA), hiff⟩
    · rintro ⟨hA, _, hiff⟩
      have hsame : B.toFinset = A.toFinset := by ext x; simp [hiff x]
      obtain ⟨a, l, rfl⟩ := List.exists_cons_of_ne_nil hA
      have hc : ((a :: l).toFinset ∪ (a :: l).toFinset).card ≠ 0 := by
        rw [Finset.card_ne_zero]
        exact ⟨a, by simp⟩
      rw [hsame, if_neg hc, Finset.inter_self, Finset.union_self]
      rw [Finset.union_self] at hc
      exact div_self (Nat.cast_ne_zero.mpr hc)
  · rw [calculateSimilarity_eq]
    have hdisj : A.toFinset ∩ B.toFinset = ∅ ↔ ∀ x, x ∈ A → x ∉ B := by
      rw [Finset.eq_empty_iff_forall_not_mem]
      constructor
      · intro h x hxA hxB
        exact h x (Finset.mem_inter.mpr ⟨List.mem_toFinset.mpr hxA, List.mem_toFinset.mpr hxB⟩)
      · intro h x hx
        obtain ⟨h1, h2⟩ := Finset.mem_inter.mp hx
        exact h x (List.mem_toFinset.mp h1) (List.mem_toFinset.mp h2)
    rw [← hdisj]
    by_cases hc : (A.toFinset ∪ B.toFinset).card = 0
    · rw [if_pos hc]
      have hempty : A.toFinset ∩ B.toFinset = ∅ := by
        rw [← Finset.card_eq_zero]
        exact Nat.le_zero.mp (hc ▸ hle)
      simp [hempty]
    · rw [if_neg hc]
      have hpos : ((A.toFinset ∪ B.toFinset).card : ℚ) ≠ 0 := Nat.cast_ne_zero.mpr hc
      rw [div_eq_zero_iff]
      constructor
      · rintro (h | h)
        · exact Finset.card_eq_zero.mp (by exact_mod_cast h)
        · exact absurd h hpos
      · intro h
        left
        rw [h]
        simp


/-- C21 (the code at the failing input): with the routes in registration order, a GET request
for `/trending` without Authorization header is taken by the route `/:userId`, whose
`authenticateToken` answers 401 and issues no query; whatever the Authorization header, the
response to `/trending` never carries a `trendingSkills` list. With `/trending` registered
first the same request is served by the trending handler. -/
theorem trending_request_is_taken_by_userId_route (env : AuthEnv) (r : SkillRecommender)
    (db : Database) (readParam : String → UserIdParam) (limit : Option Int) :
    recommendationsRouter registeredRoutes env r db readParam
        { segment := "trending", authorization := none, limit := limit }
      = some { response := { status := 401, body := .error "Access token required" },
               queries := [] } ∧
    (∀ (authorization : Option String) (handled : Handled),
      recommendationsRouter registeredRoutes env r db readParam
          { segment := "trending", authorization := authorization, limit := limit }
        = some handled →
      ∀ ts, handled.response.body ≠ .trendingSkills ts) ∧
    recommendationsRouter [.trending, .userId] env r db readParam
        { segment := "trending", authorization := none, limit := limit }
      = some (getTrendingHandler r db limit) := by
  have hfirst : ∀ authorization : Option String,
      recommendationsRouter registeredRoutes env r db readParam
          { segment := "trending", authorization := authorization, limit := limit }
        = some (Route.run env r db readParam .userId
            { segment := "trending", authorization := authorization, limit := limit }) := by
    intro authorization
    have hm : Route.pathMatches .userId "trending" = true := by decide
    simp only [recommendationsRouter, registeredRoutes, List.find?_cons, hm, Option.map_some']
  refine ⟨?_, ?_, ?_⟩
  · rw [hfirst]
    rfl
  · intro authorization handled h ts
    rw [hfirst] at h
    injection h with h
    rw [← h, Route.run_userId]
    cases ha : authenticateToken env authorization with
    | respond response =>
      obtain ⟨message, hbody, _⟩ := authenticateToken_respond_body ha
      simp only []
      rw [hbody]
      exact fun hb => Body.noConfusion hb
    | next user =>
      exact getUserIdHandler_body_ne_trendingSkills r db _ _ _ ts
  · have hm : Route.pathMatches .trending "trending" = true := by decide
    simp only [recommendationsRouter, List.find?_cons, hm, Option.map_some']
    rfl

/-- C24: `authenticateToken` calls `next` (with `req.user` set to the users row) only when the
Authorization header carries a non-empty token as its second space-separated part, the token
verifies, and the users row of the token's `userId` exists with `is_active` true, and it does
call `next` then; with no token it answers 401, with a token that fails verification 403, and
with a missing or inactive user 401, each time without calling `next`. -/
theorem authenticateToken_proceeds_only_when_valid (env : AuthEnv)
    (authHeader : Option String) :
    (∀ user, authenticateToken env authHeader = .next user →
      ∃ header token userId rest, authHeader = some header ∧
        (jsSplitSpace header).get? 1 = some token ∧ token ≠ "" ∧
        env.verify token = some userId ∧ env.usersById userId = .ok (user :: rest) ∧
        user.is_active = true) ∧
    (∀ token userId user rest, bearerToken authHeader = some token → token ≠ "" →
      env.verify token = some userId → env.usersById userId = .ok (user :: rest) →
      user.is_active = true → authenticateToken env authHeader = .next user) ∧
    ((bearerToken authHeader = none ∨ bearerToken authHeader = some "") →
      authenticateToken env authHeader
        = .respond { status := 401, body := .error "Access token required" }) ∧
    (∀ token, bearerToken authHeader = some token → token ≠ "" → env.verify token = none →
      authenticateToken env authHeader
        = .respond { status := 403, body := .error "Invalid token" }) ∧
    (∀ token userId, bearerToken authHeader = some token → token ≠ "" →
      env.verify token = some userId →
      (env.usersById userId = .ok [] ∨
        ∃ row rest, env.usersById userId = .ok (row :: rest) ∧ row.is_active = false) →
      authenticateToken env authHeader
        = .respond { status := 401, body := .error "Invalid or expired token" }) := by
  refine ⟨?_, ?_, ?_, ?_, ?_⟩
  · intro user h
    unfold authenticateToken at h
    cases hb : bearerToken authHeader with
    | none =>
      simp only [hb] at h
      exact MiddlewareResult.noConfusion h
    | some token =>
      by_cases ht : token = ""
      · simp only [hb, ht, if_true] at h
        exact MiddlewareResult.noConfusion h
      · cases hv : env.verify token with
        | none =>
          simp only [hb, ht, if_false, hv] at h
          exact MiddlewareResult.noConfusion h
        | some userId =>
          cases hu : env.usersById userId with
          | error e =>
            simp only [hb, ht, if_false, hv, hu] at h
            exact MiddlewareResult.noConfusion h
          | ok rows =>
            cases rows with
            | nil =>
              simp only [hb, ht, if_false, hv, hu] at h
              exact MiddlewareResult.noConfusion h
            | cons row rest =>
              by_cases ha : row.is_active = false
              · simp only [hb, ht, if_false, hv, hu, ha, if_true] at h
                exact MiddlewareResult.noConfusion h
              · simp only [hb, ht, if_false, hv, hu] at h
                rw [if_neg ha] at h
                injection h with h
                obtain ⟨header, hh, hsplit⟩ := bearerToken_eq_some hb ht
                subst h
                refine ⟨header, token, userId, rest, hh, hsplit, ht, hv, hu, ?_⟩
                cases hact : row.is_active with
                | true => rfl
                | false => exact absurd hact ha
  · intro token userId user rest hb ht hv hu ha
    unfold authenticateToken
    have ha2 : ¬ user.is_active = false := by rw [ha]; decide
    simp only [hb, ht, if_false, hv, hu]
    rw [if_neg ha2]
  · intro h
    unfold authenticateToken
    rcases h with h | h
    · simp only [h]
    · simp only [h, if_true]
  · intro token hb ht hv
    unfold authenticateToken
    simp only [hb, ht, if_false, hv]
  · intro token userId hb ht hv hu
    unfold authenticateToken
    rcases hu with hu | ⟨row, rest, hu, ha⟩
    · simp only [hb, ht, if_false, hv, hu]
    · simp only [hb, ht, if_false, hv, hu, ha, if_true]

/-- Witness for C24: the header `Bearer good` carries the valid token of the active user 1. -/
theorem authenticateToken_proceeds_only_when_valid_witness :
    authenticateToken scenarioAuth (some "Bearer good")
      = .next { id := 1, username := "dana", email := "dana@example.org", role := "user",
                is_active := true } :=
  (authenticateToken_proceeds_only_when_valid scenarioAuth (some "Bearer good")).2.1
    "good" 1 _ [] (by decide!) (by decide) (by decide!) (by decide!) rfl


/-- C23: with the database answering, the handler of `update_trade_status` applies the status
change exactly when the sender takes part in the trade and the trade is pending, the new
status is accepted or rejected and the sender is the provider, or the trade is accepted and the
new status is in_progress, or the trade is in_progress and the new status is completed. It
then stores the new status and notes for that trade only; in every other case it emits one
error and leaves the table unchanged. -/
theorem status_change_applied_iff_permitted (trades : TradeTable) (senderId : Nat) (now : Int)
    (data : StatusUpdate) :
    (applied (updateTradeStatus trades senderId now data) = true ↔
      ∃ trade, trades data.tradeId = some trade ∧
        changePermitted trade senderId data.status) ∧
    (∀ trade, trades data.tradeId = some trade →
      changePermitted trade senderId data.status →
      (updateTradeStatus trades senderId now data).1
        = Function.update trades data.tradeId
            (some { trade with
              status := data.status, notes := data.notes.getD "",
              completed_at :=
                if data.status = "completed" then some now else trade.completed_at })) ∧
    (applied (updateTradeStatus trades senderId now data) = false →
      (updateTradeStatus trades senderId now data).1 = trades ∧
        ∃ message, (updateTradeStatus trades senderId now data).2 = [.error message]) := by
  have hperm : ∀ trade, trades data.tradeId = some trade →
      (changePermitted trade senderId data.status ↔
        selectTrade trades data.tradeId senderId = some trade ∧
          canUpdate trade senderId data.status = true) := by
    intro trade hrow
    unfold changePermitted
    rw [selectTrade_eq_some_iff, canUpdate_eq_true_iff]
    constructor
    · rintro ⟨hp, hc⟩
      exact ⟨⟨hrow, hp⟩, hc⟩
    · rintro ⟨⟨_, hp⟩, hc⟩
      exact ⟨hp, hc⟩
  refine ⟨?_, ?_, ?_⟩
  · rcases updateTradeStatus_cases trades senderId now data with
      ⟨hsel, h⟩ | ⟨trade, hsel, hcan, h⟩ | ⟨trade, hsel, hcan, h⟩
    · rw [h]
      constructor
      · intro ha; exact absurd ha (by rw [applied_error]; decide)
      · rintro ⟨trade, hrow, hp⟩
        rw [((hperm trade hrow).mp hp).1] at hsel
        exact Option.noConfusion hsel
    · rw [h]
      constructor
      · intro ha; exact absurd ha (by rw [applied_error]; decide)
      · rintro ⟨other, hrow, hp⟩
        obtain ⟨hsel2, hcan2⟩ := (hperm other hrow).mp hp
        rw [hsel] at hsel2
        injection hsel2 with hsame
        rw [hsame, hcan2] at hcan
        exact Bool.noConfusion hcan
    · rw [h]
      have hrow := ((selectTrade_eq_some_iff trades data.tradeId senderId trade).mp hsel).1
      constructor
      · intro _
        exact ⟨trade, hrow, (hperm trade hrow).mpr ⟨hsel, hcan⟩⟩
      · intro _
        rfl
  · intro trade hrow hp
    obtain ⟨hsel, hcan⟩ := (hperm trade hrow).mp hp
    rcases updateTradeStatus_cases trades senderId now data with
      ⟨hsel2, _⟩ | ⟨other, hsel2, hcan2, _⟩ | ⟨other, hsel2, _, h⟩
    · rw [hsel] at hsel2
      exact Option.noConfusion hsel2
    · rw [hsel] at hsel2
      injection hsel2 with hsame
      rw [← hsame, hcan] at hcan2
      exact Bool.noConfusion hcan2
    · rw [hsel] at hsel2
      injection hsel2 with hsame
      rw [h, ← hsame]
      rfl
  · intro hnot
    rcases updateTradeStatus_cases trades senderId now data with
      ⟨_, h⟩ | ⟨trade, _, _, h⟩ | ⟨trade, _, _, h⟩
    · rw [h]; exact ⟨rfl, _, rfl⟩
    · rw [h]; exact ⟨rfl, _, rfl⟩
    · rw [h, applied_update] at hnot
      exact Bool.noConfusion hnot

/-- Witness for C23: the provider (user 2) accepts the pending trade 5. -/
theorem status_change_applied_iff_permitted_witness :
    applied (updateTradeStatus oneTrade 2 10
      { tradeId := 5, status := "accepted", notes := none }) = true ∧
    applied (updateTradeStatus oneTrade 1 10
      { tradeId := 5, status := "accepted", notes := none }) = false :=
  ⟨(status_change_applied_iff_permitted oneTrade 2 10
      { tradeId := 5, status := "accepted", notes := none }).1.mpr
      ⟨{ requester_id := 1, provider_id := 2, status := "pending", notes := "",
         completed_at := none },
        rfl, Or.inr rfl, Or.inl ⟨rfl, Or.inl rfl, rfl⟩⟩,
    by decide!⟩

/-- C28: under `update_trade_status` a status never moves backwards: every applied update goes
from pending to accepted or rejected, from accepted to in_progress, or from in_progress to
completed; no update is applied to a trade whose status is completed or rejected; and among
any events handled one after the other at most three apply an update to a given trade. -/
theorem status_only_moves_forward (trades : TradeTable) (senderId : Nat) (now : Int)
    (data : StatusUpdate) (events : List StatusEvent) (tradeId : Nat) :
    (applied (updateTradeStatus trades senderId now data) = true →
      ∃ trade, trades data.tradeId = some trade ∧
        ((trade.status = "pending" ∧ data.status = "accepted") ∨
          (trade.status = "pending" ∧ data.status = "rejected") ∨
          (trade.status = "accepted" ∧ data.status = "in_progress") ∨
          (trade.status = "in_progress" ∧ data.status = "completed")) ∧
        ((updateTradeStatus trades senderId now data).1 data.tradeId).map
            (fun updated => updated.status) = some data.status) ∧
    (∀ trade, trades data.tradeId = some trade →
      (trade.status = "completed" ∨ trade.status = "rejected") →
      applied (updateTradeStatus trades senderId now data) = false ∧
        (updateTradeStatus trades senderId now data).1 = trades) ∧
    successfulUpdates tradeId trades events ≤ 3 := by
  refine ⟨?_, ?_, ?_⟩
  · intro hap
    rcases updateTradeStatus_cases trades senderId now data with
      ⟨_, h⟩ | ⟨trade, _, _, h⟩ | ⟨trade, hsel, hcan, h⟩
    · rw [h, applied_error] at hap; exact Bool.noConfusion hap
    · rw [h, applied_error] at hap; exact Bool.noConfusion hap
    · have hrow := ((selectTrade_eq_some_iff trades data.tradeId senderId trade).mp hsel).1
      refine ⟨trade, hrow, ?_, ?_⟩
      · rcases (canUpdate_eq_true_iff trade senderId data.status).mp hcan with
          ⟨ht, hs | hs, _⟩ | ⟨ht, hs⟩ | ⟨ht, hs⟩
        · exact Or.inl ⟨ht, hs⟩
        · exact Or.inr (Or.inl ⟨ht, hs⟩)
        · exact Or.inr (Or.inr (Or.inl ⟨ht, hs⟩))
        · exact Or.inr (Or.inr (Or.inr ⟨ht, hs⟩))
      · rw [h]
        simp [updatedTrade]
  · intro trade hrow hfinal
    rcases updateTradeStatus_cases trades senderId now data with
      ⟨_, h⟩ | ⟨other, _, _, h⟩ | ⟨other, hsel, hcan, h⟩
    · rw [h]; exact ⟨rfl, rfl⟩
    · rw [h]; exact ⟨rfl, rfl⟩
    · have hrow2 := ((selectTrade_eq_some_iff trades data.tradeId senderId other).mp hsel).1
      rw [hrow] at hrow2
      injection hrow2 with hsame
      subst hsame
      rcases (canUpdate_eq_true_iff trade senderId data.status).mp hcan with
        ⟨ht, _⟩ | ⟨ht, _⟩ | ⟨ht, _⟩ <;> rcases hfinal with hf | hf <;>
        exact absurd (ht.symm.trans hf) (by decide)
  · have := successfulUpdates_add_rank tradeId events trades
    omega


/-- C25: `POST /skills` never gives a user a second `user_skills` row with the same
`(user_id, skill_id, skill_type)`: when such a row exists, active or not, a valid request is
answered 400 without a `userSkillId` and the table keeps its rows; so a table without
duplicate triple stays without one after one request and after any sequence of requests
handled one after the other. -/
theorem post_skills_keeps_triples_unique (store : SkillsStore) (user : AuthUser)
    (req : AddSkillRequest) (requests : List (AuthUser × AddSkillRequest)) :
    (req.errors = [] →
      (∃ row ∈ store.user_skills, row.user_id = user.id ∧
        row.skill_id
          = (resolveSkill store req.skillName req.category (req.description.getD "")).2 ∧
        row.skill_type = req.skillType) →
      (postSkill store user req).2
          = { status := 400, body := .error "You already have this skill in your profile" } ∧
        (postSkill store user req).1.user_skills = store.user_skills) ∧
    (noDuplicateTriple store.user_skills →
      noDuplicateTriple (postSkill store user req).1.user_skills) ∧
    (noDuplicateTriple store.user_skills →
      noDuplicateTriple (handlePosts store requests).user_skills) := by
  refine ⟨?_, postSkill_noDuplicateTriple store user req,
    handlePosts_noDuplicateTriple requests store⟩
  intro herr hex
  rcases postSkill_cases store user req with
    ⟨herr2, _⟩ | ⟨_, _, hresp, hrows⟩ | ⟨_, hfresh, _, _⟩
  · exact absurd herr herr2
  · exact ⟨hresp, hrows⟩
  · obtain ⟨row, hrow, hcond⟩ := hex
    exact absurd hcond (hfresh row hrow)

/-- Witness for C25: user 1 has an inactive offering of skill 10 and asks to add it again. -/
theorem post_skills_keeps_triples_unique_witness :
    (postSkill scenarioStore plainUser offerReact).2
        = { status := 400, body := .error "You already have this skill in your profile" } ∧
    (postSkill scenarioStore plainUser offerReact).1.user_skills = scenarioStore.user_skills ∧
    noDuplicateTriple
      (handlePosts scenarioStore
        [(plainUser, offerReact), (plainUser, { offerReact with skillType := "seeking" }),
         (plainUser, { offerReact with skillType := "seeking" })]).user_skills :=
  ⟨((post_skills_keeps_triples_unique scenarioStore plainUser offerReact []).1 rfl
      ⟨_, List.mem_singleton.mpr rfl, by decide!⟩).1,
    ((post_skills_keeps_triples_unique scenarioStore plainUser offerReact []).1 rfl
      ⟨_, List.mem_singleton.mpr rfl, by decide!⟩).2,
    (post_skills_keeps_triples_unique scenarioStore plainUser offerReact _).2.2 (by decide!)⟩

/-- C29: in `GET /skills/search`, for a validated page (at least 1) and limit (1 to 100), or
their defaults 1 and 20, the offset `(page - 1) * limit` is non-negative, `hasNextPage` is true
exactly when `offset + limit < totalItems`, and `hasPrevPage` is true exactly when the offset
is positive. -/
theorem pagination_flags_match_offset (page limit : Option Int) (totalItems : Nat)
    (hpage : ∀ p, page = some p → 1 ≤ p)
    (hlimit : ∀ l, limit = some l → 1 ≤ l ∧ l ≤ 100) :
    0 ≤ searchOffset page limit ∧
    ((searchPagination page limit totalItems).hasNextPage = true ↔
      searchOffset page limit + limit.getD 20 < (totalItems : Int)) ∧
    ((searchPagination page limit totalItems).hasPrevPage = true ↔
      0 < searchOffset page limit) ∧
    (searchPagination page limit totalItems).totalPages
      = ⌈(totalItems : ℚ) / ((limit.getD 20 : Int) : ℚ)⌉ := by
  obtain ⟨hp, hl, _⟩ := searchQuery_bounds page limit hpage hlimit
  have hlq : (0 : ℚ) < ((limit.getD 20 : Int) : ℚ) := by exact_mod_cast (by omega : 0 < limit.getD 20)
  refine ⟨mul_nonneg (by omega) (by omega), ?_, ?_, rfl⟩
  · unfold searchOffset searchPagination
    simp only [decide_eq_true_eq]
    rw [Int.lt_ceil, lt_div_iff₀ hlq]
    have hsum : (page.getD 1 - 1) * limit.getD 20 + limit.getD 20
        = page.getD 1 * limit.getD 20 := by ring
    rw [hsum]
    constructor
    · intro h
      exact_mod_cast h
    · intro h
      exact_mod_cast h
  · unfold searchOffset searchPagination
    simp only [decide_eq_true_eq]
    constructor
    · intro h
      exact mul_pos (by omega) (by omega)
    · intro h
      by_contra hnot
      have h1 : page.getD 1 = 1 := by omega
      rw [h1] at h
      simp at h

/-- Witness for C29: page 2 with limit 20 over 45 items. -/
theorem pagination_flags_match_offset_witness :
    searchPagination (some 2) (some 20) 45
        = { currentPage := 2, totalPages := 3, totalItems := 45, hasNextPage := true,
            hasPrevPage := true } ∧
    0 ≤ searchOffset (some 2) (some 20) :=
  ⟨by decide!,
    (pagination_flags_match_offset (some 2) (some 20) 45
      (by intro p hp; cases hp; decide) (by intro l hl; cases hl; decide)).1⟩

/-- Witness for C28: in the life of trade 5 exactly three of six events apply an update. -/
theorem status_only_moves_forward_witness :
    successfulUpdates 5 oneTrade tradeLife = 3 ∧ successfulUpdates 5 oneTrade tradeLife ≤ 3 :=
  ⟨by decide!,
    (status_only_moves_forward oneTrade 2 10
      { tradeId := 5, status := "accepted", notes := none } tradeLife 5).2.2⟩

end SkillSwap
